import Mathlib

/-! UNIX v6 filesystem driver: a shallow embedding.

Lean model of the C sources (`bmblock.c`, `sector.c`, `inode.c`, `filev6.c`,
`direntv6.c`, `mount.c`) and theorems about it.

Conventions of the embedding.

* C `int` results are `Int`; error codes are negative integers.
* Unsigned machine integers are `Nat`; wrap-around is written out where the
  source can reach it (`toInt32`, `% 2 ^ 64`, `% 65536`).
* A function whose C body contains a loop that may spin forever takes a
  `fuel : Nat` and returns `Option`; `none` means that the fuel ran out.
  A call that never returns is one that yields `none` for every fuel.
* The disk image is a list of 512-byte sectors; a sector is a list of bytes.
-/

namespace UnixV6

/-! ## Constants and error codes -/

/-- Modelled from the spec: `error.h` is not among the sources. Section 7 lists the
error kinds, "returned as negative integer codes"; the values are numbered here in
the order of that table. Only their sign and their distinctness are used. -/
def ERR_IO : Int := -1
def ERR_BADBOOTSECTOR : Int := -2
def ERR_BAD_PARAMETER : Int := -3
def ERR_INODE_OUTOF_RANGE : Int := -4
def ERR_UNALLOCATED_INODE : Int := -5
def ERR_INVALID_DIRECTORY_INODE : Int := -6
def ERR_OFFSET_OUT_OF_RANGE : Int := -7
def ERR_FILE_TOO_LARGE : Int := -8
def ERR_NOMEM : Int := -9
def ERR_BITMAP_FULL : Int := -10
def ERR_FILENAME_TOO_LONG : Int := -11
def ERR_FILENAME_ALREADY_EXISTS : Int := -12
def ERR_NOT_ENOUGH_BLOCS : Int := -13

/-- Modelled from the spec: `bmblock.h` is not among the sources (section 3:
"`BITS_PER_VECTOR` = 64"). -/
def BITS_PER_VECTOR : Nat := 64

/-- The word `UINT64_C(-1)`. -/
def UINT64_MAX : Nat := 2 ^ 64 - 1

/-- Conversion of an unsigned value to a 32-bit `int` (reduction modulo `2^32`
into the signed range), as done when a `uint64_t` expression is returned from a
function of result type `int`. -/
def toInt32 (n : Nat) : Int :=
  if n % 2 ^ 32 < 2 ^ 31 then ((n % 2 ^ 32 : Nat) : Int)
  else ((n % 2 ^ 32 : Nat) : Int) - 2 ^ 32

/-! ## Bitmap allocator (`bmblock.c`) -/

/-- The `struct bmblock_array`: `length` words `bm`, the search `cursor`, and the
inclusive range `[min, max]` of IDs. -/
structure bmblock_array where
  length : Nat
  cursor : Nat
  min : Nat
  max : Nat
  bm : List Nat
  deriving DecidableEq, Repr

/-- `bm_alloc`: `NULL` (`none`) if `max < min`; otherwise
`ceil((max-min+1)/64.0)` zeroed words. `max-min+1` is a `uint64_t` expression
and wraps. Requests of `2^53` IDs or more (a word array of at least `2^50` bytes,
beyond any address space) are taken to fail in `calloc`; below that bound the
division in `double` is exact. -/
def bm_alloc (min max : Nat) : Option bmblock_array :=
  if max < min then none
  else
    let n := (max - min + 1) % 2 ^ 64
    if 2 ^ 53 ≤ n then none
    else
      let length := (n + (BITS_PER_VECTOR - 1)) / BITS_PER_VECTOR
      some { length := length, cursor := 0, min := min, max := max,
             bm := List.replicate length 0 }

/-- `bm_get`: `ERR_BAD_PARAMETER` outside `[min, max]`, otherwise
`(1 << k & bm[index]) >> k` with `index = floor((x-min)/64.0)` and
`k = x - (min + 64*index)`. The division in `double` is taken as exact, which it
is for `x - min < 2^53`; reading `bm[index]` past the array gives `0`. -/
def bm_get (b : bmblock_array) (x : Nat) : Int :=
  if x > b.max ∨ x < b.min then ERR_BAD_PARAMETER
  else
    let index := (x - b.min) / BITS_PER_VECTOR
    let min_index := b.min + BITS_PER_VECTOR * index
    let mask := (1 <<< (x - min_index)) &&& b.bm.getD index 0
    ((mask >>> (x - min_index) : Nat) : Int)

/-- `bm_set`: out-of-range `x` is ignored; otherwise the bit is or-ed in. -/
def bm_set (b : bmblock_array) (x : Nat) : bmblock_array :=
  if x ≤ b.max ∧ x ≥ b.min then
    let index := (x - b.min) / BITS_PER_VECTOR
    let min_index := b.min + BITS_PER_VECTOR * index
    let mask := 1 <<< (x - min_index)
    { b with bm := b.bm.set index (b.bm.getD index 0 ||| mask) }
  else b

/-- `bm_clear`: out-of-range `x` is ignored; otherwise the bit is masked out and
the cursor is rewound to the word when it lies beyond it. -/
def bm_clear (b : bmblock_array) (x : Nat) : bmblock_array :=
  if x ≤ b.max ∧ x ≥ b.min then
    let index := (x - b.min) / BITS_PER_VECTOR
    let min_index := b.min + BITS_PER_VECTOR * index
    let mask := UINT64_MAX ^^^ (1 <<< (x - min_index))
    { b with bm := b.bm.set index (b.bm.getD index 0 &&& mask),
             cursor := if b.cursor > index then index else b.cursor }
  else b

/-- The `for (i = 0; i < BITS_PER_VECTOR; ++i)` loop of `bm_find_next`, entered at
`i` with `n` iterations left: the first ID of the cursor word on which `bm_get`
answers `0`, converted to `int`; `none` when the loop falls through. -/
def bm_find_next_for (b : bmblock_array) : Nat → Nat → Option Int
  | 0, _ => none
  | n + 1, i =>
    let x := (b.min + b.cursor * BITS_PER_VECTOR + i) % 2 ^ 64
    if bm_get b x = 0 then some (toInt32 x) else bm_find_next_for b n (i + 1)

/-- `bm_find_next`: the `while (cursor < length)` loop, one iteration per unit of
fuel. A word equal to `UINT64_C(-1)` advances the cursor; any other word is
searched by the `for` loop, and when that loop falls through the `while` loop
starts over on the unchanged bitmap. -/
def bm_find_next : Nat → bmblock_array → Option (Int × bmblock_array)
  | 0, _ => none
  | fuel + 1, b =>
    if b.cursor < b.length then
      if b.bm.getD b.cursor 0 ≠ UINT64_MAX then
        match bm_find_next_for b BITS_PER_VECTOR 0 with
        | some x => some (x, b)
        | none => bm_find_next fuel b
      else bm_find_next fuel { b with cursor := b.cursor + 1 }
    else some (ERR_BITMAP_FULL, b)

/-- A bitmap as `bm_alloc` builds it: the word array has the announced length and
covers the range, and the range holds fewer than `2^53` IDs (so that the word
index, which the source computes by a division in `double`, is exact). -/
def bm_valid (b : bmblock_array) : Prop :=
  b.bm.length = b.length ∧ b.min ≤ b.max ∧
  (b.max - b.min) / BITS_PER_VECTOR < b.length ∧ b.max - b.min < 2 ^ 53

instance (b : bmblock_array) : Decidable (bm_valid b) := by
  unfold bm_valid; infer_instance

/-- The bitmap of `test-bitmap.c` as `bm_alloc(4, 131)` returns it: two zeroed
words. -/
def test_bitmap : bmblock_array :=
  { length := 2, cursor := 0, min := 4, max := 131, bm := [0, 0] }

/-- The bitmaps obtained from `bm_alloc` by `bm_set`, `bm_clear` and
`bm_find_next`. -/
inductive bm_reachable : bmblock_array → Prop
  | alloc (min max : Nat) (b : bmblock_array) :
      bm_alloc min max = some b → bm_reachable b
  | set (b : bmblock_array) (x : Nat) : bm_reachable b → bm_reachable (bm_set b x)
  | clear (b : bmblock_array) (x : Nat) : bm_reachable b → bm_reachable (bm_clear b x)
  | find_next (b b' : bmblock_array) (fuel : Nat) (r : Int) :
      bm_reachable b → bm_find_next fuel b = some (r, b') → bm_reachable b'

/-- The cursor invariant: the word array is short enough for ID arithmetic not to
wrap, and every word before the cursor is all-ones. -/
def bm_inv (b : bmblock_array) : Prop :=
  b.length ≤ 2 ^ 47 ∧ ∀ j, j < b.cursor → b.bm.getD j 0 = UINT64_MAX

/-- The test bitmap after `bm_set` of 4, 5 and 6. -/
def test_bitmap_456 : bmblock_array :=
  bm_set (bm_set (bm_set test_bitmap 4) 5) 6

/-- The test bitmap after the further `for (i = 4; i < 131; i += 3) bm_set(b, i)`. -/
def test_bitmap_third : bmblock_array :=
  (List.range 43).foldl (fun b k => bm_set b (4 + 3 * k)) test_bitmap_456

/-- The test bitmap after the further `for (i = 5; i < 131; i += 5) bm_clear(b, i)`. -/
def test_bitmap_fifth : bmblock_array :=
  (List.range 26).foldl (fun b k => bm_clear b (5 + 5 * k)) test_bitmap_third

/-- A one-word bitmap over the 64 IDs from `2^32` on, as `bm_alloc` returns it. -/
def bitmap_above_int : bmblock_array :=
  { length := 1, cursor := 0, min := 4294967296, max := 4294967359, bm := [0] }

/-- The inode bitmap of a 16-inode filesystem, range `[2, 15]`, with all of its 14
IDs set: one word whose low 14 bits are ones. -/
def bitmap_2_15_full : bmblock_array :=
  { length := 1, cursor := 0, min := 2, max := 15, bm := [16383] }

/-! ## On-disk constants (`unixv6fs.h`) -/

/-- Modelled from the spec: `unixv6fs.h` is not among the sources. Sector size and
record counts are those of sections 3 and 6 of the spec; the mode bits and the
boot-block magic are those of the UNIX v6 layout the header describes. -/
def SECTOR_SIZE : Nat := 512
def INODES_PER_SECTOR : Nat := 16
def ADDR_SMALL_LENGTH : Nat := 8
def ADDRESSES_PER_SECTOR : Nat := 256
def DIRENT_MAXLEN : Nat := 14
def DIRENTRIES_PER_SECTOR : Nat := 32
def ROOT_INUMBER : Nat := 1
def BOOTBLOCK_SECTOR : Nat := 0
def SUPERBLOCK_SECTOR : Nat := 1
def BOOTBLOCK_MAGIC_NUM_OFFSET : Nat := 510
def BOOTBLOCK_MAGIC_NUM : Nat := 245
def IALLOC : Nat := 32768
def IFMT : Nat := 24576
def IFDIR : Nat := 16384

/-- Reduction of a mathematical integer to a 32-bit `int`: the representative of
`z` modulo `2^32` in the range from `-2^31` to `2^31 - 1`. -/
def wrapInt32 (z : Int) : Int :=
  if z % 2 ^ 32 < 2 ^ 31 then z % 2 ^ 32 else z % 2 ^ 32 - 2 ^ 32

/-! ## Sector I/O (`sector.c`) -/

/-- A sector of zero bytes. -/
def zero_sector : List Nat := List.replicate SECTOR_SIZE 0

/-- The 512 bytes found at a pointer: the first 512 bytes of the memory modelled
behind it, zero where the model holds none. -/
def sector_of_memory (data : List Nat) : List Nat :=
  data.take SECTOR_SIZE ++ List.replicate (SECTOR_SIZE - data.length) 0

/-- `sector_read`: `pos_sector = sector * SECTOR_SIZE` is computed in `uint32_t`
and stored in an `int`; `fseek` rejects a negative position and `fread` comes up
short past the end of the image. `none` stands for the result `ERR_IO` (the
destination is left as it was), `some d` for the result `0` with `d` read. -/
def sector_read (f : List (List Nat)) (sector : Nat) : Option (List Nat) :=
  let pos_sector := toInt32 (sector * SECTOR_SIZE)
  if pos_sector < 0 then none else f.get? (pos_sector.toNat / SECTOR_SIZE)

/-- `sector_write`: same positioning; writing past the end of the image extends
it, the gap reading as zero bytes. `none` stands for the result `ERR_IO`, `some f'`
for the result `0` with the new image. -/
def sector_write (f : List (List Nat)) (sector : Nat) (data : List Nat) :
    Option (List (List Nat)) :=
  let pos_sector := toInt32 (sector * SECTOR_SIZE)
  if pos_sector < 0 then none
  else
    let k := pos_sector.toNat / SECTOR_SIZE
    if k < f.length then some (f.set k (sector_of_memory data))
    else some (f ++ List.replicate (k - f.length) zero_sector ++ [sector_of_memory data])

/-! ## Superblock and filesystem handle -/

/-- Modelled from the spec: the declaration of `struct superblock` (`unixv6fs.h`) is
not among the sources. The fields are those of section 3 of the spec and of
`mountv6_print_superblock`, in the order the latter prints them. -/
structure superblock where
  s_isize : Nat
  s_fsize : Nat
  s_fbmsize : Nat
  s_ibmsize : Nat
  s_inode_start : Nat
  s_block_start : Nat
  s_fbm_start : Nat
  s_ibm_start : Nat
  s_flock : Nat
  s_ilock : Nat
  s_fmod : Nat
  s_ronly : Nat
  s_time : List Nat
  deriving DecidableEq, Repr

/-- The `struct unix_filesystem`: the image behind `f`, the superblock and the two
bitmaps. -/
structure unix_filesystem where
  f : List (List Nat)
  s : superblock
  fbm : bmblock_array
  ibm : bmblock_array
  deriving DecidableEq, Repr

/-! ## Inode layer (`inode.c`) -/

/-- The `struct inode`, 32 bytes on disk. -/
structure inode where
  i_mode : Nat
  i_nlink : Nat
  i_uid : Nat
  i_gid : Nat
  i_size0 : Nat
  i_size1 : Nat
  i_addr : List Nat
  i_atime : List Nat
  i_mtime : List Nat
  deriving DecidableEq, Repr

/-- The record left by `memset(&ino, 0, sizeof(ino))`. -/
def inode_zero : inode :=
  { i_mode := 0, i_nlink := 0, i_uid := 0, i_gid := 0, i_size0 := 0, i_size1 := 0,
    i_addr := List.replicate ADDR_SMALL_LENGTH 0, i_atime := [0, 0], i_mtime := [0, 0] }

/-- The expression `((uint16_t)s[k+1]) << 8 | (uint16_t)s[k]` stored in a
`uint16_t`. -/
def read_u16 (s : List Nat) (k : Nat) : Nat :=
  (s.getD (k + 1) 0 <<< 8 ||| s.getD k 0) % 65536

/-- The field assignments of `inode_read` (and of `inode_scan_print`): the record
held in the 32 bytes of `s` from byte `i` on. -/
def inode_decode (s : List Nat) (i : Nat) : inode :=
  { i_mode := read_u16 s i,
    i_nlink := s.getD (i + 2) 0,
    i_uid := s.getD (i + 3) 0,
    i_gid := s.getD (i + 4) 0,
    i_size0 := s.getD (i + 5) 0,
    i_size1 := read_u16 s (i + 6),
    i_addr := (List.range ADDR_SMALL_LENGTH).map (fun j => read_u16 s (i + 8 + 2 * j)),
    i_atime := [read_u16 s (i + 24), read_u16 s (i + 26)],
    i_mtime := [read_u16 s (i + 28), read_u16 s (i + 30)] }

/-- The two bytes of a `uint16_t` in memory, low byte first (little-endian host). -/
def bytes_u16 (x : Nat) : List Nat := [x % 256, x / 256 % 256]

/-- The 32 bytes of a `struct inode` in memory: the fields in the order in which
`inode_read` decodes them, 16-bit fields low byte first. This is what the
assignment `inodes[k] = *inode` stores and what `sector_write` then sends to disk. -/
def inode_bytes (ino : inode) : List Nat :=
  bytes_u16 ino.i_mode ++ [ino.i_nlink % 256, ino.i_uid % 256, ino.i_gid % 256,
    ino.i_size0 % 256] ++ bytes_u16 ino.i_size1 ++
  ((List.range ADDR_SMALL_LENGTH).map (fun j => bytes_u16 (ino.i_addr.getD j 0))).flatten ++
  bytes_u16 (ino.i_atime.getD 0 0) ++ bytes_u16 (ino.i_atime.getD 1 0) ++
  bytes_u16 (ino.i_mtime.getD 0 0) ++ bytes_u16 (ino.i_mtime.getD 1 0)

/-- Modelled from the spec: `inode_getsize` is declared in `inode.h`, which is not
among the sources. Section 3: "Size is a 24-bit unsigned integer assembled as
`(i_size0 << 16) | i_size1`". -/
def inode_getsize (i : inode) : Int :=
  ((i.i_size0 <<< 16 ||| i.i_size1 : Nat) : Int)

/-- `inode_setsize`: `ERR_NOMEM` on a negative size; otherwise
`i_size0 = (uint8_t)(new_size >> 16)` and
`i_size1 = (uint16_t)((new_size << 8) >> 8)`, the left shift being done in 32-bit
`int`. -/
def inode_setsize (ino : inode) (new_size : Int) : Int × inode :=
  if new_size < 0 then (ERR_NOMEM, ino)
  else
    (0, { ino with
          i_size0 := ((new_size >>> (16 : Nat)) % 256).toNat,
          i_size1 := ((wrapInt32 (new_size * 256) >>> (8 : Nat)) % 65536).toNat })

/-- The first loop of `inode_read` and `inode_write`: every sector of the inode
table can be read. -/
def inode_table_readable (u : unix_filesystem) : Bool :=
  (List.range u.s.s_isize).all (fun i => (sector_read u.f (u.s.s_inode_start + i)).isSome)

/-- The `while (counter <= inr)` loop of `inode_read` and `inode_write`: reads the
table sectors one after the other into the buffer (a failed read leaves it as it
was) and stops with `counter > inr`. The result is the final sector count and
buffer. The loop runs `inr / 16 + 1` times; `n` bounds the iterations. -/
def inode_seek (f : List (List Nat)) (start inr : Nat) :
    Nat → Nat → Nat → List Nat → Nat × List Nat
  | 0, _, sector_nbr, buf => (sector_nbr, buf)
  | n + 1, counter, sector_nbr, buf =>
    if counter ≤ inr then
      inode_seek f start inr n (counter + INODES_PER_SECTOR) (sector_nbr + 1)
        ((sector_read f (start + sector_nbr)).getD buf)
    else (sector_nbr, buf)

/-- `inode_read` for a 16-bit `inr`: the result code and the record left in
`*inode`. The record is zeroed first and stays zero on the two early errors;
`ERR_UNALLOCATED_INODE` is returned after the record has been decoded. -/
def inode_read (u : unix_filesystem) (inr : Nat) : Int × inode :=
  if ¬ inode_table_readable u then ( ERR_IO, inode_zero)
  else if (inr : Int) > (u.s.s_isize : Int) * INODES_PER_SECTOR - 1 then
    (ERR_INODE_OUTOF_RANGE, inode_zero)
  else
    let r := inode_seek u.f u.s.s_inode_start inr (inr + 1) 0 0 zero_sector
    let i := (inr - (r.1 - 1) * INODES_PER_SECTOR) * 32
    let ino := inode_decode r.2 i
    if ino.i_mode &&& IALLOC = 0 then (ERR_UNALLOCATED_INODE, ino) else (0, ino)

/-- The store `inodes[inr] = *inode` into the 16-record buffer `buf`. For
`inr ≥ 16` the store lands outside the buffer (undefined behaviour in C): the
buffer, which is all that `sector_write` sends to disk, is unchanged, and the
effect of the stray store on other memory is not modelled. -/
def inode_store (buf : List Nat) (inr : Nat) (ino : inode) : List Nat :=
  if inr < INODES_PER_SECTOR then
    buf.take (32 * inr) ++ inode_bytes ino ++ buf.drop (32 * inr + 32)
  else buf

/-- `inode_write` for a 16-bit `inr`: the result code and the filesystem
afterwards. -/
def inode_write (u : unix_filesystem) (inr : Nat) (ino : inode) : Int × unix_filesystem :=
  if ¬ inode_table_readable u then ( ERR_IO, u)
  else if (inr : Int) > (u.s.s_isize : Int) * INODES_PER_SECTOR - 1 then
    (ERR_INODE_OUTOF_RANGE, u)
  else
    let r := inode_seek u.f u.s.s_inode_start inr (inr + 1) 0 0 zero_sector
    let index := r.1 - 1
    let sector_nbr := u.s.s_inode_start + index
    match sector_write u.f sector_nbr (inode_store r.2 inr ino) with
    | none => ( ERR_IO, u)
    | some f' => (0, { u with f := f' })

/-- `inode_findsector`: the range test `file_sec_off * SECTOR_SIZE + 1 > size` is
done in 32-bit `int`. In the direct case the answer is `i_addr[file_sec_off]`; in
the indirect case the sector `i_addr[file_sec_off / 256]` is read as 256
little-endian `uint16_t` and entry `file_sec_off % 256` is the answer. Array
reads outside `i_addr` (undefined behaviour, reachable only with a negative
offset) are modelled as `0`. -/
def inode_findsector (u : unix_filesystem) (i : inode) (file_sec_off : Int) : Int :=
  let size_file := inode_getsize i
  if wrapInt32 (wrapInt32 (file_sec_off * SECTOR_SIZE) + 1) > size_file then
    ERR_OFFSET_OUT_OF_RANGE
  else if i.i_mode &&& IALLOC = 0 then ERR_UNALLOCATED_INODE
  else if size_file ≤ ADDR_SMALL_LENGTH * SECTOR_SIZE then
    if 0 ≤ file_sec_off then ((i.i_addr.getD file_sec_off.toNat 0 : Nat) : Int) else 0
  else if size_file > ADDR_SMALL_LENGTH * SECTOR_SIZE ∧ size_file ≤ 7 * 256 * SECTOR_SIZE then
    let secteur_indirect := Int.tdiv file_sec_off ADDRESSES_PER_SECTOR
    if 0 ≤ secteur_indirect then
      match sector_read u.f (i.i_addr.getD secteur_indirect.toNat 0) with
      | none => ERR_IO
      | some adresses =>
        let k := (Int.tmod file_sec_off ADDRESSES_PER_SECTOR).toNat
        (((adresses.getD (2 * k + 1) 0 * 256 + adresses.getD (2 * k) 0) % 65536 : Nat) : Int)
    else 0
  else ERR_FILE_TOO_LARGE

/-- `inode_alloc`: the next free ID of `ibm` as `bm_find_next` gives it, marked with
`bm_set`; `ERR_NOMEM` on a negative answer. `none` when `bm_find_next` does not
return within the fuel. -/
def inode_alloc (fuel : Nat) (u : unix_filesystem) : Option (Int × unix_filesystem) :=
  match bm_find_next fuel u.ibm with
  | none => none
  | some (next, ibm') =>
    if next < 0 then some (ERR_NOMEM, { u with ibm := ibm' })
    else some (next, { u with ibm := bm_set ibm' next.toNat })

/-! ## File layer (`filev6.c`) -/

/-- The `struct filev6` without its back pointer to the filesystem, which the
model passes alongside. -/
structure filev6 where
  i_number : Nat
  i_node : inode
  offset : Int
  deriving DecidableEq, Repr

/-- `filev6_open`: the result of `inode_read`, with the descriptor left behind
(zeroed, then `i_number`, `offset = 0` and whatever `inode_read` stored). -/
def filev6_open (u : unix_filesystem) (inr : Nat) : Int × filev6 :=
  let r := inode_read u inr
  (r.1, { i_number := inr, i_node := r.2, offset := 0 })

/-- `filev6_readblock`: result code, descriptor and destination buffer afterwards.
The sector index passed to `inode_findsector` is `offset / SECTOR_SIZE` in C
`int` division. -/
def filev6_readblock (u : unix_filesystem) (fv6 : filev6) (buf : List Nat) :
    Int × filev6 × List Nat :=
  if fv6.offset > inode_getsize fv6.i_node then (ERR_OFFSET_OUT_OF_RANGE, fv6, buf)
  else if fv6.offset = inode_getsize fv6.i_node then (0, fv6, buf)
  else
    let bytes_read := inode_getsize fv6.i_node - fv6.offset
    let sector_number := inode_findsector u fv6.i_node (Int.tdiv fv6.offset SECTOR_SIZE)
    if sector_number < 0 then (sector_number, fv6, buf)
    else
      match sector_read u.f sector_number.toNat with
      | none => ( ERR_IO, fv6, buf)
      | some d =>
        let n := if bytes_read > SECTOR_SIZE then (SECTOR_SIZE : Int) else bytes_read
        (n, { fv6 with offset := fv6.offset + n }, d)

/-- `filev6_lseek`. -/
def filev6_lseek (fv6 : filev6) (offset : Int) : Int × filev6 :=
  if offset ≥ inode_getsize fv6.i_node ∨ offset < 0 then (ERR_OFFSET_OUT_OF_RANGE, fv6)
  else (0, { fv6 with offset := offset })

/-- `filev6_create`: writes a zeroed record with `i_mode = mode` at
`fv6->i_number` and copies it into the descriptor. -/
def filev6_create (u : unix_filesystem) (mode : Nat) (fv6 : filev6) :
    Int × unix_filesystem × filev6 :=
  let ino := { inode_zero with i_mode := mode % 65536 }
  let w := inode_write u fv6.i_number ino
  if w.1 < 0 then (w.1, w.2, fv6) else (0, w.2, { fv6 with i_node := ino })

/-- `filev6_writesector`: result code, filesystem and descriptor afterwards; `buf`
is the memory behind the source pointer. `none` when the call does not return:
`bm_find_next` out of fuel, or `memcpy` called with a negative length (converted
to a huge `size_t`). Stores outside `i_addr` (undefined behaviour, excluded by the
cap of `filev6_writebytes`) are modelled as leaving the record unchanged, reads
outside it as `0`. -/
def filev6_writesector (fuel : Nat) (u : unix_filesystem) (fv6 : filev6) (buf : List Nat)
    (len : Int) : Option (Int × unix_filesystem × filev6) :=
  let inode_size := inode_getsize fv6.i_node
  if inode_size > 7 * 256 * 512 then some (ERR_FILE_TOO_LARGE, u, fv6)
  else
    let taille_rest1 := wrapInt32 (len - fv6.offset)
    if inode_size % SECTOR_SIZE = 0 then
      match bm_find_next fuel u.fbm with
      | none => none
      | some (num_sector, fbm') =>
        if num_sector < 0 then some (num_sector, { u with fbm := fbm' }, fv6)
        else
          let nb_bytes := if taille_rest1 ≤ SECTOR_SIZE then taille_rest1 else (SECTOR_SIZE : Int)
          if nb_bytes = 0 then some (0, { u with fbm := fbm' }, fv6)
          else
            match sector_write u.f num_sector.toNat buf with
            | none => some ( ERR_IO, { u with fbm := fbm' }, fv6)
            | some f' =>
              let counter := inode_size + nb_bytes
              let index := Int.tdiv counter SECTOR_SIZE
              let i_addr' :=
                if 0 ≤ index then fv6.i_node.i_addr.set index.toNat (num_sector.toNat % 65536)
                else fv6.i_node.i_addr
              let ino := (inode_setsize { fv6.i_node with i_addr := i_addr' }
                            (inode_size + nb_bytes)).2
              some (nb_bytes, { u with f := f', fbm := bm_set fbm' num_sector.toNat },
                    { fv6 with i_node := ino, offset := fv6.offset + nb_bytes })
    else
      let rempli := inode_size % SECTOR_SIZE
      let taille_rest2 := SECTOR_SIZE - rempli
      let nb_bytes := if taille_rest1 ≤ taille_rest2 then taille_rest1 else taille_rest2
      if nb_bytes = 0 then some (0, u, fv6)
      else
        let index := (inode_size / SECTOR_SIZE).toNat
        match sector_read u.f (fv6.i_node.i_addr.getD index 0) with
        | none => some ( ERR_IO, u, fv6)
        | some secteur =>
          if nb_bytes < 0 then none
          else
            let secteur' := secteur.take rempli.toNat ++
              (sector_of_memory buf).take nb_bytes.toNat ++
              secteur.drop (rempli.toNat + nb_bytes.toNat)
            match sector_write u.f (fv6.i_node.i_addr.getD index 0) secteur' with
            | none => some ( ERR_IO, u, fv6)
            | some f' =>
              let ino := (inode_setsize fv6.i_node (inode_size + nb_bytes)).2
              some (nb_bytes, { u with f := f' },
                    { fv6 with i_node := ino, offset := fv6.offset + nb_bytes })

/-- The `while ((written = filev6_writesector(...)) > 0)` loop of
`filev6_writebytes`, one iteration per unit of fuel: the last value of `written`
with the state it left. `taille` counts down the bytes; `buf` advances by
`written` while `taille` stays positive. -/
def filev6_writebytes_loop (len : Int) :
    Nat → unix_filesystem → filev6 → List Nat → Int →
      Option (Int × unix_filesystem × filev6)
  | 0, _, _, _, _ => none
  | fuel + 1, u, fv6, buf, taille =>
    match filev6_writesector fuel u fv6 buf len with
    | none => none
    | some (written, u', fv6') =>
      if written > 0 then
        let taille' := taille - written
        filev6_writebytes_loop len fuel u' fv6'
          (if taille' > 0 then buf.drop written.toNat else buf) taille'
      else some (written, u', fv6')

/-- `filev6_writebytes`: `ERR_FILE_TOO_LARGE` above the cap of 4000 bytes,
otherwise the write loop followed by `inode_write` of the cached record. -/
def filev6_writebytes (fuel : Nat) (u : unix_filesystem) (fv6 : filev6) (buf : List Nat)
    (len : Int) : Option (Int × unix_filesystem × filev6) :=
  if wrapInt32 (inode_getsize fv6.i_node + len) > 4 * 1000 then
    some (ERR_FILE_TOO_LARGE, u, fv6)
  else
    match filev6_writebytes_loop len fuel u fv6 buf len with
    | none => none
    | some (written, u', fv6') =>
      if written < 0 then some (written, u', fv6')
      else
        let w := inode_write u' fv6'.i_number fv6'.i_node
        if w.1 < 0 then some (w.1, w.2, fv6') else some (0, w.2, fv6')

/-- The read-back loop of a caller such as `do_cat`: `filev6_readblock` is called
until it answers `0` or an error, and the first `bytes_read` bytes of every
buffer are appended. The result is the last answer and the bytes collected. -/
def read_all (u : unix_filesystem) : Nat → filev6 → List Nat → Option (Int × List Nat)
  | 0, _, _ => none
  | fuel + 1, fv6, acc =>
    let r := filev6_readblock u fv6 zero_sector
    if r.1 > 0 then read_all u fuel r.2.1 (acc ++ r.2.2.take r.1.toNat)
    else some (r.1, acc)

/-! ## Directory layer (`direntv6.c`) -/

/-- The `struct directory_reader`: the open file, the buffer `dirs` of one sector of
entries (kept as its 512 bytes), and the counters `cur` and `last`. -/
structure directory_reader where
  fv6 : filev6
  dirs : List Nat
  cur : Nat
  last : Nat
  deriving DecidableEq, Repr

/-- Modelled from the spec: the declaration of `struct direntv6` (`unixv6fs.h`) is
not among the sources. Section 3: "16 bytes: 14-byte name (NUL-padded) followed by
a u16 inode number". Entry `k` of a buffer is its bytes `16k .. 16k+15`. -/
def dirent_name (dirs : List Nat) (k : Nat) : List Nat :=
  (dirs.drop (16 * k)).take DIRENT_MAXLEN

def dirent_inumber (dirs : List Nat) (k : Nat) : Nat :=
  dirs.getD (16 * k + 14) 0 + 256 * dirs.getD (16 * k + 15) 0

/-- The 16 bytes of a `struct direntv6` after `memset(&dv6, 0, ...)`,
`d_inumber = inr` and `strncpy(d_name, name, strlen(name))`. -/
def dirent_bytes (name : List Nat) (inr : Nat) : List Nat :=
  name.take DIRENT_MAXLEN ++ List.replicate (DIRENT_MAXLEN - name.length) 0 ++
    bytes_u16 inr

/-- A C string as the list of its bytes before the terminating NUL:
`strncmp(a, b, n) == 0`. -/
def strncmp_eq (a b : List Nat) (n : Nat) : Bool :=
  decide ((a ++ [0]).take n = (b ++ [0]).take n)

/-- The string left by `strncpy(name, src, DIRENT_MAXLEN)` into a zeroed buffer of
`DIRENT_MAXLEN + 1` bytes: the bytes of `src` before its first NUL, at most 14. -/
def strncpy_name (src : List Nat) : List Nat :=
  (src.take DIRENT_MAXLEN).takeWhile (fun c => c ≠ 0)

/-- `direntv6_opendir`. The reader is zeroed, then filled by `filev6_open`. -/
def direntv6_opendir (u : unix_filesystem) (inr : Nat) : Int × directory_reader :=
  let o := filev6_open u inr
  let d : directory_reader := { fv6 := o.2, dirs := zero_sector, cur := 0, last := 0 }
  if o.1 < 0 then (o.1, d)
  else if o.2.i_node.i_mode &&& IALLOC = 0 ∧ o.2.i_node.i_mode &&& IFMT ≠ IFDIR then
    (ERR_UNALLOCATED_INODE, d)
  else if o.2.i_node.i_mode &&& IFMT ≠ IFDIR then (ERR_INVALID_DIRECTORY_INODE, d)
  else (0, d)

/-- `direntv6_readdir`: result code, reader, and the contents of `name` and
`*child_inr` afterwards. When `filev6_readblock` answers `0` or an error the two
outputs are left as they were. -/
def direntv6_readdir (u : unix_filesystem) (d : directory_reader) (name : List Nat)
    (child_inr : Nat) : Int × directory_reader × List Nat × Nat :=
  let step (d : directory_reader) : Int × directory_reader × List Nat × Nat :=
    let k := d.cur % DIRENTRIES_PER_SECTOR
    (1, { d with cur := d.cur + 1 }, strncpy_name (dirent_name d.dirs k),
      dirent_inumber d.dirs k)
  if d.cur = d.last then
    let r := filev6_readblock u d.fv6 zero_sector
    if r.1 ≤ 0 then (r.1, { d with fv6 := r.2.1 }, name, child_inr)
    else step { d with fv6 := r.2.1, dirs := r.2.2, last := d.last + (r.1 / 16).toNat }
  else step d

/-- The pointer returned by `strchr(entry, '/')`: the suffix of `entry` from its
first `'/'` on, `none` for `NULL`. -/
def strchr_slash : List Nat → Option (List Nat)
  | [] => none
  | c :: cs => if c = 47 then some (c :: cs) else strchr_slash cs

/-- The `do ... while (err > 0)` loop of `direntv6_dirlookup_core`, one iteration
per unit of fuel. `name` and `child_inr` are the two locals that
`direntv6_readdir` fills; `recurse` is the recursive call on a child inode. -/
def dirlookup_loop (u : unix_filesystem) (entry : List Nat) (l : Nat)
    (recurse : Nat → Option Int) :
    Nat → directory_reader → List Nat → Nat → Option Int
  | 0, _, _, _ => none
  | fuel + 1, d, name, child_inr =>
    let r := direntv6_readdir u d name child_inr
    if r.1 < 0 then some r.1
    else if strncmp_eq r.2.2.1 entry entry.length then some (r.2.2.2 : Int)
    else if strncmp_eq r.2.2.1 entry l then recurse r.2.2.2
    else if r.1 > 0 then dirlookup_loop u entry l recurse fuel r.2.1 r.2.2.1 r.2.2.2
    else some ERR_INODE_OUTOF_RANGE

/-- `direntv6_dirlookup_core`, one level of recursion per unit of fuel. The locals
`name` and `child_inr` are not initialised by the source; `name0` and `inr0` stand
for what they hold on entry (the same at every level of the recursion). The
parameter `length` of the source is never read and is left out. -/
def direntv6_dirlookup_core (name0 : List Nat) (inr0 : Nat) (u : unix_filesystem) :
    Nat → Nat → List Nat → Option Int
  | 0, _, _ => none
  | fuel + 1, inr, entry =>
    let entry := entry.dropWhile (fun c => c = 47)
    if entry.length = 0 then some (inr : Int)
    else
      let o := direntv6_opendir u inr
      if o.1 < 0 then some o.1
      else
        let ptr := strchr_slash entry
        let l := entry.length - (ptr.getD []).length
        dirlookup_loop u entry l
          (fun child => direntv6_dirlookup_core name0 inr0 u fuel (child % 65536)
            (ptr.getD []))
          fuel o.2 name0 inr0

/-- `direntv6_dirlookup`. -/
def direntv6_dirlookup (name0 : List Nat) (inr0 : Nat) (fuel : Nat) (u : unix_filesystem)
    (inr : Nat) (entry : List Nat) : Option Int :=
  direntv6_dirlookup_core name0 inr0 u fuel inr entry

/-- The string after the last `'/'` of `entry` (`strrchr(entry, '/') + 1`), `none`
when `entry` holds no `'/'`. -/
def leaf_name (entry : List Nat) : Option (List Nat) :=
  if 47 ∈ entry then some ((entry.reverse.takeWhile (fun c => c ≠ 47)).reverse) else none

/-- `direntv6_create`: result code and filesystem afterwards. `none` when the call
does not return: a callee out of fuel, or `entry` without any `'/'` (`strrchr`
gives `NULL` and `strlen` is applied to `NULL + 1`). -/
def direntv6_create (name0 : List Nat) (inr0 : Nat) (fuel : Nat) (u : unix_filesystem)
    (entry : List Nat) (mode : Nat) : Option (Int × unix_filesystem) :=
  match direntv6_dirlookup name0 inr0 fuel u ROOT_INUMBER entry with
  | none => none
  | some err =>
    if err > 0 then some (ERR_FILENAME_ALREADY_EXISTS, u)
    else
      match leaf_name entry with
      | none => none
      | some ptr =>
        if ptr.length > DIRENT_MAXLEN then some (ERR_FILENAME_TOO_LONG, u)
        else
          let repertoire := entry.take (entry.length - ptr.length)
          match direntv6_dirlookup name0 inr0 fuel u ROOT_INUMBER repertoire with
          | none => none
          | some num_inode =>
            if num_inode ≤ 0 then some (ERR_BAD_PARAMETER, u)
            else
              match inode_alloc fuel u with
              | none => none
              | some (next, u1) =>
                if next < 0 then some (next, u1)
                else
                  let ino := { inode_zero with i_mode := mode % 65536 }
                  let w := inode_write u1 (next.toNat % 65536) ino
                  if w.1 < 0 then some (w.1, w.2)
                  else
                    let dv6 := dirent_bytes ptr (next.toNat % 65536)
                    let o := filev6_open w.2 (num_inode.toNat % 65536)
                    if o.1 < 0 then some (o.1, w.2)
                    else
                      match filev6_writebytes fuel w.2 o.2 dv6 16 with
                      | none => none
                      | some (err, u3, _) =>
                        if err < 0 then some (err, u3) else some (next, u3)

/-! ## Mount and format (`mount.c`) -/

/-- Modelled from the spec: the layout of `struct superblock` (`unixv6fs.h`) is not
among the sources. The 16-bit fields are taken low byte first at consecutive
offsets, in the order of the structure `superblock` above. -/
def superblock_decode (s : List Nat) : superblock :=
  { s_isize := read_u16 s 0, s_fsize := read_u16 s 2, s_fbmsize := read_u16 s 4,
    s_ibmsize := read_u16 s 6, s_inode_start := read_u16 s 8,
    s_block_start := read_u16 s 10, s_fbm_start := read_u16 s 12,
    s_ibm_start := read_u16 s 14, s_flock := s.getD 16 0, s_ilock := s.getD 17 0,
    s_fmod := s.getD 18 0, s_ronly := s.getD 19 0,
    s_time := [read_u16 s 20, read_u16 s 22] }

/-- The bytes of a `struct superblock` in memory, inverse to `superblock_decode`. -/
def superblock_bytes (s : superblock) : List Nat :=
  bytes_u16 s.s_isize ++ bytes_u16 s.s_fsize ++ bytes_u16 s.s_fbmsize ++
  bytes_u16 s.s_ibmsize ++ bytes_u16 s.s_inode_start ++ bytes_u16 s.s_block_start ++
  bytes_u16 s.s_fbm_start ++ bytes_u16 s.s_ibm_start ++
  [s.s_flock % 256, s.s_ilock % 256, s.s_fmod % 256, s.s_ronly % 256] ++
  bytes_u16 (s.s_time.getD 0 0) ++ bytes_u16 (s.s_time.getD 1 0)

/-- The inner `for (j = 0; j < INODES_PER_SECTOR; ++j)` loop of `fill_ibm` that
tests `tab[j].i_mode & IALLOC`, for table sector number `m` (counted from the
start of the table). -/
def fill_ibm_sector (tab : List Nat) (m : Nat) (ibm : bmblock_array) : bmblock_array :=
  (List.range INODES_PER_SECTOR).foldl
    (fun b j =>
      if (tab.getD (32 * j) 0 + 256 * tab.getD (32 * j + 1) 0) &&& IALLOC ≠ 0 then
        bm_set b (m * INODES_PER_SECTOR + j)
      else b) ibm

/-- The outer loop of `fill_ibm`, `n` iterations from table sector `m` on. `tab` is
the sector buffer: a failed read leaves it as it was, and then all 16 bits of the
sector are set before the buffer is examined. -/
def fill_ibm_loop (f : List (List Nat)) (start : Nat) :
    Nat → Nat → List Nat → bmblock_array → bmblock_array
  | 0, _, _, ibm => ibm
  | n + 1, m, tab, ibm =>
    match sector_read f (start + m) with
    | none =>
      let all := (List.range INODES_PER_SECTOR).foldl
        (fun b j => bm_set b (m * INODES_PER_SECTOR + j)) ibm
      fill_ibm_loop f start n (m + 1) tab (fill_ibm_sector tab m all)
    | some tab' => fill_ibm_loop f start n (m + 1) tab' (fill_ibm_sector tab' m ibm)

/-- `fill_ibm`: the loop
`for (i = s_inode_start; i < s_inode_start + s_isize - 1; ++i)`, that is
`s_isize - 1` iterations. The buffer `tab` is not initialised by the source and
is taken to hold zeros at first. -/
def fill_ibm (u : unix_filesystem) : unix_filesystem :=
  { u with ibm := fill_ibm_loop u.f u.s.s_inode_start (u.s.s_isize - 1) 0 zero_sector u.ibm }

/-- The `while (offset < inode_getsize(&ind))` loop of `fill_fbm`, one iteration per
unit of fuel. An answer `index ≤ 0` of `inode_findsector` changes nothing, and
the loop goes round again. -/
def fill_fbm_inode (u : unix_filesystem) (ind : inode) :
    Nat → Int → Int → bmblock_array → Option bmblock_array
  | 0, _, _, _ => none
  | fuel + 1, offset, file_sec_off, fbm =>
    if offset < inode_getsize ind then
      let index := inode_findsector u ind file_sec_off
      if index > 0 then
        fill_fbm_inode u ind fuel (offset + SECTOR_SIZE) (file_sec_off + 1)
          (bm_set fbm index.toNat)
      else fill_fbm_inode u ind fuel offset file_sec_off fbm
    else some fbm

/-- The work of `fill_fbm` for one inode number `i`: nothing unless
`bm_get(ibm, i) == 1` or `i == ROOT_INUMBER`, and unless `inode_read` (whose
parameter is 16 bits wide) succeeds; for a size above `8 * 512` the eight entries
of `i_addr` are marked; then the sectors of the file are marked. -/
def fill_fbm_step (fuel : Nat) (u : unix_filesystem) (i : Nat) (fbm : bmblock_array) :
    Option bmblock_array :=
  if bm_get u.ibm i = 1 ∨ i = ROOT_INUMBER then
    let r := inode_read u (i % 65536)
    if r.1 ≥ 0 then
      let fbm1 :=
        if inode_getsize r.2 > ADDR_SMALL_LENGTH * SECTOR_SIZE then
          (List.range 8).foldl (fun b m => bm_set b (r.2.i_addr.getD m 0)) fbm
        else fbm
      fill_fbm_inode u r.2 fuel 0 0 fbm1
    else some fbm
  else some fbm

/-- The `for` loop of `fill_fbm`, `n` inode numbers from `i` on. The filesystem `u`
is the one the loop reads from: image, superblock and `ibm` do not change. -/
def fill_fbm_loop (fuel : Nat) (u : unix_filesystem) :
    Nat → Nat → bmblock_array → Option bmblock_array
  | 0, _, fbm => some fbm
  | n + 1, i, fbm =>
    match fill_fbm_step fuel u i fbm with
    | none => none
    | some fbm' => fill_fbm_loop fuel u n (i + 1) fbm'

/-- The value of `n - 1` as a `uint64_t`, for an unsigned `n`: `2^64 - 1` when `n`
is `0`. -/
def uint64_pred (n : Nat) : Nat := if n = 0 then 2 ^ 64 - 1 else n - 1

/-- `fill_fbm`: `for (int i = ibm->min - 1; i < ibm->max; ++i)`. The start value
is a `uint64_t` converted to `int`, and the comparison converts `i` back to
`uint64_t`: a negative start value compares above `max` and the loop does not
run. `none` when an inner loop does not end within the fuel. -/
def fill_fbm (fuel : Nat) (u : unix_filesystem) : Option unix_filesystem :=
  let i0 := toInt32 (uint64_pred u.ibm.min)
  if i0 < 0 then some u
  else
    match fill_fbm_loop fuel u (u.ibm.max - i0.toNat) i0.toNat u.fbm with
    | none => none
    | some fbm' => some { u with fbm := fbm' }

instance : DecidableEq (Except Int unix_filesystem) := fun a b =>
  match a, b with
  | .error x, .error y =>
    if h : x = y then isTrue (by rw [h]) else isFalse (fun h' => h (by injection h'))
  | .ok x, .ok y =>
    if h : x = y then isTrue (by rw [h]) else isFalse (fun h' => h (by injection h'))
  | .error _, .ok _ => isFalse (fun h => by cases h)
  | .ok _, .error _ => isFalse (fun h => by cases h)

/-- The second half of `mountv6`, after the superblock `s` has been read: the two
`bm_alloc` calls, whose arguments are `int` expressions converted to `uint64_t`,
then `fill_ibm` and `fill_fbm`. -/
def mountv6_bitmaps (fuel : Nat) (f : List (List Nat)) (s : superblock) :
    Option (Except Int unix_filesystem) :=
  match bm_alloc (s.s_block_start + 1) (uint64_pred s.s_fsize) with
  | none => some (.error ERR_NOMEM)
  | some fbm =>
    match bm_alloc s.s_inode_start (uint64_pred (s.s_isize * INODES_PER_SECTOR)) with
    | none => some (.error ERR_NOMEM)
    | some ibm =>
      match fill_fbm fuel (fill_ibm { f := f, s := s, fbm := fbm, ibm := ibm }) with
      | none => none
      | some u => some (.ok u)

/-- `mountv6` on the image `f` that `fopen` gives access to. The answer is an error
code, or the mounted filesystem for the result `0`; `none` when `fill_fbm` does
not return within the fuel. -/
def mountv6 (fuel : Nat) (f : List (List Nat)) : Option (Except Int unix_filesystem) :=
  match sector_read f BOOTBLOCK_SECTOR with
  | none => some (.error ERR_IO)
  | some bootSector =>
    if bootSector.getD BOOTBLOCK_MAGIC_NUM_OFFSET 0 ≠ BOOTBLOCK_MAGIC_NUM then
      some (.error ERR_BADBOOTSECTOR)
    else
      match sector_read f SUPERBLOCK_SECTOR with
      | none => some (.error ERR_IO)
      | some sb => mountv6_bitmaps fuel f (superblock_decode sb)

/-- `umountv6` closes the image; the model has nothing to release and the image is
what the handle held. -/
def umountv6 (u : unix_filesystem) : Int × List (List Nat) := (0, u.f)

/-- `mountv6_mkfs` for 16-bit `num_blocks` and `num_inodes`, on a file opened with
`"w+b"` (empty): the result code and the image written. Bytes of `bootSector`
that the source does not initialise, and the memory read behind `sblock`, are
taken as zero. -/
def mountv6_mkfs (num_blocks num_inodes : Nat) : Int × List (List Nat) :=
  let s_isize := (num_inodes + (INODES_PER_SECTOR - 1)) / INODES_PER_SECTOR
  if num_blocks < s_isize + num_inodes then (ERR_NOT_ENOUGH_BLOCS, [])
  else
    let s_inode_start := SUPERBLOCK_SECTOR + 1
    let s_block_start := (s_inode_start + s_isize) % 65536
    let sblock : superblock :=
      { s_isize := s_isize, s_fsize := num_blocks, s_fbmsize := 0, s_ibmsize := 0,
        s_inode_start := s_inode_start, s_block_start := s_block_start,
        s_fbm_start := 0, s_ibm_start := 0, s_flock := 0, s_ilock := 0, s_fmod := 0,
        s_ronly := 0, s_time := [0, 0] }
    let bootSector := zero_sector.set BOOTBLOCK_MAGIC_NUM_OFFSET BOOTBLOCK_MAGIC_NUM
    let root := { inode_zero with i_mode := (IFDIR + IALLOC) % 65536 }
    let first := inode_store zero_sector 1 root
    let writes : List (Nat × List Nat) :=
      [(BOOTBLOCK_SECTOR, bootSector), (SUPERBLOCK_SECTOR, superblock_bytes sblock),
       (s_inode_start, first)] ++
      (List.range (s_block_start - (s_inode_start + 1))).map
        (fun k => (s_inode_start + 1 + k, zero_sector))
    let r := writes.foldl
      (fun (acc : Option (List (List Nat))) w =>
        match acc with
        | none => none
        | some f => sector_write f w.1 w.2) (some [])
    match r with
    | none => ( ERR_IO, [])
    | some f => (0, f)

/-- Sector `s` is marked in `fbm` as far as `fbm` covers it. -/
def fbm_marked (fbm : bmblock_array) (s : Nat) : Prop :=
  fbm.min ≤ s → s ≤ fbm.max → bm_get fbm s = 1

/-- `b'` is a valid bitmap over the range of `b` in which every bit set in `b` is
set. -/
def bm_le (b b' : bmblock_array) : Prop :=
  bm_valid b' ∧ b'.min = b.min ∧ b'.max = b.max ∧
  ∀ y, b.min ≤ y → y ≤ b.max → bm_get b y = 1 → bm_get b' y = 1

/-! ## Concrete images and sessions used by the theorems -/

/-- The filesystem of a successful `mountv6`, `none` otherwise. -/
def mounted (fuel : Nat) (f : List (List Nat)) : Option unix_filesystem :=
  match mountv6 fuel f with
  | some (.ok u) => some u
  | _ => none

/-- The image written by `mkfs` with `num_blocks = 100`, `num_inodes = 32`. -/
def fresh_image : List (List Nat) := (mountv6_mkfs 100 32).2

/-- The path `"/d"`. -/
def path_d : List Nat := [47, 100]

/-- The path `"/d/f"`. -/
def path_d_f : List Nat := [47, 100, 47, 102]

/-- The path `"/p/x"`. -/
def path_p_x : List Nat := [47, 112, 47, 120]

/-- The session of scenario 3 of the spec on the fresh image: `mkdir /d`, creation
of the file `/d/f`, `filev6_writebytes` of `payload` through a descriptor opened
on the new file, then re-opening and reading back to the end. The result is the
answer of `filev6_writebytes`, the last answer of `filev6_readblock` and the
bytes read back. -/
def write_read_session (payload : List Nat) : Option (Int × Int × List Nat) :=
  match mounted 8 fresh_image with
  | none => none
  | some u0 =>
    match direntv6_create [] 0 8 u0 path_d (IFDIR ||| IALLOC) with
    | none => none
    | some (_, u1) =>
      match direntv6_create [] 0 8 u1 path_d_f IALLOC with
      | none => none
      | some (inr, u2) =>
        match filev6_writebytes 8 u2 (filev6_open u2 inr.toNat).2 payload payload.length with
        | none => none
        | some (w, u3, _) =>
          match read_all u3 8 (filev6_open u3 inr.toNat).2 [] with
          | none => none
          | some (e, data) => some (w, e, data)

/-- The boot sector that `mkfs` writes: zeros and the magic byte. -/
def boot_sector : List Nat := zero_sector.set BOOTBLOCK_MAGIC_NUM_OFFSET BOOTBLOCK_MAGIC_NUM

/-- An allocated regular-file record with all other fields zero. -/
def inode_file : inode := { inode_zero with i_mode := IALLOC }

/-- An allocated, empty directory record. -/
def inode_dir : inode := { inode_zero with i_mode := IFDIR ||| IALLOC }

/-- An image of 6 sectors with a 32-inode table (sectors 2 and 3) in which the root
directory (inode 1, one entry in data sector 5) holds the entry `("p", 16)` and
inode 16, the first record of the second table sector, is an allocated empty
directory. -/
def image_dir16 : List (List Nat) :=
  [ boot_sector,
    fresh_image.getD 1 [],
    inode_store zero_sector 1
      { inode_dir with i_size1 := 16, i_addr := [5, 0, 0, 0, 0, 0, 0, 0] },
    inode_store zero_sector 0 inode_dir,
    zero_sector,
    sector_of_memory (dirent_bytes [112] 16) ]

/-- Creation of `/p/x` on `image_dir16` followed by the lookup of the same path:
the answer of `direntv6_create` and the answer of `direntv6_dirlookup`. -/
def create_lookup_session : Option (Int × Int) :=
  match mounted 8 image_dir16 with
  | none => none
  | some u0 =>
    match direntv6_create [] 0 8 u0 path_p_x (IFDIR ||| IALLOC) with
    | none => none
    | some (n, u1) =>
      match direntv6_dirlookup [] 0 8 u1 ROOT_INUMBER path_p_x with
      | none => none
      | some r => some (n, r)

/-- The image left by `mkfs` with `num_blocks = 100`, `num_inodes = 16` (a
one-sector inode table), `mountv6` and `mkdir /d`. -/
def image_16_after_mkdir : Option (List (List Nat)) :=
  match mounted 8 (mountv6_mkfs 100 16).2 with
  | none => none
  | some u0 =>
    match direntv6_create [] 0 8 u0 path_d (IFDIR ||| IALLOC) with
    | none => none
    | some (_, u1) => some u1.f

/-- The same image mounted again, creation of the regular file `/d/f` (as the
shell command `add` does, with mode `IALLOC`) and lookup of the same path: the
answer of `direntv6_create` and the answer of `direntv6_dirlookup`. -/
def remount_create_lookup_session : Option (Int × Int) :=
  match image_16_after_mkdir.bind (mounted 8) with
  | none => none
  | some u0 =>
    match direntv6_create [] 0 8 u0 path_d_f IALLOC with
    | none => none
    | some (n, u1) =>
      match direntv6_dirlookup [] 0 8 u1 ROOT_INUMBER path_d_f with
      | none => none
      | some r => some (n, r)

/-- An image like the fresh one whose root directory has size 16 and keeps its
single sector of entries in sector 4, the first data sector (`s_block_start`). -/
def image_root_at_block_start : List (List Nat) :=
  [ boot_sector,
    fresh_image.getD 1 [],
    inode_store zero_sector 1
      { inode_dir with i_size1 := 16, i_addr := [4, 0, 0, 0, 0, 0, 0, 0] },
    zero_sector,
    sector_of_memory (dirent_bytes [100] 2) ]

/-- The filesystem handle that `mountv6` builds on `image_dir16`. -/
def fs_dir16 : unix_filesystem :=
  { f := image_dir16,
    s := superblock_decode (image_dir16.getD 1 []),
    fbm := { length := 2, cursor := 0, min := 5, max := 99, bm := [1, 0] },
    ibm := { length := 1, cursor := 0, min := 2, max := 31, bm := [0] } }


/-! ## Concrete inodes and images for the addressing and read theorems -/

/-- An allocated regular file of 100 bytes whose only data sector is sector 5. -/
def inode_small : inode :=
  { inode_file with i_size1 := 100, i_addr := [5, 0, 0, 0, 0, 0, 0, 0] }

/-- An image of 7 sectors like `image_dir16` in which sector 5 is an indirect
sector with the entries `7, 8, 9` first, and sector 6 an indirect sector whose first
entry is `10`. -/
def image_indirect : List (List Nat) :=
  [ boot_sector,
    fresh_image.getD 1 [],
    inode_store zero_sector 1 inode_dir,
    zero_sector,
    zero_sector,
    sector_of_memory [7, 0, 8, 0, 9, 0],
    sector_of_memory [10, 0] ]

/-- A filesystem handle on `image_indirect`. -/
def fs_indirect : unix_filesystem := { fs_dir16 with f := image_indirect }

/-- An allocated regular file of `9 * 512` bytes with the indirect sectors 5 and
6 in `i_addr[0]` and `i_addr[1]`. -/
def inode_nine : inode :=
  { inode_file with i_size1 := 4608, i_addr := [5, 6, 0, 0, 0, 0, 0, 0] }

/-- The same file with size `257 * 512 = 2 * 65536 + 512`. -/
def inode_257 : inode :=
  { inode_file with i_size0 := 2, i_size1 := 512, i_addr := [5, 6, 0, 0, 0, 0, 0, 0] }

/-- An allocated regular file of size `8 * 256 * 512 = 16 * 65536`, above the
largest size that `inode_findsector` accepts. -/
def inode_huge : inode :=
  { inode_file with i_size0 := 16, i_addr := [5, 6, 0, 0, 0, 0, 0, 0] }

/-- A descriptor at offset 0 on an allocated file of 513 bytes with the data
sectors 4 and 5. -/
def file_513 : filev6 :=
  { i_number := 3,
    i_node := { inode_file with i_size1 := 513, i_addr := [4, 5, 0, 0, 0, 0, 0, 0] },
    offset := 0 }

/-- The little-endian `uint16_t` at entry `k` of a sector read as
`uint16_t adresses[ADDRESSES_PER_SECTOR]`. -/
def sector_u16 (adresses : List Nat) (k : Nat) : Nat :=
  (adresses.getD (2 * k + 1) 0 * 256 + adresses.getD (2 * k) 0) % 65536

/-- Successive calls of `inode_alloc`, `n` of them: the answers in order and the
filesystem afterwards; `none` when one of the calls does not return. -/
def inode_alloc_times (fuel : Nat) : Nat → unix_filesystem → Option (List Int × unix_filesystem)
  | 0, u => some ([], u)
  | n + 1, u =>
    match inode_alloc fuel u with
    | none => none
    | some (x, u1) =>
      match inode_alloc_times fuel n u1 with
      | none => none
      | some (xs, u2) => some (x :: xs, u2)

/-- The session `mountv6` on the image of `mkfs` with `num_blocks = 100`,
`num_inodes = 16` (inode IDs 2 to 15), followed by 14 calls of `inode_alloc`. -/
def inode_alloc_session : Option (List Int × unix_filesystem) :=
  (mounted 8 (mountv6_mkfs 100 16).2).bind (inode_alloc_times 1 14)

/-! ## Concrete descriptors and filesystems for the write path -/

/-- A descriptor at offset 0 on inode 3 with an allocated, empty regular file in
its cache. -/
def fd_3 : filev6 := { i_number := 3, i_node := inode_file, offset := 0 }

/-- A descriptor on inode 17, the second record of the second inode-table sector
of a 32-inode filesystem, as `direntv6_create` leaves it before `filev6_create`. -/
def fd_17 : filev6 := { i_number := 17, i_node := inode_zero, offset := 0 }

/-- A descriptor at offset 0 on inode 16 of `image_dir16`, the empty directory. -/
def fd_16 : filev6 := { i_number := 16, i_node := inode_dir, offset := 0 }

/-- The filesystem mounted from the image of `mkfs` with `num_blocks = 69` and
`num_inodes = 32` (data sectors 5 to 68, one bitmap word) after `bm_set` of every
ID of `fbm`: every data sector is in use. -/
def fs_69_full : Option unix_filesystem :=
  (mounted 8 (mountv6_mkfs 69 32).2).map
    (fun u => { u with fbm := (List.range 64).foldl (fun b k => bm_set b (5 + k)) u.fbm })

/-- The handle that `fs_69_full` holds. -/
def fs_69 : unix_filesystem :=
  { f := (mountv6_mkfs 69 32).2,
    s := superblock_decode ((mountv6_mkfs 69 32).2.getD 1 []),
    fbm := { length := 1, cursor := 0, min := 5, max := 68, bm := [UINT64_MAX] },
    ibm := { length := 1, cursor := 0, min := 2, max := 31, bm := [0] } }

/-- The filesystem `fs_dir16` after sector 6 has been taken and written with the
bytes `1, 2, 3`. -/
def fs_dir16_written : unix_filesystem :=
  { fs_dir16 with f := image_dir16 ++ [sector_of_memory [1, 2, 3]],
                  fbm := bm_set fs_dir16.fbm 6 }

/-- The descriptor on inode 3 with a file of `size` bytes in sector 6, at
`offset`. With size 3 and offset 3 it is the descriptor `fd_3` after 3 bytes have
been written through it. -/
def fd_3_written (size : Nat) (offset : Int) : filev6 :=
  { i_number := 3,
    i_node := { inode_file with i_size1 := size, i_addr := [6, 0, 0, 0, 0, 0, 0, 0] },
    offset := offset }

/-- The filesystem `fs_dir16_written` after the bytes `4, 5` have been appended to
sector 6. -/
def fs_dir16_written_5 : unix_filesystem :=
  { fs_dir16_written with f := image_dir16 ++ [sector_of_memory [1, 2, 3, 4, 5]] }

/-- An image made of whole sectors: every element holds `SECTOR_SIZE` bytes. -/
def image_wf (f : List (List Nat)) : Prop := ∀ sec ∈ f, sec.length = SECTOR_SIZE

/-- The reader and the contents of `name` and `*child_inr` after `k` successive calls
of `direntv6_readdir`, starting from the reader `d0` and the contents `name0`,
`inr0`. -/
def readdir_state (u : unix_filesystem) (d0 : directory_reader) (name0 : List Nat)
    (inr0 : Nat) : Nat → directory_reader × List Nat × Nat
  | 0 => (d0, name0, inr0)
  | k + 1 =>
    (direntv6_readdir u (readdir_state u d0 name0 inr0 k).1
      (readdir_state u d0 name0 inr0 k).2.1 (readdir_state u d0 name0 inr0 k).2.2).2

/-- The answer of call number `k`, counted from 0, of `direntv6_readdir` in that
sequence: result code, reader, `name` and `*child_inr`. -/
def readdir_call (u : unix_filesystem) (d0 : directory_reader) (name0 : List Nat)
    (inr0 : Nat) (k : Nat) : Int × directory_reader × List Nat × Nat :=
  direntv6_readdir u (readdir_state u d0 name0 inr0 k).1
    (readdir_state u d0 name0 inr0 k).2.1 (readdir_state u d0 name0 inr0 k).2.2

/-- Sector `j` of the file of the inode `ino`: the sector that `inode_findsector`
names for the offset `j`, as read from the image (empty when it cannot be
read). -/
def file_sector (u : unix_filesystem) (ino : inode) (j : Nat) : List Nat :=
  (sector_read u.f (inode_findsector u ino j).toNat).getD []

/-- Every sector of a file of `size` bytes is found by `inode_findsector` and can
be read. -/
def file_readable (u : unix_filesystem) (ino : inode) (size : Nat) : Prop :=
  ∀ j : Nat, j * 512 < size →
    0 ≤ inode_findsector u ino j ∧
    (sector_read u.f (inode_findsector u ino j).toNat).isSome = true

/-- The reader of a directory of `n` entries after `k` of them have been returned:
`cur = k`, the file offset and `last` stand at the end of the sectors fetched so
far, and the buffer holds the sector of entry `k - 1`. -/
def reader_at (u : unix_filesystem) (ino : inode) (n k : Nat) (d : directory_reader) : Prop :=
  d.cur = k ∧ d.fv6.i_node = ino ∧
  d.fv6.offset = ((min (16 * n) (512 * ((k + 31) / 32)) : Nat) : Int) ∧
  d.last = min n (32 * ((k + 31) / 32)) ∧
  (0 < k → d.dirs = file_sector u ino ((k - 1) / 32))

/-- The name of entry `i` of the directory file of `ino` as `direntv6_readdir`
delivers it: the 14 name bytes of record `i mod 32` of sector `i / 32`, cut at the
first NUL. -/
def dir_entry_name (u : unix_filesystem) (ino : inode) (i : Nat) : List Nat :=
  strncpy_name (dirent_name (file_sector u ino (i / 32)) (i % 32))

/-- The inode number of entry `i` of the directory file of `ino`. -/
def dir_entry_inumber (u : unix_filesystem) (ino : inode) (i : Nat) : Nat :=
  dirent_inumber (file_sector u ino (i / 32)) (i % 32)

/-- The reader that `direntv6_opendir` returns on the root directory of
`fs_dir16`. -/
def reader_root_dir16 : directory_reader :=
  { fv6 := (filev6_open fs_dir16 ROOT_INUMBER).2, dirs := zero_sector, cur := 0, last := 0 }

/-- An image like `image_dir16` whose root directory holds the single entry
`("abcdef", 7)`. -/
def image_abcdef : List (List Nat) :=
  image_dir16.set 5 (sector_of_memory (dirent_bytes [97, 98, 99, 100, 101, 102] 7))

/-- A filesystem handle on `image_abcdef`. -/
def fs_abcdef : unix_filesystem := { fs_dir16 with f := image_abcdef }

/-- The reader that `direntv6_opendir` returns on the root directory of
`fs_abcdef`. -/
def reader_root_abcdef : directory_reader :=
  { fv6 := (filev6_open fs_abcdef ROOT_INUMBER).2, dirs := zero_sector, cur := 0, last := 0 }

/-! ## Concrete images for entry creation -/

/-- An image like `image_dir16` whose root directory holds the entry `("p", 0)`:
the name `p` with the inode number 0. -/
def image_entry_zero : List (List Nat) :=
  [ boot_sector,
    fresh_image.getD 1 [],
    inode_store zero_sector 1
      { inode_dir with i_size1 := 16, i_addr := [5, 0, 0, 0, 0, 0, 0, 0] },
    zero_sector,
    zero_sector,
    sector_of_memory (dirent_bytes [112] 0) ]

/-- The path `"/p"`. -/
def path_p : List Nat := [47, 112]

/-- The path `"/p/"` followed by fifteen letters `x`. -/
def path_p_long : List Nat := [47, 112, 47] ++ List.replicate 15 120

/-- The path `"/q/x"`. -/
def path_q_x : List Nat := [47, 113, 47, 120]

/-- On the filesystem mounted from `image_entry_zero`: the answer of
`direntv6_dirlookup` for `"/p"`, the answer of `direntv6_create` for the same
path, and whether the inode bitmap and the image are the same afterwards. -/
def create_entry_zero_session : Option (Int × Int × Bool × Bool) :=
  match mounted 8 image_entry_zero with
  | none => none
  | some u0 =>
    match direntv6_dirlookup [] 0 8 u0 ROOT_INUMBER path_p with
    | none => none
    | some r =>
      match direntv6_create [] 0 8 u0 path_p (IFDIR ||| IALLOC) with
      | none => none
      | some (n, u1) => some (r, n, decide (u1.ibm = u0.ibm), decide (u1.f = u0.f))

/-- The test bitmap after `bm_set` of the 64 IDs `4 .. 67` of its first word. -/
def test_bitmap_word_full : bmblock_array :=
  (List.range 64).foldl (fun b k => bm_set b (4 + k)) test_bitmap

/-- The same bitmap with the cursor on its second word, as `bm_find_next` leaves
it. -/
def test_bitmap_advanced : bmblock_array := { test_bitmap_word_full with cursor := 1 }

/-- An image like the fresh one (`num_blocks = 100`, `num_inodes = 32`) whose root
directory has size 16 and no data sector: every entry of `i_addr` is 0. -/
def image_root_no_sector : List (List Nat) :=
  [ boot_sector,
    fresh_image.getD 1 [],
    inode_store zero_sector 1 { inode_dir with i_size1 := 16 },
    zero_sector ]

/-- The handle that `mountv6` has built on `image_root_no_sector` when it enters
`fill_fbm`. -/
def fs_root_no_sector : unix_filesystem :=
  { f := image_root_no_sector,
    s := superblock_decode (image_root_no_sector.getD 1 []),
    fbm := { length := 2, cursor := 0, min := 5, max := 99, bm := [0, 0] },
    ibm := { length := 1, cursor := 0, min := 2, max := 31, bm := [0] } }

/-- The handle that `mountv6` builds on `fresh_image`: no bit set in either
bitmap. -/
def fs_fresh : unix_filesystem :=
  { f := fresh_image,
    s := superblock_decode (fresh_image.getD 1 []),
    fbm := { length := 2, cursor := 0, min := 5, max := 99, bm := [0, 0] },
    ibm := { length := 1, cursor := 0, min := 2, max := 31, bm := [0] } }

/-- The superblock that `mountv6_mkfs` fills in for `num_blocks` and `num_inodes`
that pass its test. -/
def mkfs_superblock (num_blocks num_inodes : Nat) : superblock :=
  { s_isize := (num_inodes + 15) / 16, s_fsize := num_blocks, s_fbmsize := 0, s_ibmsize := 0,
    s_inode_start := 2, s_block_start := 2 + (num_inodes + 15) / 16,
    s_fbm_start := 0, s_ibm_start := 0, s_flock := 0, s_ilock := 0, s_fmod := 0,
    s_ronly := 0, s_time := [0, 0] }

/-- The first sector of the inode table that `mountv6_mkfs` writes: zeros, and the
record of an allocated empty directory in slot 1. -/
def root_sector : List Nat := inode_store zero_sector 1 inode_dir

/-- The image that `mountv6_mkfs` writes: boot sector, superblock, the first table
sector, and zeroed table sectors up to `s_block_start`. -/
def mkfs_image (num_blocks num_inodes : Nat) : List (List Nat) :=
  [boot_sector, sector_of_memory (superblock_bytes (mkfs_superblock num_blocks num_inodes)),
    root_sector] ++ List.replicate ((num_inodes + 15) / 16 - 1) zero_sector

/-- The bitmap that `bm_alloc(mn, mx)` returns for `mn ≤ mx`: no bit set. -/
def zero_bitmap (mn mx : Nat) : bmblock_array :=
  { length := (mx - mn + 1 + 63) / 64, cursor := 0, min := mn, max := mx,
    bm := List.replicate ((mx - mn + 1 + 63) / 64) 0 }

/-- The handle that `mountv6` builds on `mkfs_image`: no bit set in either
bitmap. -/
def fs_mkfs (num_blocks num_inodes : Nat) : unix_filesystem :=
  { f := mkfs_image num_blocks num_inodes,
    s := mkfs_superblock num_blocks num_inodes,
    fbm := zero_bitmap (2 + (num_inodes + 15) / 16 + 1) (num_blocks - 1),
    ibm := zero_bitmap 2 ((num_inodes + 15) / 16 * 16 - 1) }

/-! ## Sessions of allocating operations -/

/-- The filesystem `fs_69` (every data sector of `fbm` in use) on an image that
also holds sector 4, zeroed, and sector 5 with the bytes `1, 2, 3`. -/
def fs_69_data : unix_filesystem :=
  { fs_69 with f := (mountv6_mkfs 69 32).2 ++ [zero_sector, sector_of_memory [1, 2, 3]] }

/-- A descriptor at offset 0 on inode 3: an allocated file of 3 bytes in sector
5. -/
def fd_3_sector_5 : filev6 :=
  { i_number := 3,
    i_node := { inode_file with i_size1 := 3, i_addr := [5, 0, 0, 0, 0, 0, 0, 0] },
    offset := 0 }

theorem get_bit_val (w k : Nat) :
    (((1 <<< k) &&& w) >>> k) = if w.testBit k then 1 else 0 := by
  apply Nat.eq_of_testBit_eq
  intro j
  rw [Nat.testBit_shiftRight, Nat.testBit_and, Nat.one_shiftLeft, Nat.testBit_two_pow]
  by_cases hj : j = 0
  · subst hj; simp; split <;> simp_all
  · have hk : k ≠ k + j := by omega
    have h1 : Nat.testBit 1 j = false := by
      rw [← Bool.not_eq_true, Nat.testBit_one_eq_true_iff_self_eq_zero]; exact hj
    simp [hk]
    split
    · exact h1
    · simp

theorem testBit_or_one_shiftLeft (w k j : Nat) :
    (w ||| (1 <<< k)).testBit j = (w.testBit j || decide (k = j)) := by
  rw [Nat.testBit_or, Nat.one_shiftLeft, Nat.testBit_two_pow]

theorem testBit_and_clear_mask (w k j : Nat) (hj : j < 64) :
    (w &&& (UINT64_MAX ^^^ (1 <<< k))).testBit j = (w.testBit j && !decide (k = j)) := by
  unfold UINT64_MAX
  rw [Nat.testBit_and, Nat.testBit_xor, Nat.one_shiftLeft, Nat.testBit_two_pow,
    Nat.testBit_two_pow_sub_one]
  simp [hj]

theorem testBit_UINT64_MAX (k : Nat) (hk : k < 64) : UINT64_MAX.testBit k = true := by
  unfold UINT64_MAX
  rw [Nat.testBit_two_pow_sub_one]; simp [hk]

theorem UINT64_MAX_or_bit (k : Nat) (hk : k < 64) : UINT64_MAX ||| (1 <<< k) = UINT64_MAX := by
  apply Nat.eq_of_testBit_eq
  intro j
  rw [testBit_or_one_shiftLeft]
  by_cases h : k = j
  · subst h; simp [testBit_UINT64_MAX k hk]
  · simp [h]

/-! ## Lists of words -/

theorem getD_set_self {l : List Nat} {i : Nat} (v d : Nat) (h : i < l.length) :
    (l.set i v).getD i d = v := by
  simp [List.getD_eq_getElem?_getD, List.getElem?_set_self h]

theorem getD_set_ne {l : List Nat} {i j : Nat} (v d : Nat) (h : i ≠ j) :
    (l.set i v).getD j d = l.getD j d := by
  simp [List.getD_eq_getElem?_getD, List.getElem?_set_ne h]

/-! ## Bitmap: `bm_get` as a bit test -/

theorem bm_bit_offset (mn x : Nat) (h : mn ≤ x) :
    x - (mn + BITS_PER_VECTOR * ((x - mn) / BITS_PER_VECTOR)) = (x - mn) % 64 := by
  unfold BITS_PER_VECTOR; omega

theorem bm_get_eq (b : bmblock_array) (x : Nat) (h1 : b.min ≤ x) (h2 : x ≤ b.max) :
    bm_get b x =
      if (b.bm.getD ((x - b.min) / 64) 0).testBit ((x - b.min) % 64) then 1 else 0 := by
  unfold bm_get
  have hc : ¬ (x > b.max ∨ x < b.min) := by omega
  simp only [hc, if_false]
  rw [bm_bit_offset b.min x h1, get_bit_val]
  simp only [BITS_PER_VECTOR]
  split <;> simp

theorem bm_get_out_of_range (b : bmblock_array) (x : Nat) (h : x < b.min ∨ b.max < x) :
    bm_get b x = ERR_BAD_PARAMETER := by
  unfold bm_get
  have hc : x > b.max ∨ x < b.min := by omega
  simp [hc]

theorem bm_set_bm (b : bmblock_array) (x : Nat) (h1 : b.min ≤ x) (h2 : x ≤ b.max) :
    bm_set b x =
      { b with
        bm := b.bm.set ((x - b.min) / 64)
                (b.bm.getD ((x - b.min) / 64) 0 ||| (1 <<< ((x - b.min) % 64))) } := by
  unfold bm_set
  have hc : x ≤ b.max ∧ x ≥ b.min := ⟨h2, h1⟩
  simp only [hc, and_self, if_true]
  rw [bm_bit_offset b.min x h1]
  simp only [BITS_PER_VECTOR]

theorem bm_clear_bm (b : bmblock_array) (x : Nat) (h1 : b.min ≤ x) (h2 : x ≤ b.max) :
    bm_clear b x =
      { b with
        bm := b.bm.set ((x - b.min) / 64)
                (b.bm.getD ((x - b.min) / 64) 0 &&&
                  (UINT64_MAX ^^^ (1 <<< ((x - b.min) % 64)))),
        cursor := if b.cursor > (x - b.min) / 64 then (x - b.min) / 64 else b.cursor } := by
  unfold bm_clear
  have hc : x ≤ b.max ∧ x ≥ b.min := ⟨h2, h1⟩
  simp only [hc, and_self, if_true]
  rw [bm_bit_offset b.min x h1]
  simp only [BITS_PER_VECTOR]

theorem bm_set_out_of_range (b : bmblock_array) (x : Nat) (h : x < b.min ∨ b.max < x) :
    bm_set b x = b := by
  unfold bm_set
  have hc : ¬ (x ≤ b.max ∧ x ≥ b.min) := by omega
  simp [hc]

theorem bm_clear_out_of_range (b : bmblock_array) (x : Nat) (h : x < b.min ∨ b.max < x) :
    bm_clear b x = b := by
  unfold bm_clear
  have hc : ¬ (x ≤ b.max ∧ x ≥ b.min) := by omega
  simp [hc]

/-- Reading ID `y` after `bm_set b x`, for in-range `x` and `y` of a valid bitmap. -/
theorem bm_get_set (b : bmblock_array) (hv : bm_valid b) (x y : Nat)
    (hx1 : b.min ≤ x) (hx2 : x ≤ b.max) (hy1 : b.min ≤ y) (hy2 : y ≤ b.max) :
    bm_get (bm_set b x) y = if y = x then 1 else bm_get b y := by
  obtain ⟨hlen, _, hcov, _⟩ := hv
  simp only [BITS_PER_VECTOR] at hcov
  have hix : (x - b.min) / 64 < b.bm.length := by
    rw [hlen]; exact lt_of_le_of_lt (Nat.div_le_div_right (by omega)) hcov
  rw [bm_set_bm b x hx1 hx2, bm_get_eq _ y (by simpa using hy1) (by simpa using hy2),
    bm_get_eq b y hy1 hy2]
  simp only []
  by_cases hi : (x - b.min) / 64 = (y - b.min) / 64
  · rw [← hi, getD_set_self _ _ hix, testBit_or_one_shiftLeft]
    by_cases hyx : y = x
    · subst hyx; simp
    · have hk : (x - b.min) % 64 ≠ (y - b.min) % 64 := by omega
      simp [hk, hyx]
  · rw [getD_set_ne _ _ hi]
    have hyx : y ≠ x := by rintro rfl; exact hi rfl
    simp [hyx]

/-- Reading ID `y` after `bm_clear b x`, for in-range `x` and `y` of a valid bitmap. -/
theorem bm_get_clear (b : bmblock_array) (hv : bm_valid b) (x y : Nat)
    (hx1 : b.min ≤ x) (hx2 : x ≤ b.max) (hy1 : b.min ≤ y) (hy2 : y ≤ b.max) :
    bm_get (bm_clear b x) y = if y = x then 0 else bm_get b y := by
  obtain ⟨hlen, _, hcov, _⟩ := hv
  simp only [BITS_PER_VECTOR] at hcov
  have hix : (x - b.min) / 64 < b.bm.length := by
    rw [hlen]; exact lt_of_le_of_lt (Nat.div_le_div_right (by omega)) hcov
  rw [bm_clear_bm b x hx1 hx2, bm_get_eq _ y (by simpa using hy1) (by simpa using hy2),
    bm_get_eq b y hy1 hy2]
  simp only []
  by_cases hi : (x - b.min) / 64 = (y - b.min) / 64
  · rw [← hi, getD_set_self _ _ hix, testBit_and_clear_mask _ _ _ (Nat.mod_lt _ (by norm_num))]
    by_cases hyx : y = x
    · subst hyx; simp
    · have hk : (x - b.min) % 64 ≠ (y - b.min) % 64 := by omega
      simp [hk, hyx]
  · rw [getD_set_ne _ _ hi]
    have hyx : y ≠ x := by rintro rfl; exact hi rfl
    simp [hyx]

/-! ## Bitmap: set, clear, get -/

/-- C6. On a valid bitmap and for `x` in `[min, max]`: `bm_get` answers `1` after
`bm_set b x` and `0` after `bm_clear b x`, and for every other in-range ID `y` the
answer of `bm_get` is the one given before the operation. -/
theorem bm_set_clear_observed_by_get (b : bmblock_array) (hv : bm_valid b) (x : Nat)
    (hx1 : b.min ≤ x) (hx2 : x ≤ b.max) :
    bm_get (bm_set b x) x = 1 ∧ bm_get (bm_clear b x) x = 0 ∧
    ∀ y, b.min ≤ y → y ≤ b.max → y ≠ x →
      bm_get (bm_set b x) y = bm_get b y ∧ bm_get (bm_clear b x) y = bm_get b y := by
  refine ⟨?_, ?_, ?_⟩
  · rw [bm_get_set b hv x x hx1 hx2 hx1 hx2]; simp
  · rw [bm_get_clear b hv x x hx1 hx2 hx1 hx2]; simp
  · intro y hy1 hy2 hne
    rw [bm_get_set b hv x y hx1 hx2 hy1 hy2, bm_get_clear b hv x y hx1 hx2 hy1 hy2]
    simp [hne]

theorem bm_set_clear_observed_by_get_witness :
    bm_get (bm_set test_bitmap 70) 70 = 1 ∧ bm_get (bm_clear test_bitmap 70) 70 = 0 ∧
    ∀ y, test_bitmap.min ≤ y → y ≤ test_bitmap.max → y ≠ 70 →
      bm_get (bm_set test_bitmap 70) y = bm_get test_bitmap y ∧
      bm_get (bm_clear test_bitmap 70) y = bm_get test_bitmap y :=
  bm_set_clear_observed_by_get test_bitmap (by decide) 70 (by decide) (by decide)

/-- C7. `bm_set` and `bm_clear` are idempotent on the whole state (words and
cursor), for every bitmap and every `x`, in range or not. -/
theorem bm_set_clear_idempotent (b : bmblock_array) (x : Nat) :
    bm_set (bm_set b x) x = bm_set b x ∧ bm_clear (bm_clear b x) x = bm_clear b x := by
  by_cases hr : b.min ≤ x ∧ x ≤ b.max
  · obtain ⟨h1, h2⟩ := hr
    constructor
    · rw [bm_set_bm b x h1 h2, bm_set_bm _ x (by simpa using h1) (by simpa using h2)]
      simp only [List.set_set]
      by_cases hi : (x - b.min) / 64 < b.bm.length
      · rw [getD_set_self _ _ hi, Nat.or_assoc, Nat.or_self]
      · rw [List.set_eq_of_length_le (by omega), List.set_eq_of_length_le (by omega)]
    · rw [bm_clear_bm b x h1 h2, bm_clear_bm _ x (by simpa using h1) (by simpa using h2)]
      simp only [List.set_set]
      have hc : ∀ c i : Nat, (if (if c > i then i else c) > i then i else (if c > i then i else c))
          = if c > i then i else c := by
        intro c i; by_cases h : c > i <;> simp [h]
      rw [hc]
      by_cases hi : (x - b.min) / 64 < b.bm.length
      · rw [getD_set_self _ _ hi, Nat.and_assoc, Nat.and_self]
      · rw [List.set_eq_of_length_le (by omega), List.set_eq_of_length_le (by omega)]
  · have h : x < b.min ∨ b.max < x := by omega
    rw [bm_set_out_of_range b x h, bm_clear_out_of_range b x h]
    exact ⟨bm_set_out_of_range b x h, bm_clear_out_of_range b x h⟩

/-! ## Bitmap: the cursor invariant and `bm_find_next` -/

theorem toInt32_of_lt (n : Nat) (h : n < 2 ^ 31) : toInt32 n = (n : Int) := by
  unfold toInt32
  have h1 : n % 2 ^ 32 = n := Nat.mod_eq_of_lt (by omega)
  rw [h1, if_pos (by omega)]

theorem bm_inv_alloc (mn mx : Nat) (b : bmblock_array) (h : bm_alloc mn mx = some b) :
    bm_inv b := by
  unfold bm_alloc at h
  split at h
  · simp at h
  · simp only [] at h
    split at h
    · simp at h
    · rename_i hn
      simp only [Option.some.injEq] at h
      subst h
      refine ⟨?_, ?_⟩
      · simp only [BITS_PER_VECTOR]; omega
      · intro j hj; simp at hj

theorem bm_inv_set (b : bmblock_array) (x : Nat) (h : bm_inv b) : bm_inv (bm_set b x) := by
  by_cases hr : b.min ≤ x ∧ x ≤ b.max
  · obtain ⟨h1, h2⟩ := hr
    rw [bm_set_bm b x h1 h2]
    refine ⟨h.1, ?_⟩
    intro j hj
    simp only [] at hj ⊢
    by_cases hi : (x - b.min) / 64 = j
    · subst hi
      have hw := h.2 _ hj
      have hlt : (x - b.min) / 64 < b.bm.length := by
        by_contra hge
        rw [List.getD_eq_default _ _ (by omega)] at hw
        exact absurd hw (by decide)
      rw [getD_set_self _ _ hlt, hw, UINT64_MAX_or_bit _ (Nat.mod_lt _ (by norm_num))]
    · rw [getD_set_ne _ _ hi]; exact h.2 j hj
  · rw [bm_set_out_of_range b x (by omega)]; exact h

theorem bm_inv_clear (b : bmblock_array) (x : Nat) (h : bm_inv b) :
    bm_inv (bm_clear b x) := by
  by_cases hr : b.min ≤ x ∧ x ≤ b.max
  · obtain ⟨h1, h2⟩ := hr
    rw [bm_clear_bm b x h1 h2]
    refine ⟨h.1, ?_⟩
    intro j hj
    simp only [] at hj ⊢
    have hne : (x - b.min) / 64 ≠ j := by
      intro he; subst he; split at hj <;> omega
    rw [getD_set_ne _ _ hne]
    apply h.2
    split at hj <;> omega
  · rw [bm_clear_out_of_range b x (by omega)]; exact h

/-- What a returning `bm_find_next` has done: it only moved the cursor, over
all-ones words, and its answer is `ERR_BITMAP_FULL` or the answer of the `for` loop
on the word under the new cursor. -/
theorem bm_find_next_spec (fuel : Nat) (b : bmblock_array) (x : Int) (b' : bmblock_array)
    (hf : bm_find_next fuel b = some (x, b')) (hi : bm_inv b) :
    bm_inv b' ∧ b'.bm = b.bm ∧ b'.min = b.min ∧ b'.max = b.max ∧ b'.length = b.length ∧
    (x = ERR_BITMAP_FULL ∨
      (b'.cursor < b'.length ∧ bm_find_next_for b' BITS_PER_VECTOR 0 = some x)) := by
  induction fuel generalizing b with
  | zero => simp [bm_find_next] at hf
  | succ n ih =>
    unfold bm_find_next at hf
    by_cases hc : b.cursor < b.length
    · rw [if_pos hc] at hf
      by_cases hw : b.bm.getD b.cursor 0 ≠ UINT64_MAX
      · rw [if_pos hw] at hf
        cases hy : bm_find_next_for b BITS_PER_VECTOR 0 with
        | some y =>
          rw [hy] at hf
          simp only [Option.some.injEq, Prod.mk.injEq] at hf
          obtain ⟨rfl, rfl⟩ := hf
          exact ⟨hi, rfl, rfl, rfl, rfl, Or.inr ⟨hc, hy⟩⟩
        | none =>
          rw [hy] at hf
          exact ih b hf hi
      · rw [if_neg hw] at hf
        simp only [ne_eq, not_not] at hw
        have hi2 : bm_inv { b with cursor := b.cursor + 1 } := by
          refine ⟨hi.1, ?_⟩
          intro j hj
          simp only [] at hj ⊢
          by_cases hjc : j = b.cursor
          · subst hjc; exact hw
          · exact hi.2 j (by omega)
        exact ih { b with cursor := b.cursor + 1 } hf hi2
    · rw [if_neg hc] at hf
      simp only [Option.some.injEq, Prod.mk.injEq] at hf
      obtain ⟨rfl, rfl⟩ := hf
      exact ⟨hi, rfl, rfl, rfl, rfl, Or.inl rfl⟩

theorem bm_find_next_for_spec (b : bmblock_array) (n i : Nat) (x : Int)
    (h : bm_find_next_for b n i = some x) :
    ∃ t, i ≤ t ∧ t < i + n ∧
      bm_get b ((b.min + b.cursor * BITS_PER_VECTOR + t) % 2 ^ 64) = 0 ∧
      x = toInt32 ((b.min + b.cursor * BITS_PER_VECTOR + t) % 2 ^ 64) ∧
      ∀ s, i ≤ s → s < t →
        bm_get b ((b.min + b.cursor * BITS_PER_VECTOR + s) % 2 ^ 64) ≠ 0 := by
  induction n generalizing i with
  | zero => simp [bm_find_next_for] at h
  | succ n ih =>
    unfold bm_find_next_for at h
    simp only [] at h
    split at h
    · rename_i h0
      simp only [Option.some.injEq] at h
      exact ⟨i, le_refl _, by omega, h0, h.symm, fun s h1 h2 => by omega⟩
    · rename_i h0
      obtain ⟨t, ht1, ht2, ht3, ht4, ht5⟩ := ih (i + 1) h
      refine ⟨t, by omega, by omega, ht3, ht4, ?_⟩
      intro s hs1 hs2
      by_cases hsi : s = i
      · subst hsi; exact h0
      · exact ht5 s (by omega) hs2

theorem bm_reachable_inv (b : bmblock_array) (h : bm_reachable b) : bm_inv b := by
  induction h with
  | alloc mn mx b hb => exact bm_inv_alloc mn mx b hb
  | set b x _ ih => exact bm_inv_set b x ih
  | clear b x _ ih => exact bm_inv_clear b x ih
  | find_next b b' fuel r _ hf ih => exact (bm_find_next_spec fuel b r b' hf ih).1

/-- C4 (amended). For a bitmap obtained from `bm_alloc` by `bm_set`, `bm_clear` and
`bm_find_next`, whose IDs fit the `int` result (`max < 2^31`): when `bm_find_next`
returns `x ≥ 0`, the words and range are unchanged, `bm_get` answers `0` on `x`
and `1` on every `y` with `min ≤ y < x`. -/
theorem bm_find_next_lowest_free (b : bmblock_array) (hr : bm_reachable b)
    (hmax : b.max < 2 ^ 31) (fuel : Nat) (x : Int) (b' : bmblock_array)
    (hf : bm_find_next fuel b = some (x, b')) (hx : 0 ≤ x) :
    (b'.bm = b.bm ∧ b'.min = b.min ∧ b'.max = b.max) ∧
    bm_get b' x.toNat = 0 ∧ ∀ y : Nat, b.min ≤ y → (y : Int) < x → bm_get b' y = 1 := by
  obtain ⟨hi', hbm, hmin, hmx, hlen, hres⟩ :=
    bm_find_next_spec fuel b x b' hf (bm_reachable_inv b hr)
  refine ⟨⟨hbm, hmin, hmx⟩, ?_⟩
  rcases hres with hfull | ⟨hcur, hfor⟩
  · rw [hfull] at hx; exact absurd hx (by decide)
  obtain ⟨t, _, ht2, ht3, ht4, ht5⟩ := bm_find_next_for_spec b' 64 0 x hfor
  have hlen47 : b'.length ≤ 2 ^ 47 := hi'.1
  simp only [BITS_PER_VECTOR] at ht3 ht4 ht5
  -- the ID under inspection is in range, hence small
  have hin : b'.min ≤ (b'.min + b'.cursor * 64 + t) % 2 ^ 64 ∧
      (b'.min + b'.cursor * 64 + t) % 2 ^ 64 ≤ b'.max := by
    by_contra hno
    rw [bm_get_out_of_range b' _ (by omega)] at ht3
    exact absurd ht3 (by decide)
  have hminle : b'.min < 2 ^ 31 := by omega
  have hnowrap : (b'.min + b'.cursor * 64 + t) % 2 ^ 64 = b'.min + b'.cursor * 64 + t :=
    Nat.mod_eq_of_lt (by omega)
  rw [hnowrap] at ht3 ht4 hin
  rw [toInt32_of_lt _ (by omega)] at ht4
  subst ht4
  refine ⟨by simpa using ht3, ?_⟩
  intro y hy1 hy2
  have hy2' : y < b'.min + b'.cursor * 64 + t := by exact_mod_cast hy2
  rw [← hmin] at hy1
  rw [bm_get_eq b' y hy1 (by omega)]
  by_cases hw : (y - b'.min) / 64 < b'.cursor
  · rw [hi'.2 _ hw, testBit_UINT64_MAX _ (Nat.mod_lt _ (by norm_num))]; simp
  · have hs := ht5 ((y - b'.min) % 64) (Nat.zero_le _) (by omega)
    have hnw : (b'.min + b'.cursor * 64 + (y - b'.min) % 64) % 2 ^ 64 = y := by
      rw [Nat.mod_eq_of_lt (by omega)]; omega
    rw [hnw, bm_get_eq b' y hy1 (by omega)] at hs
    split
    · rfl
    · rename_i hbit
      rw [if_neg hbit] at hs
      exact absurd rfl hs

set_option maxRecDepth 100000 in
theorem bm_find_next_lowest_free_witness :
    (bm_find_next 1 test_bitmap = some (4, test_bitmap) ∧
     bm_find_next 1 test_bitmap_456 = some (7, test_bitmap_456) ∧
     bm_find_next 1 test_bitmap_fifth = some (5, test_bitmap_fifth)) ∧
    ((test_bitmap_456.bm = test_bitmap_456.bm ∧ test_bitmap_456.min = test_bitmap_456.min ∧
        test_bitmap_456.max = test_bitmap_456.max) ∧
      bm_get test_bitmap_456 (7 : Int).toNat = 0 ∧
      ∀ y : Nat, test_bitmap_456.min ≤ y → (y : Int) < 7 → bm_get test_bitmap_456 y = 1) :=
  ⟨by decide,
   bm_find_next_lowest_free test_bitmap_456
    (bm_reachable.set _ 6 (bm_reachable.set _ 5 (bm_reachable.set _ 4
      (bm_reachable.alloc 4 131 test_bitmap (by decide)))))
    (by decide) 1 7 test_bitmap_456 (by decide) (by decide)⟩

/-- C4 as stated fails once IDs exceed the `int` range: the bitmap
`bm_alloc(2^32, 2^32+63)` is empty, `bm_find_next` converts its first ID `2^32` to
the `int` `0`, and `bm_get` on `0` answers `ERR_BAD_PARAMETER`, not `0`. -/
theorem bm_find_next_lowest_free_counterexample :
    bm_alloc 4294967296 4294967359 = some bitmap_above_int ∧
    bm_find_next 1 bitmap_above_int = some (0, bitmap_above_int) ∧
    bm_get bitmap_above_int (0 : Int).toNat = ERR_BAD_PARAMETER ∧
    bm_get bitmap_above_int (0 : Int).toNat ≠ 0 := by
  decide

/-- On the full bitmap of range `[2, 15]` the `while` loop of `bm_find_next` starts
over on the same state at every iteration. -/
theorem bm_find_next_bitmap_2_15_full (fuel : Nat) :
    bm_find_next fuel bitmap_2_15_full = none := by
  induction fuel with
  | zero => rfl
  | succ n ih =>
    have h : bm_find_next (n + 1) bitmap_2_15_full = bm_find_next n bitmap_2_15_full := by
      have hfor : bm_find_next_for bitmap_2_15_full BITS_PER_VECTOR 0 = none := by decide
      rw [bm_find_next, if_pos (by decide), if_pos (by decide), hfor]
    rw [h, ih]

/-- C5 fails on a full bitmap whose last word is only partly covered by the range.
With range `[2, 15]` every ID is set, the single word `16383` differs from
`UINT64_C(-1)`, the `for` loop finds no ID answering `0` (IDs past `max` answer
`ERR_BAD_PARAMETER`) and the `while` loop restarts on the same state: for every
amount of fuel the call has not returned. -/
theorem bm_find_next_full_partial_word_never_returns :
    (bm_alloc 2 15).map (fun b => (List.range 14).foldl (fun b k => bm_set b (2 + k)) b)
      = some bitmap_2_15_full ∧
    (∀ y, 2 ≤ y → y ≤ 15 → bm_get bitmap_2_15_full y = 1) ∧
    ∀ fuel, bm_find_next fuel bitmap_2_15_full = none := by
  refine ⟨by decide, ?_, ?_⟩
  · intro y h1 h2
    interval_cases y <;> decide
  · exact bm_find_next_bitmap_2_15_full

/-! ## Inode layer: size encoding -/

theorem shiftLeft_or_eq (a b i : Nat) (hb : b < 2 ^ i) : a <<< i ||| b = a * 2 ^ i + b := by
  rw [Nat.shiftLeft_eq, Nat.mul_comm, ← Nat.mul_add_lt_is_or hb]

/-- The size written by `inode_setsize` is the size read by `inode_getsize`. -/
theorem inode_setsize_spec (i : inode) (n : Int) (h0 : 0 ≤ n) (h1 : n < 2 ^ 24) :
    (inode_setsize i n).1 = 0 ∧ inode_getsize (inode_setsize i n).2 = n ∧
    (inode_setsize i n).2.i_mode = i.i_mode ∧ (inode_setsize i n).2.i_nlink = i.i_nlink ∧
    (inode_setsize i n).2.i_uid = i.i_uid ∧ (inode_setsize i n).2.i_gid = i.i_gid ∧
    (inode_setsize i n).2.i_addr = i.i_addr ∧ (inode_setsize i n).2.i_atime = i.i_atime ∧
    (inode_setsize i n).2.i_mtime = i.i_mtime := by
  have hn : ¬ n < 0 := by omega
  unfold inode_setsize
  simp only [hn, if_false, and_self, and_true, true_and]
  have hw : wrapInt32 (n * 256) % 65536 = (n * 256) % 65536 ∧
      wrapInt32 (n * 256) / 256 % 65536 = n % 65536 := by
    unfold wrapInt32
    split <;> omega
  unfold inode_getsize
  have e8 : ∀ z : Int, z >>> (8 : Nat) = z / 256 := by
    intro z; rw [Int.shiftRight_eq_div_pow]; norm_num
  have e16 : ∀ z : Int, z >>> (16 : Nat) = z / 65536 := by
    intro z; rw [Int.shiftRight_eq_div_pow]; norm_num
  rw [e8, e16]
  have hs0 : n / 65536 % 256 = n / 65536 := by omega
  rw [hw.2, hs0]
  have hlt : (n % 65536).toNat < 2 ^ 16 := by omega
  rw [shiftLeft_or_eq _ _ _ hlt]
  push_cast
  omega

/-- C8. For `0 ≤ n < 2^24`, `inode_setsize(i, n)` returns `0`, afterwards
`inode_getsize` gives `n`, and every field other than `i_size0` and `i_size1` is
unchanged. -/
theorem inode_setsize_getsize (i : inode) (n : Int) (h0 : 0 ≤ n) (h1 : n < 2 ^ 24) :
    (inode_setsize i n).1 = 0 ∧ inode_getsize (inode_setsize i n).2 = n ∧
    (inode_setsize i n).2.i_mode = i.i_mode ∧ (inode_setsize i n).2.i_nlink = i.i_nlink ∧
    (inode_setsize i n).2.i_uid = i.i_uid ∧ (inode_setsize i n).2.i_gid = i.i_gid ∧
    (inode_setsize i n).2.i_addr = i.i_addr ∧ (inode_setsize i n).2.i_atime = i.i_atime ∧
    (inode_setsize i n).2.i_mtime = i.i_mtime :=
  inode_setsize_spec i n h0 h1

theorem inode_setsize_getsize_witness :
    (inode_setsize inode_zero 70000).1 = 0 ∧
    inode_getsize (inode_setsize inode_zero 70000).2 = 70000 ∧
    (inode_setsize inode_zero 70000).2.i_mode = inode_zero.i_mode ∧
    (inode_setsize inode_zero 70000).2.i_nlink = inode_zero.i_nlink ∧
    (inode_setsize inode_zero 70000).2.i_uid = inode_zero.i_uid ∧
    (inode_setsize inode_zero 70000).2.i_gid = inode_zero.i_gid ∧
    (inode_setsize inode_zero 70000).2.i_addr = inode_zero.i_addr ∧
    (inode_setsize inode_zero 70000).2.i_atime = inode_zero.i_atime ∧
    (inode_setsize inode_zero 70000).2.i_mtime = inode_zero.i_mtime :=
  inode_setsize_getsize inode_zero 70000 (by decide) (by decide)

/-! ## The write path, evaluated -/

set_option maxRecDepth 1000000 in
/-- C1, evaluated. On the fresh image a payload of 3 bytes written to the new file
`/d/f` reads back as those 3 bytes followed by end of file; a payload of 512
bytes `0x41` is accepted by `filev6_writebytes` (result 0) but reads back as the
512 bytes of the boot sector: `filev6_writesector` records the new sector in
`i_addr[(size + nb_bytes) / 512] = i_addr[1]` and leaves `i_addr[0] = 0`. -/
theorem filev6_write_read_512_reads_boot_sector :
    write_read_session [65, 66, 67] = some (0, 0, [65, 66, 67]) ∧
    write_read_session (List.replicate 512 65) = some (0, 0, boot_sector) ∧
    boot_sector ≠ List.replicate 512 65 := by
  decide

set_option maxRecDepth 1000000 in
/-- C2, evaluated. (1) After `mkfs` with 16 inodes, `mountv6`, `mkdir /d` and a new
`mountv6`, `direntv6_create` of the regular file `/d/f` succeeds and returns
inode number 2, and the following `direntv6_dirlookup` of `/d/f` fails with
`ERR_INVALID_DIRECTORY_INODE`: `fill_ibm` has not marked inode 2, the directory
`/d`, so `inode_alloc` hands it out again and the record of `/d` is overwritten
by the new file. (2) On an image whose directory `/p` is inode 16,
`direntv6_create` of `/p/x` succeeds and returns 2, and the lookup of `/p/x`
fails with `ERR_INODE_OUTOF_RANGE`: the updated record of the parent is stored by
`inode_write` at `inodes[16]`, outside the sector buffer, and never reaches the
disk. -/
theorem direntv6_create_then_lookup_fails :
    remount_create_lookup_session = some (2, ERR_INVALID_DIRECTORY_INODE) ∧
    create_lookup_session = some (2, ERR_INODE_OUTOF_RANGE) := by
  decide

set_option maxRecDepth 1000000 in
/-- C3, evaluated. On the mounted fresh image (32 inodes), `inode_write` of an
allocated record at inode 5 is read back by `inode_read`; at inode 16 it returns
`0` as well, but `inode_read` then finds the slot still unallocated. -/
theorem inode_write_read_slot_16 :
    (mounted 8 fresh_image).map
        (fun u => ((inode_write u 5 inode_file).1,
                   inode_read (inode_write u 5 inode_file).2 5)) =
      some (0, (0, inode_file)) ∧
    (mounted 8 fresh_image).map
        (fun u => ((inode_write u 16 inode_file).1,
                   inode_read (inode_write u 16 inode_file).2 16)) =
      some (0, (ERR_UNALLOCATED_INODE, inode_zero)) := by
  decide

set_option maxRecDepth 1000000 in
/-- C9, evaluated. After `mkfs` with 16 inodes, `mountv6` and `mkdir /d`, inode 2 is
allocated on disk; a new `mountv6` of that image succeeds with `ibm` over
`[2, 15]`, and `bm_get(ibm, 2)` is `0`: the loop of `fill_ibm` stops one sector
short of the end of the inode table, here before its only sector. -/
theorem mountv6_ibm_misses_last_table_sector :
    (image_16_after_mkdir.bind (mounted 8)).map
        (fun u => (u.ibm.min, u.ibm.max, inode_read u 2, bm_get u.ibm 2)) =
      some (2, 15, (0, inode_dir), 0) := by
  decide

set_option maxRecDepth 1000000 in
/-- C10 as stated fails on an image whose root directory keeps its entries in the
first data sector: `mountv6` succeeds, `inode_findsector` answers
`4 = s_block_start` for the root at offset 0, and `bm_get(fbm, 4)` is
`ERR_BAD_PARAMETER`, since `fbm` covers `[s_block_start + 1, s_fsize - 1]`. -/
theorem mountv6_fbm_counterexample :
    (mounted 8 image_root_at_block_start).map
        (fun u => (u.s.s_block_start, u.s.s_fsize, (inode_read u 1).1,
                   inode_getsize (inode_read u 1).2,
                   inode_findsector u (inode_read u 1).2 0, bm_get u.fbm 4)) =
      some (4, 100, 0, 16, 4, ERR_BAD_PARAMETER) ∧ ERR_BAD_PARAMETER ≠ 1 := by
  decide

/-! ## Mount: what `fill_fbm` marks -/

theorem inode_read_congr (u u' : unix_filesystem) (hf : u'.f = u.f) (hs : u'.s = u.s)
    (inr : Nat) : inode_read u' inr = inode_read u inr := by
  unfold inode_read inode_table_readable
  rw [hf, hs]

theorem inode_findsector_congr (u u' : unix_filesystem) (hf : u'.f = u.f) (i : inode)
    (k : Int) : inode_findsector u' i k = inode_findsector u i k := by
  unfold inode_findsector
  rw [hf]

theorem bm_set_fields (b : bmblock_array) (x : Nat) :
    (bm_set b x).min = b.min ∧ (bm_set b x).max = b.max ∧
    (bm_set b x).length = b.length ∧ (bm_set b x).bm.length = b.bm.length := by
  unfold bm_set
  split <;> simp

theorem bm_valid_set (b : bmblock_array) (x : Nat) (h : bm_valid b) :
    bm_valid (bm_set b x) := by
  obtain ⟨h1, h2, h3, h4⟩ := bm_set_fields b x
  unfold bm_valid at h ⊢
  rw [h1, h2, h3, h4]; exact h

theorem bm_le_refl (b : bmblock_array) (h : bm_valid b) : bm_le b b :=
  ⟨h, rfl, rfl, fun _ _ _ hy => hy⟩

theorem bm_le_trans (a b c : bmblock_array) (h1 : bm_le a b) (h2 : bm_le b c) :
    bm_le a c := by
  obtain ⟨_, hmin1, hmax1, hm1⟩ := h1
  obtain ⟨hv2, hmin2, hmax2, hm2⟩ := h2
  refine ⟨hv2, by rw [hmin2, hmin1], by rw [hmax2, hmax1], ?_⟩
  intro y hy1 hy2 hy
  exact hm2 y (by rw [hmin1]; exact hy1) (by rw [hmax1]; exact hy2) (hm1 y hy1 hy2 hy)

theorem bm_le_set (b : bmblock_array) (x : Nat) (h : bm_valid b) : bm_le b (bm_set b x) := by
  obtain ⟨h1, h2, _, _⟩ := bm_set_fields b x
  refine ⟨bm_valid_set b x h, h1, h2, ?_⟩
  intro y hy1 hy2 hy
  by_cases hx : b.min ≤ x ∧ x ≤ b.max
  · rw [bm_get_set b h x y hx.1 hx.2 hy1 hy2]
    split
    · rfl
    · exact hy
  · rw [bm_set_out_of_range b x (by omega)]; exact hy

theorem fbm_marked_set (b : bmblock_array) (x : Nat) (h : bm_valid b) :
    fbm_marked (bm_set b x) x := by
  obtain ⟨h1, h2, _, _⟩ := bm_set_fields b x
  intro hx1 hx2
  rw [h1] at hx1; rw [h2] at hx2
  rw [bm_get_set b h x x hx1 hx2 hx1 hx2]; simp

theorem fbm_marked_mono (b b' : bmblock_array) (s : Nat) (h : bm_le b b')
    (hm : fbm_marked b s) : fbm_marked b' s := by
  obtain ⟨_, hmin, hmax, hmono⟩ := h
  intro h1 h2
  rw [hmin] at h1; rw [hmax] at h2
  exact hmono s h1 h2 (hm h1 h2)

theorem bm_le_foldl_set (l : List Nat) (g : Nat → Nat) (b : bmblock_array) (h : bm_valid b) :
    bm_le b (l.foldl (fun b m => bm_set b (g m)) b) := by
  induction l generalizing b with
  | nil => exact bm_le_refl b h
  | cons m l ih =>
    simp only [List.foldl_cons]
    exact bm_le_trans _ _ _ (bm_le_set b (g m) h) (ih _ (bm_valid_set b (g m) h))

/-- The inner loop of `fill_fbm`, when it ends: it has only set bits, and every
file sector from `file_sec_off` on has a positive sector number that is marked. -/
theorem fill_fbm_inode_spec (u : unix_filesystem) (ind : inode) (fuel : Nat) :
    ∀ (fso : Nat) (fbm fbm' : bmblock_array), bm_valid fbm →
      fill_fbm_inode u ind fuel ((fso : Int) * 512) (fso : Int) fbm = some fbm' →
      bm_le fbm fbm' ∧
      ∀ k : Nat, fso ≤ k → (k : Int) * 512 < inode_getsize ind →
        0 < inode_findsector u ind k ∧
        fbm_marked fbm' (inode_findsector u ind k).toNat := by
  induction fuel with
  | zero => intro fso fbm fbm' _ h; simp [fill_fbm_inode] at h
  | succ n ih =>
    intro fso fbm fbm' hv h
    unfold fill_fbm_inode at h
    by_cases hoff : (fso : Int) * 512 < inode_getsize ind
    · rw [if_pos hoff] at h
      simp only [] at h
      by_cases hidx : inode_findsector u ind (fso : Int) > 0
      · rw [if_pos hidx] at h
        have hcast : ((fso : Int) * 512 + (SECTOR_SIZE : Nat)) = ((fso + 1 : Nat) : Int) * 512 := by
          simp only [SECTOR_SIZE]; push_cast; ring
        have hcast2 : ((fso : Int) + 1) = ((fso + 1 : Nat) : Int) := by push_cast; ring
        rw [hcast, hcast2] at h
        obtain ⟨hle, hk⟩ := ih (fso + 1) _ fbm' (bm_valid_set fbm _ hv) h
        refine ⟨bm_le_trans _ _ _ (bm_le_set fbm _ hv) hle, ?_⟩
        intro k hk1 hk2
        by_cases hkf : k = fso
        · subst hkf
          exact ⟨hidx, fbm_marked_mono _ _ _ hle (fbm_marked_set fbm _ hv)⟩
        · exact hk k (by omega) hk2
      · rw [if_neg hidx] at h
        exact ih fso fbm fbm' hv h
    · rw [if_neg hoff] at h
      simp only [Option.some.injEq] at h
      subst h
      refine ⟨bm_le_refl _ hv, ?_⟩
      intro k hk1 hk2
      exfalso
      have : (fso : Int) ≤ (k : Int) := by exact_mod_cast hk1
      omega

/-- One inode number of the `fill_fbm` loop. -/
theorem fill_fbm_step_spec (fuel : Nat) (u : unix_filesystem) (i : Nat)
    (fbm fbm' : bmblock_array) (hv : bm_valid fbm)
    (h : fill_fbm_step fuel u i fbm = some fbm') :
    bm_le fbm fbm' ∧
    ((bm_get u.ibm i = 1 ∨ i = ROOT_INUMBER) → (inode_read u (i % 65536)).1 ≥ 0 →
      ∀ k : Nat, (k : Int) * 512 < inode_getsize (inode_read u (i % 65536)).2 →
        0 < inode_findsector u (inode_read u (i % 65536)).2 k ∧
        fbm_marked fbm' (inode_findsector u (inode_read u (i % 65536)).2 k).toNat) := by
  unfold fill_fbm_step at h
  by_cases hsel : bm_get u.ibm i = 1 ∨ i = ROOT_INUMBER
  · rw [if_pos hsel] at h
    simp only [] at h
    by_cases hr : (inode_read u (i % 65536)).1 ≥ 0
    · rw [if_pos hr] at h
      have hv1 : bm_le fbm (if inode_getsize (inode_read u (i % 65536)).2 >
            ADDR_SMALL_LENGTH * SECTOR_SIZE then
          (List.range 8).foldl
            (fun b m => bm_set b ((inode_read u (i % 65536)).2.i_addr.getD m 0)) fbm
          else fbm) := by
        split
        · exact bm_le_foldl_set _ _ fbm hv
        · exact bm_le_refl fbm hv
      obtain ⟨hle, hk⟩ := fill_fbm_inode_spec u (inode_read u (i % 65536)).2 fuel 0 _ fbm'
        hv1.1 (by simpa using h)
      refine ⟨bm_le_trans _ _ _ hv1 hle, ?_⟩
      intro _ _ k hk2
      exact hk k (Nat.zero_le _) hk2
    · rw [if_neg hr] at h
      simp only [Option.some.injEq] at h
      subst h
      exact ⟨bm_le_refl _ hv, fun _ hr' => absurd hr' hr⟩
  · rw [if_neg hsel] at h
    simp only [Option.some.injEq] at h
    subst h
    exact ⟨bm_le_refl _ hv, fun hs => absurd hs hsel⟩

/-- The outer loop of `fill_fbm` over the inode numbers `i0 .. i0 + n - 1`. -/
theorem fill_fbm_loop_spec (fuel : Nat) (u : unix_filesystem) (n : Nat) :
    ∀ (i0 : Nat) (fbm fbm' : bmblock_array), bm_valid fbm →
      fill_fbm_loop fuel u n i0 fbm = some fbm' →
      bm_le fbm fbm' ∧
      ∀ i, i0 ≤ i → i < i0 + n → (bm_get u.ibm i = 1 ∨ i = ROOT_INUMBER) →
        (inode_read u (i % 65536)).1 ≥ 0 →
        ∀ k : Nat, (k : Int) * 512 < inode_getsize (inode_read u (i % 65536)).2 →
          0 < inode_findsector u (inode_read u (i % 65536)).2 k ∧
          fbm_marked fbm' (inode_findsector u (inode_read u (i % 65536)).2 k).toNat := by
  induction n with
  | zero =>
    intro i0 fbm fbm' hv h
    simp only [fill_fbm_loop, Option.some.injEq] at h
    subst h
    exact ⟨bm_le_refl _ hv, fun i h1 h2 => by omega⟩
  | succ n ih =>
    intro i0 fbm fbm' hv h
    unfold fill_fbm_loop at h
    cases hstep : fill_fbm_step fuel u i0 fbm with
    | none => rw [hstep] at h; simp at h
    | some fbm1 =>
      rw [hstep] at h
      simp only [] at h
      obtain ⟨hle1, hs1⟩ := fill_fbm_step_spec fuel u i0 fbm fbm1 hv hstep
      obtain ⟨hle2, hs2⟩ := ih (i0 + 1) fbm1 fbm' hle1.1 h
      refine ⟨bm_le_trans _ _ _ hle1 hle2, ?_⟩
      intro i hi1 hi2 hsel hr k hk
      by_cases hi : i = i0
      · subst hi
        obtain ⟨hpos, hm⟩ := hs1 hsel hr k hk
        exact ⟨hpos, fbm_marked_mono _ _ _ hle2 hm⟩
      · exact hs2 i (by omega) (by omega) hsel hr k hk

/-- What `bm_alloc` returns is a valid bitmap over `[mn, mx]`, provided the count
`mx - mn + 1` of IDs does not wrap around `2^64`. -/
theorem bm_alloc_valid (mn mx : Nat) (b : bmblock_array) (h : bm_alloc mn mx = some b)
    (hnw : mx - mn + 1 < 2 ^ 64) : bm_valid b ∧ b.min = mn ∧ b.max = mx := by
  unfold bm_alloc at h
  by_cases h1 : mx < mn
  · rw [if_pos h1] at h; simp at h
  · rw [if_neg h1] at h
    simp only [] at h
    by_cases h2 : 2 ^ 53 ≤ (mx - mn + 1) % 2 ^ 64
    · rw [if_pos h2] at h; simp at h
    · rw [if_neg h2] at h
      simp only [Option.some.injEq] at h
      subst h
      have hn : (mx - mn + 1) % 2 ^ 64 = mx - mn + 1 := Nat.mod_eq_of_lt (by omega)
      refine ⟨⟨by simp, by simp; omega, ?_, ?_⟩, rfl, rfl⟩
      · simp only [BITS_PER_VECTOR, hn]
        omega
      · simp only []
        omega

theorem foldl_bm_set_fields (l : List Nat) (g : bmblock_array → Nat → bmblock_array)
    (hg : ∀ b j, (g b j).min = b.min ∧ (g b j).max = b.max) (b : bmblock_array) :
    (l.foldl g b).min = b.min ∧ (l.foldl g b).max = b.max := by
  induction l generalizing b with
  | nil => exact ⟨rfl, rfl⟩
  | cons j l ih =>
    simp only [List.foldl_cons]
    obtain ⟨h1, h2⟩ := ih (g b j)
    obtain ⟨h3, h4⟩ := hg b j
    exact ⟨h1.trans h3, h2.trans h4⟩

theorem fill_ibm_sector_fields (tab : List Nat) (m : Nat) (b : bmblock_array) :
    (fill_ibm_sector tab m b).min = b.min ∧ (fill_ibm_sector tab m b).max = b.max := by
  unfold fill_ibm_sector
  apply foldl_bm_set_fields
  intro b j
  split
  · exact ⟨(bm_set_fields b _).1, (bm_set_fields b _).2.1⟩
  · exact ⟨rfl, rfl⟩

theorem fill_ibm_loop_fields (f : List (List Nat)) (start n : Nat) :
    ∀ (m : Nat) (tab : List Nat) (b : bmblock_array),
      (fill_ibm_loop f start n m tab b).min = b.min ∧
      (fill_ibm_loop f start n m tab b).max = b.max := by
  induction n with
  | zero => intro m tab b; exact ⟨rfl, rfl⟩
  | succ n ih =>
    intro m tab b
    unfold fill_ibm_loop
    cases sector_read f (start + m) with
    | none =>
      simp only []
      obtain ⟨h1, h2⟩ := ih (m + 1) tab (fill_ibm_sector tab m
        ((List.range INODES_PER_SECTOR).foldl
          (fun b j => bm_set b (m * INODES_PER_SECTOR + j)) b))
      obtain ⟨h3, h4⟩ := fill_ibm_sector_fields tab m
        ((List.range INODES_PER_SECTOR).foldl
          (fun b j => bm_set b (m * INODES_PER_SECTOR + j)) b)
      obtain ⟨h5, h6⟩ := foldl_bm_set_fields (List.range INODES_PER_SECTOR)
        (fun b j => bm_set b (m * INODES_PER_SECTOR + j))
        (fun b j => ⟨(bm_set_fields b _).1, (bm_set_fields b _).2.1⟩) b
      exact ⟨h1.trans (h3.trans h5), h2.trans (h4.trans h6)⟩
    | some tab' =>
      simp only []
      obtain ⟨h1, h2⟩ := ih (m + 1) tab' (fill_ibm_sector tab' m b)
      obtain ⟨h3, h4⟩ := fill_ibm_sector_fields tab' m b
      exact ⟨h1.trans h3, h2.trans h4⟩

theorem read_u16_lt (s : List Nat) (k : Nat) : read_u16 s k < 65536 := by
  unfold read_u16
  exact Nat.mod_lt _ (by norm_num)

theorem some_error_ne_ok (e : Int) (u : unix_filesystem) :
    (some (Except.error e) : Option (Except Int unix_filesystem)) ≠ some (Except.ok u) := by
  intro h
  injection h with h
  cases h

theorem some_ok_inj (u u' : unix_filesystem)
    (h : (some (Except.ok u') : Option (Except Int unix_filesystem)) = some (Except.ok u)) :
    u' = u := by
  injection h with h
  injection h

/-- A successful second half of `mountv6`. -/
theorem mountv6_bitmaps_ok (fuel : Nat) (f : List (List Nat)) (s : superblock)
    (u : unix_filesystem) (hm : mountv6_bitmaps fuel f s = some (.ok u)) :
    ∃ fbm ibm,
      bm_alloc (s.s_block_start + 1) (uint64_pred s.s_fsize) = some fbm ∧
      bm_alloc s.s_inode_start (uint64_pred (s.s_isize * INODES_PER_SECTOR))
        = some ibm ∧
      fill_fbm fuel (fill_ibm { f := f, s := s, fbm := fbm, ibm := ibm }) = some u := by
  unfold mountv6_bitmaps at hm
  rcases Option.eq_none_or_eq_some
    (bm_alloc (s.s_block_start + 1) (uint64_pred s.s_fsize)) with hfbm | ⟨fbm, hfbm⟩
  · rw [hfbm] at hm; dsimp only at hm; exact absurd hm (some_error_ne_ok _ _)
  rw [hfbm] at hm
  dsimp only at hm
  rcases Option.eq_none_or_eq_some
    (bm_alloc s.s_inode_start (uint64_pred (s.s_isize * INODES_PER_SECTOR)))
    with hibm | ⟨ibm, hibm⟩
  · rw [hibm] at hm; dsimp only at hm; exact absurd hm (some_error_ne_ok _ _)
  rw [hibm] at hm
  dsimp only at hm
  rcases Option.eq_none_or_eq_some
    (fill_fbm fuel (fill_ibm { f := f, s := s, fbm := fbm, ibm := ibm })) with hfill | ⟨u', hfill⟩
  · rw [hfill] at hm; dsimp only at hm; exact absurd hm (by intro h; cases h)
  rw [hfill] at hm
  dsimp only at hm
  have h := some_ok_inj _ _ hm
  subst h
  exact ⟨fbm, ibm, hfbm, hibm, hfill⟩

/-- A successful `mountv6`: the superblock has 16-bit fields, the two bitmaps were
allocated from it, and the filesystem is what `fill_ibm` and `fill_fbm` made. -/
theorem mountv6_ok (fuel : Nat) (f : List (List Nat)) (u : unix_filesystem)
    (hm : mountv6 fuel f = some (.ok u)) :
    ∃ s fbm ibm,
      (s.s_fsize < 65536 ∧ s.s_block_start < 65536 ∧ s.s_inode_start < 65536) ∧
      bm_alloc (s.s_block_start + 1) (uint64_pred s.s_fsize) = some fbm ∧
      bm_alloc s.s_inode_start (uint64_pred (s.s_isize * INODES_PER_SECTOR))
        = some ibm ∧
      fill_fbm fuel (fill_ibm { f := f, s := s, fbm := fbm, ibm := ibm }) = some u := by
  unfold mountv6 at hm
  rcases Option.eq_none_or_eq_some (sector_read f BOOTBLOCK_SECTOR) with hb | ⟨bootSector, hb⟩
  · rw [hb] at hm; dsimp only at hm; exact absurd hm (some_error_ne_ok _ _)
  rw [hb] at hm
  dsimp only at hm
  by_cases hmagic : bootSector.getD BOOTBLOCK_MAGIC_NUM_OFFSET 0 ≠ BOOTBLOCK_MAGIC_NUM
  · rw [if_pos hmagic] at hm; exact absurd hm (some_error_ne_ok _ _)
  rw [if_neg hmagic] at hm
  rcases Option.eq_none_or_eq_some (sector_read f SUPERBLOCK_SECTOR) with hsb | ⟨sb, hsb⟩
  · rw [hsb] at hm; dsimp only at hm; exact absurd hm (some_error_ne_ok _ _)
  rw [hsb] at hm
  dsimp only at hm
  obtain ⟨fbm, ibm, h1, h2, h3⟩ := mountv6_bitmaps_ok fuel f (superblock_decode sb) u hm
  exact ⟨superblock_decode sb, fbm, ibm,
    ⟨read_u16_lt sb 2, read_u16_lt sb 10, read_u16_lt sb 8⟩, h1, h2, h3⟩

/-- C10 (amended). After a successful `mountv6`, `fbm` covers
`[s_block_start + 1, s_fsize - 1]`, and for every inode number `i` that the scan
of `fill_fbm` visits (`ibm.min - 1 ≤ i < ibm.max` with `ibm.min ≥ 1`, and `i` is
`ROOT_INUMBER` or has its bit set in `ibm`) and whose `inode_read` succeeds, and
for every `k` with `k * 512 < size`: `inode_findsector` returns a sector number
`s > 0`, and `bm_get(fbm, s) = 1` whenever `s` lies in the range of `fbm`. -/
theorem mountv6_fbm_marks_scanned_files (fuel : Nat) (f : List (List Nat))
    (u : unix_filesystem) (hm : mountv6 fuel f = some (.ok u)) (i : Nat)
    (hmin : 0 < u.ibm.min) (hi1 : u.ibm.min - 1 ≤ i) (hi2 : i < u.ibm.max)
    (hsel : bm_get u.ibm i = 1 ∨ i = ROOT_INUMBER)
    (hread : (inode_read u (i % 65536)).1 ≥ 0) (k : Nat)
    (hk : (k : Int) * 512 < inode_getsize (inode_read u (i % 65536)).2) :
    (u.fbm.min = u.s.s_block_start + 1 ∧ u.fbm.max + 1 = u.s.s_fsize) ∧
    0 < inode_findsector u (inode_read u (i % 65536)).2 k ∧
    (u.fbm.min ≤ (inode_findsector u (inode_read u (i % 65536)).2 k).toNat →
      (inode_findsector u (inode_read u (i % 65536)).2 k).toNat ≤ u.fbm.max →
      bm_get u.fbm (inode_findsector u (inode_read u (i % 65536)).2 k).toNat = 1) := by
  obtain ⟨s, fbm, ibm, ⟨hs1, hs2, hs3⟩, hfbm, hibm, hfill⟩ := mountv6_ok fuel f u hm
  clear hm
  -- the bitmaps as allocated
  have hpred : uint64_pred s.s_fsize < 2 ^ 64 := by
    unfold uint64_pred; split <;> omega
  obtain ⟨hvf, hfmin, hfmax⟩ := bm_alloc_valid _ _ fbm hfbm (by omega)
  have hfs : 0 < s.s_fsize := by
    by_contra h0
    have hz : s.s_fsize = 0 := by omega
    have hp : uint64_pred s.s_fsize = 2 ^ 64 - 1 := by
      unfold uint64_pred; rw [if_pos hz]
    unfold bm_alloc at hfbm
    rw [hp] at hfbm
    rw [if_neg (by omega)] at hfbm
    dsimp only at hfbm
    rw [if_pos (by omega)] at hfbm
    cases hfbm
  have hfmax' : fbm.max + 1 = s.s_fsize := by
    rw [hfmax]; unfold uint64_pred; rw [if_neg (by omega)]; omega
  have himin : ibm.min = s.s_inode_start := by
    unfold bm_alloc at hibm
    split at hibm
    · cases hibm
    · dsimp only at hibm
      split at hibm
      · cases hibm
      · injection hibm with hibm
        rw [← hibm]
  -- the state handed to `fill_fbm`
  have hu1 : ∀ u1 : unix_filesystem,
      u1 = fill_ibm { f := f, s := s, fbm := fbm, ibm := ibm } →
      u1.f = f ∧ u1.s = s ∧ u1.fbm = fbm ∧ u1.ibm.min = ibm.min := by
    intro u1 h1
    subst h1
    exact ⟨rfl, rfl, rfl, (fill_ibm_loop_fields _ _ _ _ _ _).1⟩
  generalize hu1def : fill_ibm { f := f, s := s, fbm := fbm, ibm := ibm } = u1 at hfill
  obtain ⟨h1f, h1s, h1fbm, h1min⟩ := hu1 u1 hu1def.symm
  unfold fill_fbm at hfill
  dsimp only at hfill
  have h1lt : u1.ibm.min < 65536 := by rw [h1min, himin]; exact hs3
  have hne : u1.ibm.min ≠ 0 := by
    intro h0
    have hp0 : uint64_pred u1.ibm.min = 2 ^ 64 - 1 := by
      unfold uint64_pred; rw [if_pos h0]
    have hneg : toInt32 (2 ^ 64 - 1) < 0 := by decide
    rw [hp0, if_pos hneg] at hfill
    injection hfill with hfill
    subst hfill
    omega
  have hp1 : uint64_pred u1.ibm.min = u1.ibm.min - 1 := by
    unfold uint64_pred
    rw [if_neg hne]
  rw [hp1, toInt32_of_lt _ (by omega)] at hfill
  rw [if_neg (by omega), Int.toNat_ofNat] at hfill
  rcases Option.eq_none_or_eq_some
      (fill_fbm_loop fuel u1 (u1.ibm.max - (u1.ibm.min - 1)) (u1.ibm.min - 1) u1.fbm)
    with hloop | ⟨fbm', hloop⟩
  · rw [hloop] at hfill; cases hfill
  rw [hloop] at hfill
  injection hfill with hfill
  subst hfill
  dsimp only at hmin hi1 hi2 hsel hread hk ⊢
  obtain ⟨hle, hspec⟩ := fill_fbm_loop_spec fuel u1 _ _ u1.fbm fbm'
    (by rw [h1fbm]; exact hvf) hloop
  have hrd : ∀ x, inode_read { u1 with fbm := fbm' } x = inode_read u1 x :=
    fun x => inode_read_congr u1 _ rfl rfl x
  have hfs' : ∀ ino (z : Int),
      inode_findsector { u1 with fbm := fbm' } ino z = inode_findsector u1 ino z :=
    fun ino z => inode_findsector_congr u1 _ rfl ino z
  rw [hrd] at hread hk ⊢
  rw [hfs']
  obtain ⟨hpos, hmk⟩ := hspec i hi1 (by omega) hsel hread k hk
  obtain ⟨_, hmin', hmax', _⟩ := hle
  refine ⟨⟨?_, ?_⟩, hpos, hmk⟩
  · rw [hmin', h1fbm, hfmin, h1s]
  · rw [hmax', h1fbm, h1s]; exact hfmax'

set_option maxRecDepth 1000000 in
theorem mountv6_fbm_marks_scanned_files_witness :
    mountv6 8 image_dir16 = some (.ok fs_dir16) ∧
    inode_findsector fs_dir16 (inode_read fs_dir16 (1 % 65536)).2 (0 : Nat) = 5 ∧
    ((fs_dir16.fbm.min = fs_dir16.s.s_block_start + 1 ∧
        fs_dir16.fbm.max + 1 = fs_dir16.s.s_fsize) ∧
      0 < inode_findsector fs_dir16 (inode_read fs_dir16 (1 % 65536)).2 (0 : Nat) ∧
      (fs_dir16.fbm.min ≤
          (inode_findsector fs_dir16 (inode_read fs_dir16 (1 % 65536)).2 (0 : Nat)).toNat →
        (inode_findsector fs_dir16 (inode_read fs_dir16 (1 % 65536)).2 (0 : Nat)).toNat ≤
          fs_dir16.fbm.max →
        bm_get fs_dir16.fbm
          (inode_findsector fs_dir16 (inode_read fs_dir16 (1 % 65536)).2 (0 : Nat)).toNat
          = 1)) :=
  ⟨by decide, by decide,
   mountv6_fbm_marks_scanned_files 8 image_dir16 fs_dir16 (by decide) 1 (by decide)
    (by decide) (by decide) (Or.inr (by decide)) (by decide) 0 (by decide)⟩


/-! ## `inode_findsector` -/

theorem wrapInt32_of_range (z : Int) (h1 : -2 ^ 31 ≤ z) (h2 : z < 2 ^ 31) : wrapInt32 z = z := by
  unfold wrapInt32
  split <;> omega

/-- The range test of `inode_findsector` without overflow. -/
theorem findsector_range_test (k : Int) (h1 : -2 ^ 22 ≤ k) (h2 : k < 2 ^ 22) :
    wrapInt32 (wrapInt32 (k * SECTOR_SIZE) + 1) = k * 512 + 1 := by
  have e : (SECTOR_SIZE : Int) = 512 := rfl
  rw [e, wrapInt32_of_range (k * 512) (by omega) (by omega),
    wrapInt32_of_range (k * 512 + 1) (by omega) (by omega)]

/-- The answers of `inode_findsector` after a passed range test. -/
theorem inode_findsector_in_range (u : unix_filesystem) (i : inode) (k : Int)
    (h : ¬ wrapInt32 (wrapInt32 (k * SECTOR_SIZE) + 1) > inode_getsize i) :
    inode_findsector u i k =
      if i.i_mode &&& IALLOC = 0 then ERR_UNALLOCATED_INODE
      else if inode_getsize i ≤ ADDR_SMALL_LENGTH * SECTOR_SIZE then
        if 0 ≤ k then ((i.i_addr.getD k.toNat 0 : Nat) : Int) else 0
      else if inode_getsize i > ADDR_SMALL_LENGTH * SECTOR_SIZE ∧
          inode_getsize i ≤ 7 * 256 * SECTOR_SIZE then
        if 0 ≤ Int.tdiv k ADDRESSES_PER_SECTOR then
          match sector_read u.f (i.i_addr.getD (Int.tdiv k ADDRESSES_PER_SECTOR).toNat 0) with
          | none => ERR_IO
          | some adresses =>
            (((adresses.getD (2 * (Int.tmod k ADDRESSES_PER_SECTOR).toNat + 1) 0 * 256 +
              adresses.getD (2 * (Int.tmod k ADDRESSES_PER_SECTOR).toNat) 0) % 65536 : Nat) : Int)
        else 0
      else ERR_FILE_TOO_LARGE := by
  unfold inode_findsector
  dsimp only
  rw [if_neg h]

/-- The answer of `inode_findsector` for a natural offset inside an allocated
file. -/
theorem inode_findsector_nat (u : unix_filesystem) (i : inode) (k : Nat)
    (h1 : i.i_mode &&& IALLOC ≠ 0) (hk : (k : Int) * 512 < inode_getsize i)
    (hs : inode_getsize i < 2 ^ 24) :
    inode_findsector u i k =
      if inode_getsize i ≤ 4096 then ((i.i_addr.getD k 0 : Nat) : Int)
      else if inode_getsize i ≤ 917504 then
        match sector_read u.f (i.i_addr.getD (k / 256) 0) with
        | none => ERR_IO
        | some adresses => ((sector_u16 adresses (k % 256) : Nat) : Int)
      else ERR_FILE_TOO_LARGE := by
  have hr := findsector_range_test (k : Int) (by omega) (by omega)
  rw [inode_findsector_in_range u i k (by rw [hr]; omega), if_neg h1]
  have e1 : ((ADDR_SMALL_LENGTH : Nat) : Int) * ((SECTOR_SIZE : Nat) : Int) = 4096 := rfl
  have e2 : (7 : Int) * 256 * ((SECTOR_SIZE : Nat) : Int) = 917504 := rfl
  have e3 : Int.tdiv (k : Int) ((ADDRESSES_PER_SECTOR : Nat) : Int) = ((k / 256 : Nat) : Int) := rfl
  have e4 : Int.tmod (k : Int) ((ADDRESSES_PER_SECTOR : Nat) : Int) = ((k % 256 : Nat) : Int) := rfl
  rw [e1, e2, e3, e4, if_pos (Int.ofNat_nonneg k), if_pos (Int.ofNat_nonneg _)]
  simp only [Int.toNat_ofNat]
  by_cases hsm : inode_getsize i ≤ 4096
  · rw [if_pos hsm, if_pos hsm]
  · rw [if_neg hsm, if_neg hsm]
    by_cases hl : inode_getsize i ≤ 917504
    · rw [if_pos ⟨by omega, hl⟩, if_pos hl]
      rfl
    · rw [if_neg (fun h => hl h.2), if_neg hl]

theorem inode_getsize_lt (i : inode) (h0 : i.i_size0 < 256) (h1 : i.i_size1 < 65536) :
    inode_getsize i < 2 ^ 24 := by
  unfold inode_getsize
  rw [shiftLeft_or_eq _ _ 16 (by omega)]
  push_cast
  omega

/-! ## `inode_findsector`: range test and addressing -/

/-- C11 (amended). For every filesystem, inode and `file_sec_off` with
`-2^22 ≤ file_sec_off < 2^22` (so that the `int` expression of the test does not
overflow), `inode_findsector` fails with `ERR_OFFSET_OUT_OF_RANGE` if and only if
`file_sec_off * 512 + 1 > size`, where `size = inode_getsize(inode)`. -/
theorem inode_findsector_offset_out_of_range (u : unix_filesystem) (i : inode) (k : Int)
    (h1 : -2 ^ 22 ≤ k) (h2 : k < 2 ^ 22) :
    inode_findsector u i k = ERR_OFFSET_OUT_OF_RANGE ↔ k * 512 + 1 > inode_getsize i := by
  have hr := findsector_range_test k h1 h2
  constructor
  · intro h
    by_contra hc
    rw [inode_findsector_in_range u i k (by rw [hr]; exact hc)] at h
    have e5 : ERR_UNALLOCATED_INODE ≠ ERR_OFFSET_OUT_OF_RANGE := by decide
    have e1 : ( ERR_IO) ≠ ERR_OFFSET_OUT_OF_RANGE := by decide
    have e8 : ERR_FILE_TOO_LARGE ≠ ERR_OFFSET_OUT_OF_RANGE := by decide
    have e0 : (0 : Int) ≠ ERR_OFFSET_OUT_OF_RANGE := by decide
    have en : ∀ n : Nat, (n : Int) ≠ ERR_OFFSET_OUT_OF_RANGE := by
      intro n hn
      have : ERR_OFFSET_OUT_OF_RANGE = -7 := rfl
      omega
    split at h
    · exact e5 h
    · split at h
      · split at h
        · exact en _ h
        · exact e0 h
      · split at h
        · split at h
          · split at h
            · exact e1 h
            · exact en _ h
          · exact e0 h
        · exact e8 h
  · intro h
    unfold inode_findsector
    dsimp only
    rw [if_pos (by rw [hr]; exact h)]

theorem inode_findsector_offset_out_of_range_witness :
    (-2 ^ 22 ≤ (1 : Int) ∧ (1 : Int) < 2 ^ 22) ∧
    (inode_findsector fs_dir16 inode_small 1 = ERR_OFFSET_OUT_OF_RANGE ↔
      (1 : Int) * 512 + 1 > inode_getsize inode_small) :=
  ⟨by decide, inode_findsector_offset_out_of_range fs_dir16 inode_small 1 (by decide) (by decide)⟩

/-- C11, counterexample. The allocated file `inode_small` has 100 bytes, so
`(0 + 1) * 512 > size`, and `inode_findsector` at offset 0 answers `i_addr[0] = 5`
instead of `ERR_OFFSET_OUT_OF_RANGE`. -/
theorem inode_findsector_offset_counterexample :
    ((0 : Int) + 1) * 512 > inode_getsize inode_small ∧
    inode_findsector fs_dir16 inode_small 0 = 5 ∧
    inode_findsector fs_dir16 inode_small 0 ≠ ERR_OFFSET_OUT_OF_RANGE := by
  decide

/-- C12. For an inode with `IALLOC` set and `size ≤ 8 * 512`, and every `k ≥ 0`
with `k * 512 < size`, `inode_findsector(u, i, k)` returns `i_addr[k]`, and
`k < 8`. -/
theorem inode_findsector_direct (u : unix_filesystem) (i : inode) (k : Nat)
    (h1 : i.i_mode &&& IALLOC ≠ 0) (h2 : inode_getsize i ≤ 8 * 512)
    (hk : (k : Int) * 512 < inode_getsize i) :
    inode_findsector u i k = ((i.i_addr.getD k 0 : Nat) : Int) ∧ k < 8 := by
  rw [inode_findsector_nat u i k h1 hk (by omega), if_pos (by omega)]
  exact ⟨rfl, by omega⟩

theorem inode_findsector_direct_witness :
    (inode_small.i_mode &&& IALLOC ≠ 0 ∧ inode_getsize inode_small ≤ 8 * 512 ∧
      ((0 : Nat) : Int) * 512 < inode_getsize inode_small) ∧
    (inode_findsector fs_dir16 inode_small (0 : Nat) = ((inode_small.i_addr.getD 0 0 : Nat) : Int) ∧
      0 < 8) :=
  ⟨by decide, inode_findsector_direct fs_dir16 inode_small 0 (by decide) (by decide) (by decide)⟩

/-- C13. For an inode with `IALLOC` set and every `k ≥ 0` with `k * 512 < size`:
if `8 * 512 < size ≤ 7 * 256 * 512` and sector `i_addr[k / 256]` is readable,
`inode_findsector(u, i, k)` returns the little-endian `uint16_t` at entry
`k mod 256` of that sector, and `k / 256 < 8`; if `size > 7 * 256 * 512` (with the
size fields in their C widths) it fails with `ERR_FILE_TOO_LARGE`. -/
theorem inode_findsector_indirect (u : unix_filesystem) (i : inode) (k : Nat)
    (h1 : i.i_mode &&& IALLOC ≠ 0) (hk : (k : Int) * 512 < inode_getsize i) :
    (8 * 512 < inode_getsize i → inode_getsize i ≤ 7 * 256 * 512 →
      ∀ adresses, sector_read u.f (i.i_addr.getD (k / 256) 0) = some adresses →
        inode_findsector u i k =
            (((adresses.getD (2 * (k % 256) + 1) 0 * 256 +
              adresses.getD (2 * (k % 256)) 0) % 65536 : Nat) : Int) ∧
          k / 256 < 8) ∧
    (inode_getsize i > 7 * 256 * 512 → i.i_size0 < 256 → i.i_size1 < 65536 →
      inode_findsector u i k = ERR_FILE_TOO_LARGE) := by
  constructor
  · intro hlo hhi adresses hrd
    rw [inode_findsector_nat u i k h1 hk (by omega), if_neg (by omega), if_pos (by omega), hrd]
    exact ⟨rfl, by omega⟩
  · intro hbig h0 hs1
    rw [inode_findsector_nat u i k h1 hk (inode_getsize_lt i h0 hs1), if_neg (by omega),
      if_neg (by omega)]

theorem inode_findsector_indirect_witness :
    (inode_nine.i_mode &&& IALLOC ≠ 0 ∧ ((1 : Nat) : Int) * 512 < inode_getsize inode_nine) ∧
    ((8 * 512 < inode_getsize inode_nine → inode_getsize inode_nine ≤ 7 * 256 * 512 →
      ∀ adresses, sector_read fs_indirect.f (inode_nine.i_addr.getD (1 / 256) 0) = some adresses →
        inode_findsector fs_indirect inode_nine (1 : Nat) =
            (((adresses.getD (2 * (1 % 256) + 1) 0 * 256 +
              adresses.getD (2 * (1 % 256)) 0) % 65536 : Nat) : Int) ∧
          1 / 256 < 8) ∧
    (inode_getsize inode_nine > 7 * 256 * 512 → inode_nine.i_size0 < 256 →
      inode_nine.i_size1 < 65536 →
      inode_findsector fs_indirect inode_nine (1 : Nat) = ERR_FILE_TOO_LARGE)) :=
  ⟨by decide, inode_findsector_indirect fs_indirect inode_nine 1 (by decide) (by decide)⟩

/-- The two branches of C13 on concrete files: entry 1 of the indirect sector 5
is `8`, and a file of `8 * 256 * 512` bytes is rejected. -/
theorem inode_findsector_indirect_values :
    inode_findsector fs_indirect inode_nine 1 = 8 ∧
    inode_findsector fs_indirect inode_huge 1 = ERR_FILE_TOO_LARGE := by
  decide

/-- C14 (amended). For an allocated inode whose indirect sectors `i_addr[0]` and
`i_addr[1]` are readable: `inode_findsector(u, i, 0)` returns the first `uint16_t`
entry of the sector pointed to by `i_addr[0]` when `size = 9 * 512`, where
`inode_findsector(u, i, 256)` fails with `ERR_OFFSET_OUT_OF_RANGE`; it is for
`256 * 512 < size ≤ 7 * 256 * 512` that `inode_findsector(u, i, 256)` returns the first
`uint16_t` entry of the sector pointed to by `i_addr[1]`. -/
theorem inode_findsector_indirect_scenario (u : unix_filesystem) (i : inode)
    (a0 a1 : List Nat) (h1 : i.i_mode &&& IALLOC ≠ 0)
    (hr0 : sector_read u.f (i.i_addr.getD 0 0) = some a0)
    (hr1 : sector_read u.f (i.i_addr.getD 1 0) = some a1) :
    (inode_getsize i = 9 * 512 →
      inode_findsector u i 0 = ((sector_u16 a0 0 : Nat) : Int) ∧
      inode_findsector u i 256 = ERR_OFFSET_OUT_OF_RANGE) ∧
    (256 * 512 < inode_getsize i → inode_getsize i ≤ 7 * 256 * 512 →
      inode_findsector u i 0 = ((sector_u16 a0 0 : Nat) : Int) ∧
      inode_findsector u i 256 = ((sector_u16 a1 0 : Nat) : Int)) := by
  have hz : ∀ hk : ((0 : Nat) : Int) * 512 < inode_getsize i, 8 * 512 < inode_getsize i →
      inode_getsize i ≤ 7 * 256 * 512 →
      inode_findsector u i 0 = ((sector_u16 a0 0 : Nat) : Int) := by
    intro hk hlo hhi
    have h := inode_findsector_nat u i 0 h1 hk (by omega)
    rw [if_neg (by omega), if_pos (by omega)] at h
    have e : (0 : Nat) / 256 = 0 := rfl
    rw [e, hr0] at h
    exact h
  constructor
  · intro hs
    refine ⟨hz (by omega) (by omega) (by omega), ?_⟩
    unfold inode_findsector
    dsimp only
    rw [if_pos (by rw [findsector_range_test 256 (by decide) (by decide)]; omega)]
  · intro hlo hhi
    refine ⟨hz (by omega) (by omega) hhi, ?_⟩
    have h := inode_findsector_nat u i 256 h1 (by omega) (by omega)
    rw [if_neg (by omega), if_pos (by omega)] at h
    have e : (256 : Nat) / 256 = 1 := rfl
    rw [e, hr1] at h
    exact h

set_option maxRecDepth 100000 in
theorem inode_findsector_indirect_scenario_witness :
    (inode_nine.i_mode &&& IALLOC ≠ 0 ∧
      sector_read fs_indirect.f (inode_nine.i_addr.getD 0 0) =
        some (sector_of_memory [7, 0, 8, 0, 9, 0]) ∧
      sector_read fs_indirect.f (inode_nine.i_addr.getD 1 0) = some (sector_of_memory [10, 0]) ∧
      inode_getsize inode_nine = 9 * 512 ∧
      256 * 512 < inode_getsize inode_257 ∧ inode_getsize inode_257 ≤ 7 * 256 * 512) ∧
    (inode_findsector fs_indirect inode_nine 0 =
        ((sector_u16 (sector_of_memory [7, 0, 8, 0, 9, 0]) 0 : Nat) : Int) ∧
      inode_findsector fs_indirect inode_nine 256 = ERR_OFFSET_OUT_OF_RANGE) ∧
    (inode_findsector fs_indirect inode_257 0 =
        ((sector_u16 (sector_of_memory [7, 0, 8, 0, 9, 0]) 0 : Nat) : Int) ∧
      inode_findsector fs_indirect inode_257 256 =
        ((sector_u16 (sector_of_memory [10, 0]) 0 : Nat) : Int)) :=
  ⟨by decide,
   (inode_findsector_indirect_scenario fs_indirect inode_nine (sector_of_memory [7, 0, 8, 0, 9, 0])
      (sector_of_memory [10, 0]) (by decide) (by decide) (by decide)).1 (by decide),
   (inode_findsector_indirect_scenario fs_indirect inode_257 (sector_of_memory [7, 0, 8, 0, 9, 0])
      (sector_of_memory [10, 0]) (by decide) (by decide) (by decide)).2 (by decide) (by decide)⟩

/-- C14, counterexample. The allocated file `inode_nine` has `9 * 512` bytes and
readable indirect sectors 5 and 6; the first entry of sector 6 is `10`, and
`inode_findsector` at offset 256 fails with `ERR_OFFSET_OUT_OF_RANGE`. -/
theorem inode_findsector_indirect_scenario_counterexample :
    inode_nine.i_mode &&& IALLOC ≠ 0 ∧ inode_getsize inode_nine = 9 * 512 ∧
    (sector_read fs_indirect.f (inode_nine.i_addr.getD 0 0)).isSome = true ∧
    (sector_read fs_indirect.f (inode_nine.i_addr.getD 1 0)).map (fun a => sector_u16 a 0) =
      some 10 ∧
    inode_findsector fs_indirect inode_nine 0 = 7 ∧
    inode_findsector fs_indirect inode_nine 256 = ERR_OFFSET_OUT_OF_RANGE ∧
    inode_findsector fs_indirect inode_nine 256 ≠ 10 := by
  decide

/-! ## `inode_read` -/

/-- The seek loop of `inode_read` stops after the sector that holds `inr`, with
that sector in the buffer. -/
theorem inode_seek_spec (f : List (List Nat)) (start inr : Nat) :
    ∀ (n s : Nat) (buf : List Nat), 16 * s ≤ inr → inr / 16 + 1 ≤ s + n →
      (∀ j, j ≤ inr / 16 → (sector_read f (start + j)).isSome = true) →
      ∃ sec, sector_read f (start + inr / 16) = some sec ∧
        inode_seek f start inr n (16 * s) s buf = (inr / 16 + 1, sec) := by
  intro n
  induction n with
  | zero => intro s buf h1 h2 _; omega
  | succ n ih =>
    intro s buf h1 h2 hr
    unfold inode_seek
    rw [if_pos h1]
    have e : 16 * s + INODES_PER_SECTOR = 16 * (s + 1) := by
      have : INODES_PER_SECTOR = 16 := rfl
      omega
    rw [e]
    by_cases hlast : 16 * (s + 1) ≤ inr
    · exact ih (s + 1) _ hlast (by omega) hr
    · have hs : s = inr / 16 := by omega
      have hsome := hr s (by omega)
      obtain ⟨sec, hsec⟩ := Option.isSome_iff_exists.mp hsome
      refine ⟨sec, by rw [← hs]; exact hsec, ?_⟩
      rw [hsec, ← hs]
      cases n with
      | zero => rfl
      | succ m =>
        unfold inode_seek
        rw [if_neg hlast]
        rfl

theorem inode_table_readable_iff (u : unix_filesystem) :
    inode_table_readable u = true ↔
      ∀ j, j < u.s.s_isize → (sector_read u.f (u.s.s_inode_start + j)).isSome = true := by
  unfold inode_table_readable
  rw [List.all_eq_true]
  constructor
  · intro h j hj
    exact h j (List.mem_range.mpr hj)
  · intro h j hj
    exact h j (List.mem_range.mp hj)

/-- The answer of `inode_read` on a readable table for an inode number in range. -/
theorem inode_read_in_range (u : unix_filesystem) (inr : Nat)
    (hread : inode_table_readable u = true)
    (hr : (inr : Int) ≤ (u.s.s_isize : Int) * 16 - 1) :
    ∃ sec, sector_read u.f (u.s.s_inode_start + inr / 16) = some sec ∧
      inode_read u inr =
        (if (inode_decode sec (inr % 16 * 32)).i_mode &&& IALLOC = 0 then ERR_UNALLOCATED_INODE
          else 0,
         inode_decode sec (inr % 16 * 32)) := by
  have hall := (inode_table_readable_iff u).mp hread
  obtain ⟨sec, hsec, hseek⟩ := inode_seek_spec u.f u.s.s_inode_start inr (inr + 1) 0 zero_sector
    (by omega) (by omega) (fun j hj => hall j (by omega))
  refine ⟨sec, hsec, ?_⟩
  unfold inode_read
  have e : ((INODES_PER_SECTOR : Nat) : Int) = 16 := rfl
  rw [if_neg (by rw [hread]; simp), e, if_neg (by omega)]
  have hseek0 : inode_seek u.f u.s.s_inode_start inr (inr + 1) 0 0 zero_sector =
      (inr / 16 + 1, sec) := hseek
  rw [hseek0]
  dsimp only
  have ei : (inr - (inr / 16 + 1 - 1) * INODES_PER_SECTOR) * 32 = inr % 16 * 32 := by
    have : INODES_PER_SECTOR = 16 := rfl
    rw [this]
    omega
  rw [ei]
  split <;> rfl

theorem inode_read_out_of_range (u : unix_filesystem) (inr : Nat)
    (hread : inode_table_readable u = true)
    (hr : (inr : Int) > (u.s.s_isize : Int) * 16 - 1) :
    inode_read u inr = (ERR_INODE_OUTOF_RANGE, inode_zero) := by
  unfold inode_read
  have e : ((INODES_PER_SECTOR : Nat) : Int) = 16 := rfl
  rw [if_neg (by rw [hread]; simp), e, if_pos hr]

theorem read_u16_low_byte_first (s : List Nat) (k : Nat) (h0 : s.getD k 0 < 256)
    (h1 : s.getD (k + 1) 0 < 256) : read_u16 s k = s.getD k 0 + 256 * s.getD (k + 1) 0 := by
  unfold read_u16
  rw [shiftLeft_or_eq _ _ 8 (by omega)]
  omega

/-- C15. On a filesystem with a readable inode table, for every `inr` in
`[0, s_isize * INODES_PER_SECTOR - 1]`, the record that `inode_read(u, inr)` produces
is the decoding of the 32 bytes at byte offset `(inr mod 16) * 32` of sector
`s_inode_start + inr / 16`: the 16-bit fields `i_mode`, `i_size1`, `i_addr[0..8]`,
`i_atime[0..2]`, `i_mtime[0..2]` are read low byte first at the bytes 0, 6, 8 to 22,
24 to 26 and 28 to 30 of the slot, and `i_nlink`, `i_uid`, `i_gid`, `i_size0` are the
bytes 2, 3, 4, 5. -/
theorem inode_read_decodes_slot (u : unix_filesystem) (inr : Nat)
    (hread : inode_table_readable u = true)
    (hr : (inr : Int) ≤ (u.s.s_isize : Int) * INODES_PER_SECTOR - 1) :
    ∃ sec, sector_read u.f (u.s.s_inode_start + inr / 16) = some sec ∧
      (inode_read u inr).2 = inode_decode sec (inr % 16 * 32) ∧
      (inode_read u inr).2.i_mode = read_u16 sec (inr % 16 * 32) ∧
      (inode_read u inr).2.i_nlink = sec.getD (inr % 16 * 32 + 2) 0 ∧
      (inode_read u inr).2.i_uid = sec.getD (inr % 16 * 32 + 3) 0 ∧
      (inode_read u inr).2.i_gid = sec.getD (inr % 16 * 32 + 4) 0 ∧
      (inode_read u inr).2.i_size0 = sec.getD (inr % 16 * 32 + 5) 0 ∧
      (inode_read u inr).2.i_size1 = read_u16 sec (inr % 16 * 32 + 6) ∧
      (inode_read u inr).2.i_addr =
        (List.range 8).map (fun j => read_u16 sec (inr % 16 * 32 + 8 + 2 * j)) ∧
      (inode_read u inr).2.i_atime =
        [read_u16 sec (inr % 16 * 32 + 24), read_u16 sec (inr % 16 * 32 + 26)] ∧
      (inode_read u inr).2.i_mtime =
        [read_u16 sec (inr % 16 * 32 + 28), read_u16 sec (inr % 16 * 32 + 30)] ∧
      ∀ k, sec.getD k 0 < 256 → sec.getD (k + 1) 0 < 256 →
        read_u16 sec k = sec.getD k 0 + 256 * sec.getD (k + 1) 0 := by
  obtain ⟨sec, hsec, hrd⟩ := inode_read_in_range u inr hread hr
  refine ⟨sec, hsec, ?_⟩
  rw [hrd]
  exact ⟨rfl, rfl, rfl, rfl, rfl, rfl, rfl, rfl, rfl, rfl, read_u16_low_byte_first sec⟩

set_option maxRecDepth 100000 in
theorem inode_read_decodes_slot_witness :
    (inode_table_readable fs_dir16 = true ∧
      ((16 : Nat) : Int) ≤ (fs_dir16.s.s_isize : Int) * INODES_PER_SECTOR - 1) ∧
    ∃ sec, sector_read fs_dir16.f (fs_dir16.s.s_inode_start + 16 / 16) = some sec ∧
      (inode_read fs_dir16 16).2 = inode_decode sec (16 % 16 * 32) :=
  ⟨by decide,
   (inode_read_decodes_slot fs_dir16 16 (by decide) (by decide)).imp
     (fun _ h => ⟨h.1, h.2.1⟩)⟩

/-- C16. On a filesystem whose inode-table sectors are all readable,
`inode_read(u, inr)` returns `ERR_INODE_OUTOF_RANGE` iff
`inr > s_isize * INODES_PER_SECTOR - 1`; otherwise it returns `ERR_UNALLOCATED_INODE`
iff `IALLOC` is clear in the decoded `i_mode`; otherwise it returns `0`. -/
theorem inode_read_error_conditions (u : unix_filesystem) (inr : Nat)
    (hread : inode_table_readable u = true) :
    ((inode_read u inr).1 = ERR_INODE_OUTOF_RANGE ↔
      (inr : Int) > (u.s.s_isize : Int) * INODES_PER_SECTOR - 1) ∧
    (¬ (inr : Int) > (u.s.s_isize : Int) * INODES_PER_SECTOR - 1 →
      ((inode_read u inr).1 = ERR_UNALLOCATED_INODE ↔
        (inode_read u inr).2.i_mode &&& IALLOC = 0) ∧
      ((inode_read u inr).2.i_mode &&& IALLOC ≠ 0 → (inode_read u inr).1 = 0)) := by
  have e : ((INODES_PER_SECTOR : Nat) : Int) = 16 := rfl
  rw [e]
  have hin : ¬ (inr : Int) > (u.s.s_isize : Int) * 16 - 1 →
      ((inode_read u inr).1 = ERR_UNALLOCATED_INODE ↔
        (inode_read u inr).2.i_mode &&& IALLOC = 0) ∧
      ((inode_read u inr).2.i_mode &&& IALLOC ≠ 0 → (inode_read u inr).1 = 0) ∧
      (inode_read u inr).1 ≠ ERR_INODE_OUTOF_RANGE := by
    intro hr
    obtain ⟨sec, _, hrd⟩ := inode_read_in_range u inr hread (by omega)
    rw [hrd]
    dsimp only
    by_cases hm : (inode_decode sec (inr % 16 * 32)).i_mode &&& IALLOC = 0
    · rw [if_pos hm]
      exact ⟨⟨fun _ => hm, fun _ => rfl⟩, fun h => absurd hm h, by decide⟩
    · rw [if_neg hm]
      exact ⟨⟨fun h => absurd h (by decide), fun h => absurd h hm⟩, fun _ => rfl, by decide⟩
  constructor
  · constructor
    · intro h
      by_contra hc
      exact (hin hc).2.2 h
    · intro h
      rw [inode_read_out_of_range u inr hread h]
  · intro hr
    exact ⟨(hin hr).1, (hin hr).2.1⟩

set_option maxRecDepth 100000 in
theorem inode_read_error_conditions_witness :
    inode_table_readable fs_dir16 = true ∧
    ((inode_read fs_dir16 16).1 = ERR_INODE_OUTOF_RANGE ↔
      ((16 : Nat) : Int) > (fs_dir16.s.s_isize : Int) * INODES_PER_SECTOR - 1) ∧
    (¬ ((16 : Nat) : Int) > (fs_dir16.s.s_isize : Int) * INODES_PER_SECTOR - 1 →
      ((inode_read fs_dir16 16).1 = ERR_UNALLOCATED_INODE ↔
        (inode_read fs_dir16 16).2.i_mode &&& IALLOC = 0) ∧
      ((inode_read fs_dir16 16).2.i_mode &&& IALLOC ≠ 0 → (inode_read fs_dir16 16).1 = 0)) :=
  ⟨by decide, inode_read_error_conditions fs_dir16 16 (by decide)⟩

/-- The three answers of `inode_read` on `fs_dir16`: inode 16 is allocated, inode 5
is not, and 32 is past the table of 32 records. -/
theorem inode_read_values :
    (inode_read fs_dir16 16).1 = 0 ∧
    (inode_read fs_dir16 5).1 = ERR_UNALLOCATED_INODE ∧
    (inode_read fs_dir16 32).1 = ERR_INODE_OUTOF_RANGE := by
  decide

/-! ## `filev6_readblock` and `filev6_lseek` -/

theorem filev6_readblock_at_end (u : unix_filesystem) (fd : filev6) (buf : List Nat)
    (h : fd.offset = inode_getsize fd.i_node) : filev6_readblock u fd buf = (0, fd, buf) := by
  unfold filev6_readblock
  rw [if_neg (by omega), if_pos h]

/-- The answer of `filev6_readblock` inside the file when the sector is found and
read. -/
theorem filev6_readblock_inside (u : unix_filesystem) (fd : filev6) (buf d : List Nat)
    (h : fd.offset < inode_getsize fd.i_node)
    (hfs : 0 ≤ inode_findsector u fd.i_node (Int.tdiv fd.offset 512))
    (hd : sector_read u.f (inode_findsector u fd.i_node (Int.tdiv fd.offset 512)).toNat
      = some d) :
    filev6_readblock u fd buf =
      (min (inode_getsize fd.i_node - fd.offset) 512,
       { fd with offset := fd.offset + min (inode_getsize fd.i_node - fd.offset) 512 }, d) := by
  have e : ((SECTOR_SIZE : Nat) : Int) = 512 := rfl
  unfold filev6_readblock
  rw [if_neg (by omega), if_neg (by omega)]
  dsimp only
  rw [e, if_neg (by omega), hd]
  dsimp only
  by_cases hb : inode_getsize fd.i_node - fd.offset > 512
  · rw [if_pos hb, min_eq_right (by omega)]
  · rw [if_neg hb, min_eq_left (by omega)]

/-- C18. For an open file `fd` with cached size `s` and offset `o`:
`filev6_readblock` returns `ERR_OFFSET_OUT_OF_RANGE` if `o > s` and `0` if `o = s`,
leaving `fd` (and `buf`) unchanged; for `o < s`, when
`inode_findsector(u, inode, o / 512)` succeeds with a sector that can be read, it
returns `n = min(s - o, 512)`, `buf` holds that whole sector and `fd.offset = o + n`,
nothing else of `fd` being changed. -/
theorem filev6_readblock_result (u : unix_filesystem) (fd : filev6) (buf : List Nat) :
    (fd.offset > inode_getsize fd.i_node →
      filev6_readblock u fd buf = (ERR_OFFSET_OUT_OF_RANGE, fd, buf)) ∧
    (fd.offset = inode_getsize fd.i_node → filev6_readblock u fd buf = (0, fd, buf)) ∧
    (fd.offset < inode_getsize fd.i_node →
      0 ≤ inode_findsector u fd.i_node (Int.tdiv fd.offset 512) →
      ∀ d, sector_read u.f (inode_findsector u fd.i_node (Int.tdiv fd.offset 512)).toNat
          = some d →
        filev6_readblock u fd buf =
          (min (inode_getsize fd.i_node - fd.offset) 512,
           { fd with offset := fd.offset + min (inode_getsize fd.i_node - fd.offset) 512 }, d) ∧
        (filev6_readblock u fd buf).2.1.offset = fd.offset + (filev6_readblock u fd buf).1) := by
  refine ⟨?_, filev6_readblock_at_end u fd buf, ?_⟩
  · intro h
    unfold filev6_readblock
    rw [if_pos h]
  · intro h hfs d hd
    rw [filev6_readblock_inside u fd buf d h hfs hd]
    exact ⟨rfl, rfl⟩

set_option maxRecDepth 100000 in
theorem filev6_readblock_result_witness :
    filev6_readblock fs_dir16 file_513 [] =
        (min (inode_getsize file_513.i_node - file_513.offset) 512,
         { file_513 with
           offset := file_513.offset + min (inode_getsize file_513.i_node - file_513.offset) 512 },
         zero_sector) ∧
      (filev6_readblock fs_dir16 file_513 []).2.1.offset =
        file_513.offset + (filev6_readblock fs_dir16 file_513 []).1 :=
  (filev6_readblock_result fs_dir16 file_513 []).2.2 (by decide) (by decide) zero_sector
    (by decide)

/-- C20. `filev6_lseek(fd, off)` returns `ERR_OFFSET_OUT_OF_RANGE` iff `off < 0` or
`off ≥ size`, and then `fd` is unchanged; otherwise it returns `0` and sets
`fd.offset = off`, leaving the cached inode and the inode number unchanged. -/
theorem filev6_lseek_result (fd : filev6) (off : Int) :
    ((filev6_lseek fd off).1 = ERR_OFFSET_OUT_OF_RANGE ↔
      off < 0 ∨ off ≥ inode_getsize fd.i_node) ∧
    (off < 0 ∨ off ≥ inode_getsize fd.i_node → (filev6_lseek fd off).2 = fd) ∧
    (¬ (off < 0 ∨ off ≥ inode_getsize fd.i_node) →
      (filev6_lseek fd off).1 = 0 ∧ (filev6_lseek fd off).2.offset = off ∧
      (filev6_lseek fd off).2.i_node = fd.i_node ∧
      (filev6_lseek fd off).2.i_number = fd.i_number) := by
  unfold filev6_lseek
  by_cases h : off ≥ inode_getsize fd.i_node ∨ off < 0
  · rw [if_pos h]
    exact ⟨⟨fun _ => h.symm, fun _ => rfl⟩, fun _ => rfl, fun hn => absurd h.symm hn⟩
  · rw [if_neg h]
    have hne : (0 : Int) ≠ ERR_OFFSET_OUT_OF_RANGE := by decide
    refine ⟨⟨fun h0 => absurd h0 hne, fun hc => absurd hc.symm h⟩,
      fun hc => absurd hc.symm h, fun _ => ⟨rfl, rfl, rfl, rfl⟩⟩

/-- The answers of `filev6_lseek` on the 513-byte file: offsets 512 and 0 are
accepted, `513` and `-1` are rejected. -/
theorem filev6_lseek_values :
    filev6_lseek file_513 512 = (0, { file_513 with offset := 512 }) ∧
    filev6_lseek file_513 0 = (0, file_513) ∧
    filev6_lseek file_513 513 = (ERR_OFFSET_OUT_OF_RANGE, file_513) ∧
    filev6_lseek file_513 (-1) = (ERR_OFFSET_OUT_OF_RANGE, file_513) := by
  decide

/-- C19. For an open file at offset 0 whose allocated inode has `size = 513` and
readable data sectors `i_addr[0]` and `i_addr[1]`, three successive
`filev6_readblock` calls return `512` (offset becomes 512, `buf` holds sector
`i_addr[0]`), then `1` (offset becomes 513, `buf` holds sector `i_addr[1]`), then `0`
(offset stays 513). -/
theorem filev6_readblock_size_513 (u : unix_filesystem) (fd : filev6) (buf d0 d1 : List Nat)
    (h1 : fd.i_node.i_mode &&& IALLOC ≠ 0) (hs : inode_getsize fd.i_node = 513)
    (ho : fd.offset = 0)
    (hr0 : sector_read u.f (fd.i_node.i_addr.getD 0 0) = some d0)
    (hr1 : sector_read u.f (fd.i_node.i_addr.getD 1 0) = some d1) :
    filev6_readblock u fd buf = (512, { fd with offset := 512 }, d0) ∧
    filev6_readblock u { fd with offset := 512 } d0 = (1, { fd with offset := 513 }, d1) ∧
    filev6_readblock u { fd with offset := 513 } d1 = (0, { fd with offset := 513 }, d1) := by
  obtain ⟨nr, ino, o⟩ := fd
  dsimp only at h1 hs ho hr0 hr1
  subst ho
  have hf0 : inode_findsector u ino (Int.tdiv 0 512) = ((ino.i_addr.getD 0 0 : Nat) : Int) := by
    have h := inode_findsector_nat u ino 0 h1 (by rw [hs]; decide) (by rw [hs]; decide)
    rw [hs, if_pos (by decide)] at h
    exact h
  have hf1 : inode_findsector u ino (Int.tdiv 512 512) = ((ino.i_addr.getD 1 0 : Nat) : Int) := by
    have h := inode_findsector_nat u ino 1 h1 (by rw [hs]; decide) (by rw [hs]; decide)
    rw [hs, if_pos (by decide)] at h
    exact h
  have p0 := filev6_readblock_inside u { i_number := nr, i_node := ino, offset := 0 } buf
  have p1 := filev6_readblock_inside u { i_number := nr, i_node := ino, offset := 512 } d0
  have p2 := filev6_readblock_at_end u { i_number := nr, i_node := ino, offset := 513 } d1
  dsimp only at p0 p1 p2
  rw [hs] at p0 p1 p2
  rw [hf0] at p0
  rw [hf1] at p1
  refine ⟨?_, ?_, p2 rfl⟩
  · exact p0 d0 (by decide) (Int.ofNat_nonneg _) (by rw [Int.toNat_ofNat]; exact hr0)
  · exact p1 d1 (by decide) (Int.ofNat_nonneg _) (by rw [Int.toNat_ofNat]; exact hr1)

set_option maxRecDepth 100000 in
theorem filev6_readblock_size_513_witness :
    (file_513.i_node.i_mode &&& IALLOC ≠ 0 ∧ inode_getsize file_513.i_node = 513 ∧
      file_513.offset = 0 ∧
      sector_read fs_dir16.f (file_513.i_node.i_addr.getD 0 0) = some zero_sector ∧
      sector_read fs_dir16.f (file_513.i_node.i_addr.getD 1 0) =
        some (sector_of_memory (dirent_bytes [112] 16))) ∧
    (filev6_readblock fs_dir16 file_513 [] = (512, { file_513 with offset := 512 }, zero_sector) ∧
      filev6_readblock fs_dir16 { file_513 with offset := 512 } zero_sector =
        (1, { file_513 with offset := 513 }, sector_of_memory (dirent_bytes [112] 16)) ∧
      filev6_readblock fs_dir16 { file_513 with offset := 513 }
          (sector_of_memory (dirent_bytes [112] 16)) =
        (0, { file_513 with offset := 513 }, sector_of_memory (dirent_bytes [112] 16))) :=
  ⟨by decide,
   filev6_readblock_size_513 fs_dir16 file_513 [] zero_sector
     (sector_of_memory (dirent_bytes [112] 16)) (by decide) (by decide) (by decide) (by decide)
     (by decide)⟩

/-! ## `inode_alloc` -/

/-- With an ID from `bm_find_next`, `inode_alloc` returns it and sets its bit. -/
theorem inode_alloc_of_found (fuel : Nat) (u : unix_filesystem) (x : Int) (b : bmblock_array)
    (h : bm_find_next fuel u.ibm = some (x, b)) (hx : 0 ≤ x) :
    inode_alloc fuel u = some (x, { u with ibm := bm_set b x.toNat }) := by
  unfold inode_alloc
  rw [h]
  dsimp only
  rw [if_neg (by omega)]

/-- Without an answer from `bm_find_next`, `inode_alloc` does not return. -/
theorem inode_alloc_of_spin (fuel : Nat) (u : unix_filesystem)
    (h : bm_find_next fuel u.ibm = none) : inode_alloc fuel u = none := by
  unfold inode_alloc
  rw [h]

set_option maxRecDepth 1000000 in
/-- C17 fails when the inode bitmap is full. After `mountv6` on the image of `mkfs`
with 16 inodes, 14 calls of `inode_alloc` return the IDs 2 to 15 and leave every ID
of the range `[2, 15]` set; on that filesystem `inode_alloc` does not return
`ERR_NOMEM`: for every amount of fuel the call has not returned. -/
theorem inode_alloc_full_never_returns :
    inode_alloc_session.map (fun r => (r.1, r.2.ibm)) =
      some ([2, 3, 4, 5, 6, 7, 8, 9, 10, 11, 12, 13, 14, 15], bitmap_2_15_full) ∧
    (∀ y, 2 ≤ y → y ≤ 15 → bm_get bitmap_2_15_full y = 1) ∧
    ∀ fuel, inode_alloc_session.map (fun r => inode_alloc fuel r.2) = some none := by
  have h1 : inode_alloc_session.map (fun r => (r.1, r.2.ibm)) =
      some ([2, 3, 4, 5, 6, 7, 8, 9, 10, 11, 12, 13, 14, 15], bitmap_2_15_full) := by decide
  refine ⟨h1, ?_, ?_⟩
  · intro y hy1 hy2
    interval_cases y <;> decide
  · intro fuel
    rcases Option.eq_none_or_eq_some inode_alloc_session with hn | ⟨r, hr⟩
    · rw [hn] at h1
      exact absurd h1 (by simp)
    · rw [hr] at h1 ⊢
      simp only [Option.map_some', Option.some.injEq, Prod.mk.injEq] at h1
      simp only [Option.map_some', Option.some.injEq]
      exact inode_alloc_of_spin fuel r.2 (by rw [h1.2]; exact bm_find_next_bitmap_2_15_full fuel)

/-! ## `filev6_writebytes`: the size cap -/

/-- C22 (amended). For every descriptor with current size `s` and every `len`
whose sum `s + len` is within the range of `int` (below `2^31`): when
`s + len > 4000`, `filev6_writebytes` returns `ERR_FILE_TOO_LARGE`, and the
descriptor, both bitmaps and the disk image are unchanged. -/
theorem filev6_writebytes_size_cap (fuel : Nat) (u : unix_filesystem) (fd : filev6)
    (buf : List Nat) (len : Int) (h : inode_getsize fd.i_node + len > 4000)
    (hlen : inode_getsize fd.i_node + len < 2 ^ 31) :
    filev6_writebytes fuel u fd buf len = some (ERR_FILE_TOO_LARGE, u, fd) := by
  unfold filev6_writebytes
  rw [wrapInt32_of_range _ (by omega) hlen, if_pos (by omega)]

theorem filev6_writebytes_size_cap_witness :
    (inode_getsize file_513.i_node + 3488 > 4000 ∧
      inode_getsize file_513.i_node + 3488 < 2 ^ 31) ∧
    filev6_writebytes 0 fs_dir16 file_513 [1, 2, 3] 3488 =
      some (ERR_FILE_TOO_LARGE, fs_dir16, file_513) :=
  ⟨by decide, filev6_writebytes_size_cap 0 fs_dir16 file_513 [1, 2, 3] 3488 (by decide) (by decide)⟩

set_option maxRecDepth 1000000 in
/-- C22, counterexample. With `len = 2147483647` on a file of 3 bytes the sum
`size + len` exceeds 4000, but the `int` addition wraps to a negative value and
the test of the cap is passed: the call completes the sector of the file with the
509 bytes of `buf` (the image is changed, the cached size becomes 512) and ends
with the answer `ERR_BITMAP_FULL` of the next `filev6_writesector`, not
`ERR_FILE_TOO_LARGE`. -/
theorem filev6_writebytes_size_cap_counterexample :
    inode_getsize fd_3_sector_5.i_node + 2147483647 > 4000 ∧
    (filev6_writebytes 8 fs_69_data fd_3_sector_5 (List.replicate 509 7) 2147483647).map
        (fun r => (r.1, decide (r.2.1.f = fs_69_data.f), inode_getsize r.2.2.i_node))
      = some (ERR_BITMAP_FULL, false, 512) := by
  refine ⟨by decide, by decide⟩

/-- The cap at its boundary: `513 + 3487 = 4000` is accepted by the test, and
`513 + 3488` is rejected. -/
theorem filev6_writebytes_cap_boundary :
    (filev6_writebytes 0 fs_dir16 file_513 [1, 2, 3] 3487) = none ∧
    (filev6_writebytes 8 fs_dir16 file_513 [1, 2, 3] 3488).map (fun r => r.1) =
      some ERR_FILE_TOO_LARGE := by
  decide

/-! ## `direntv6_dirlookup`: paths made of `'/'` only -/

theorem dropWhile_slashes (path : List Nat) (h : ∀ c ∈ path, c = 47) :
    path.dropWhile (fun c => decide (c = 47)) = [] := by
  rw [List.dropWhile_eq_nil_iff]
  intro c hc
  simp [h c hc]

/-- C28. `direntv6_dirlookup(u, ROOT_INUMBER, "/")` and
`direntv6_dirlookup(u, ROOT_INUMBER, "")` return `ROOT_INUMBER = 1`; for every start
inode number `s` and every path made of `'/'` characters only, the lookup returns
`s`. (Whatever the uninitialised locals hold, and with any fuel of at least one
call.) -/
theorem direntv6_dirlookup_slashes (name0 : List Nat) (inr0 fuel : Nat) (u : unix_filesystem) :
    direntv6_dirlookup name0 inr0 (fuel + 1) u ROOT_INUMBER [47] = some 1 ∧
    direntv6_dirlookup name0 inr0 (fuel + 1) u ROOT_INUMBER [] = some 1 ∧
    ∀ (s : Nat) (path : List Nat), (∀ c ∈ path, c = 47) →
      direntv6_dirlookup name0 inr0 (fuel + 1) u s path = some (s : Int) := by
  have hgen : ∀ (s : Nat) (path : List Nat), (∀ c ∈ path, c = 47) →
      direntv6_dirlookup name0 inr0 (fuel + 1) u s path = some (s : Int) := by
    intro s path h
    unfold direntv6_dirlookup direntv6_dirlookup_core
    dsimp only
    rw [dropWhile_slashes path h]
    rfl
  exact ⟨hgen 1 [47] (by simp), hgen 1 [] (by simp), hgen⟩

/-! ## The write path on concrete descriptors -/

set_option maxRecDepth 1000000 in
/-- C23, evaluated. On `fs_dir16` the next free sector is 6. A call of
`filev6_writesector` that writes 100 bytes to the empty file records 6 in
`i_addr[0]`, sets bit 6, stores the bytes in sector 6 and sets size and offset to
100. A call that writes a full sector of 512 bytes does the same, except that 6
is recorded in `i_addr[(0 + 512) / 512] = i_addr[1]` and `i_addr[0]` stays `0`. -/
theorem filev6_writesector_full_sector_wrong_slot :
    bm_find_next 2 fs_dir16.fbm = some (6, fs_dir16.fbm) ∧
    (filev6_writesector 2 fs_dir16 fd_3 (List.replicate 512 65) 100).map
        (fun r => (r.1, r.2.2.i_node.i_addr, inode_getsize r.2.2.i_node, r.2.2.offset,
                   bm_get r.2.1.fbm 6, (r.2.1.f.getD 6 []).take 100)) =
      some (100, [6, 0, 0, 0, 0, 0, 0, 0], 100, 100, 1, List.replicate 100 65) ∧
    (filev6_writesector 2 fs_dir16 fd_3 (List.replicate 512 65) 512).map
        (fun r => (r.1, r.2.2.i_node.i_addr, inode_getsize r.2.2.i_node, r.2.2.offset,
                   bm_get r.2.1.fbm 6, r.2.1.f.getD 6 [])) =
      some (512, [0, 6, 0, 0, 0, 0, 0, 0], 512, 512, 1, List.replicate 512 65) := by
  refine ⟨by decide, by decide, by decide⟩

set_option maxRecDepth 1000000 in
/-- C26, evaluated. On `fs_dir16` (32 inodes) `filev6_create` with mode `IALLOC`
returns `0` for inode 3 and for inode 17 and caches the new record in both
descriptors. Inode 3 then reads back as that record; inode 17 reads back
unallocated and all zero, and the image is the one before the call: `inode_write`
has stored the record at `inodes[17]`, outside its buffer of 16 records. -/
theorem filev6_create_slot_17_not_written :
    mountv6 8 image_dir16 = some (.ok fs_dir16) ∧
    ((17 : Nat) : Int) ≤ (fs_dir16.s.s_isize : Int) * INODES_PER_SECTOR - 1 ∧
    (filev6_create fs_dir16 IALLOC fd_3).1 = 0 ∧
    (filev6_create fs_dir16 IALLOC fd_3).2.2.i_node = inode_file ∧
    inode_read (filev6_create fs_dir16 IALLOC fd_3).2.1 3 = (0, inode_file) ∧
    (filev6_create fs_dir16 IALLOC fd_17).1 = 0 ∧
    (filev6_create fs_dir16 IALLOC fd_17).2.2.i_node = inode_file ∧
    inode_read (filev6_create fs_dir16 IALLOC fd_17).2.1 17 =
      (ERR_UNALLOCATED_INODE, inode_zero) ∧
    (filev6_create fs_dir16 IALLOC fd_17).2.1 = fs_dir16 := by
  decide

/-! ## `filev6_writesector` without a free sector -/

theorem bm_find_next_frame (fuel : Nat) (b : bmblock_array) (x : Int) (b' : bmblock_array)
    (hf : bm_find_next fuel b = some (x, b')) :
    b'.bm = b.bm ∧ b'.min = b.min ∧ b'.max = b.max ∧ b'.length = b.length := by
  induction fuel generalizing b with
  | zero => simp [bm_find_next] at hf
  | succ n ih =>
    unfold bm_find_next at hf
    by_cases hc : b.cursor < b.length
    · rw [if_pos hc] at hf
      by_cases hw : b.bm.getD b.cursor 0 ≠ UINT64_MAX
      · rw [if_pos hw] at hf
        cases hy : bm_find_next_for b BITS_PER_VECTOR 0 with
        | some y =>
          rw [hy] at hf
          simp only [Option.some.injEq, Prod.mk.injEq] at hf
          obtain ⟨_, rfl⟩ := hf
          exact ⟨rfl, rfl, rfl, rfl⟩
        | none =>
          rw [hy] at hf
          exact ih b hf
      · rw [if_neg hw] at hf
        exact ih { b with cursor := b.cursor + 1 } hf
    · rw [if_neg hc] at hf
      simp only [Option.some.injEq, Prod.mk.injEq] at hf
      obtain ⟨_, rfl⟩ := hf
      exact ⟨rfl, rfl, rfl, rfl⟩

/-- C25 (amended). When the size of the file is a multiple of 512 (and within the
`7 * 256 * 512` bytes that `filev6_writesector` accepts) and `bm_find_next(u.fbm)`
reports that no sector is free by returning `ERR_BITMAP_FULL`,
`filev6_writesector` fails with that code, `ERR_BITMAP_FULL`, and leaves the
descriptor, the bits and the range of the bitmap and the disk image unchanged. -/
theorem filev6_writesector_bitmap_full (fuel : Nat) (u : unix_filesystem) (fd : filev6)
    (buf : List Nat) (len : Int) (b' : bmblock_array)
    (hs : inode_getsize fd.i_node ≤ 7 * 256 * 512) (hm : inode_getsize fd.i_node % 512 = 0)
    (hf : bm_find_next fuel u.fbm = some (ERR_BITMAP_FULL, b')) :
    filev6_writesector fuel u fd buf len = some (ERR_BITMAP_FULL, { u with fbm := b' }, fd) ∧
    b'.bm = u.fbm.bm ∧ b'.min = u.fbm.min ∧ b'.max = u.fbm.max := by
  obtain ⟨h1, h2, h3, _⟩ := bm_find_next_frame fuel u.fbm _ b' hf
  refine ⟨?_, h1, h2, h3⟩
  have e : ((SECTOR_SIZE : Nat) : Int) = 512 := rfl
  unfold filev6_writesector
  dsimp only
  rw [if_neg (by omega), e, if_pos hm, hf]
  dsimp only
  rw [if_pos (by decide)]

set_option maxRecDepth 1000000 in
theorem filev6_writesector_bitmap_full_witness :
    (inode_getsize fd_3.i_node ≤ 7 * 256 * 512 ∧ inode_getsize fd_3.i_node % 512 = 0 ∧
      bm_find_next 2 fs_69.fbm = some (ERR_BITMAP_FULL, { fs_69.fbm with cursor := 1 })) ∧
    (filev6_writesector 2 fs_69 fd_3 [1, 2, 3] 3 =
        some (ERR_BITMAP_FULL, { fs_69 with fbm := { fs_69.fbm with cursor := 1 } }, fd_3) ∧
      ({ fs_69.fbm with cursor := 1 } : bmblock_array).bm = fs_69.fbm.bm ∧
      ({ fs_69.fbm with cursor := 1 } : bmblock_array).min = fs_69.fbm.min ∧
      ({ fs_69.fbm with cursor := 1 } : bmblock_array).max = fs_69.fbm.max) :=
  ⟨by decide,
   filev6_writesector_bitmap_full 2 fs_69 fd_3 [1, 2, 3] 3 { fs_69.fbm with cursor := 1 }
     (by decide) (by decide) (by decide)⟩

set_option maxRecDepth 1000000 in
/-- C25, counterexample. On the filesystem of `mkfs` with 69 blocks in which every
data sector 5 to 68 is in use, `filev6_writesector` on an empty file (size 0)
returns `ERR_BITMAP_FULL`, which is not `ERR_NOMEM`. -/
theorem filev6_writesector_bitmap_full_counterexample :
    fs_69_full = some fs_69 ∧
    (∀ y, 5 ≤ y → y ≤ 68 → bm_get fs_69.fbm y = 1) ∧
    inode_getsize fd_3.i_node % 512 = 0 ∧
    (filev6_writesector 2 fs_69 fd_3 [1, 2, 3] 3).map (fun r => r.1) = some ERR_BITMAP_FULL ∧
    ERR_BITMAP_FULL ≠ ERR_NOMEM := by
  refine ⟨by decide, ?_, by decide, by decide, by decide⟩
  intro y h1 h2
  interval_cases y <;> decide

/-! ## `filev6_writesector`: what a call does -/

/-- The two ways a call of `filev6_writesector` that returns can end, with
`nb_bytes` computed from `taille_rest1 = len - offset` and the current size: either
nothing but the cursor of `fbm` has changed and the result is an error code or
`0 = nb_bytes`; or the result is `nb_bytes`, one sector has been written, and the
descriptor holds the new size and offset. -/
theorem filev6_writesector_cases (fuel : Nat) (u : unix_filesystem) (fd : filev6)
    (buf : List Nat) (len w : Int) (u' : unix_filesystem) (fd' : filev6)
    (hr1 : -2 ^ 31 ≤ len - fd.offset) (hr2 : len - fd.offset < 2 ^ 31)
    (h : filev6_writesector fuel u fd buf len = some (w, u', fd')) :
    (fd' = fd ∧ u'.s = u.s ∧ u'.f = u.f ∧
      (w < 0 ∨ (w = 0 ∧
        (if inode_getsize fd.i_node % 512 = 0 then min (len - fd.offset) 512
          else min (len - fd.offset) (512 - inode_getsize fd.i_node % 512)) = 0))) ∨
    (w = (if inode_getsize fd.i_node % 512 = 0 then min (len - fd.offset) 512
          else min (len - fd.offset) (512 - inode_getsize fd.i_node % 512)) ∧
      w ≠ 0 ∧ u'.s = u.s ∧ (∃ sec data, sector_write u.f sec data = some u'.f) ∧
      ∃ ino0, ino0.i_mode = fd.i_node.i_mode ∧
        fd' = { fd with i_node := (inode_setsize ino0 (inode_getsize fd.i_node + w)).2,
                        offset := fd.offset + w }) := by
  have e : ((SECTOR_SIZE : Nat) : Int) = 512 := rfl
  have hio : ( ERR_IO) < (0 : Int) := by decide
  have hfl : ERR_FILE_TOO_LARGE < (0 : Int) := by decide
  unfold filev6_writesector at h
  dsimp only at h
  rw [wrapInt32_of_range _ hr1 hr2, e] at h
  by_cases hcap : inode_getsize fd.i_node > 7 * 256 * 512
  · rw [if_pos hcap] at h
    simp only [Option.some.injEq, Prod.mk.injEq] at h
    obtain ⟨rfl, rfl, rfl⟩ := h
    exact Or.inl ⟨rfl, rfl, rfl, Or.inl hfl⟩
  rw [if_neg hcap] at h
  by_cases hm : inode_getsize fd.i_node % 512 = 0
  · rw [if_pos hm] at h
    rw [if_pos hm]
    rcases Option.eq_none_or_eq_some (bm_find_next fuel u.fbm) with hn | ⟨⟨num, fbm'⟩, hsome⟩
    · rw [hn] at h
      exact absurd h (by simp)
    rw [hsome] at h
    dsimp only at h
    by_cases hneg : num < 0
    · rw [if_pos hneg] at h
      simp only [Option.some.injEq, Prod.mk.injEq] at h
      obtain ⟨rfl, rfl, rfl⟩ := h
      exact Or.inl ⟨rfl, rfl, rfl, Or.inl hneg⟩
    rw [if_neg hneg] at h
    have hnb : (if len - fd.offset ≤ 512 then len - fd.offset else (512 : Int)) =
        min (len - fd.offset) 512 := by
      by_cases hc : len - fd.offset ≤ 512
      · rw [if_pos hc, min_eq_left hc]
      · rw [if_neg hc, min_eq_right (by omega)]
    rw [hnb] at h
    by_cases hz : min (len - fd.offset) 512 = 0
    · rw [if_pos hz] at h
      simp only [Option.some.injEq, Prod.mk.injEq] at h
      obtain ⟨rfl, rfl, rfl⟩ := h
      exact Or.inl ⟨rfl, rfl, rfl, Or.inr ⟨rfl, hz⟩⟩
    rw [if_neg hz] at h
    rcases Option.eq_none_or_eq_some (sector_write u.f num.toNat buf) with hn | ⟨f', hf'⟩
    · rw [hn] at h
      simp only [Option.some.injEq, Prod.mk.injEq] at h
      obtain ⟨rfl, rfl, rfl⟩ := h
      exact Or.inl ⟨rfl, rfl, rfl, Or.inl hio⟩
    · rw [hf'] at h
      simp only [Option.some.injEq, Prod.mk.injEq] at h
      obtain ⟨rfl, rfl, rfl⟩ := h
      exact Or.inr ⟨rfl, hz, rfl, ⟨_, _, hf'⟩, by refine ⟨_, ?_, rfl⟩; rfl⟩
  · rw [if_neg hm] at h
    rw [if_neg hm]
    have hnb : (if len - fd.offset ≤ 512 - inode_getsize fd.i_node % 512 then len - fd.offset
        else 512 - inode_getsize fd.i_node % 512) =
        min (len - fd.offset) (512 - inode_getsize fd.i_node % 512) := by
      by_cases hc : len - fd.offset ≤ 512 - inode_getsize fd.i_node % 512
      · rw [if_pos hc, min_eq_left hc]
      · rw [if_neg hc, min_eq_right (by omega)]
    rw [hnb] at h
    by_cases hz : min (len - fd.offset) (512 - inode_getsize fd.i_node % 512) = 0
    · rw [if_pos hz] at h
      simp only [Option.some.injEq, Prod.mk.injEq] at h
      obtain ⟨rfl, rfl, rfl⟩ := h
      exact Or.inl ⟨rfl, rfl, rfl, Or.inr ⟨rfl, hz⟩⟩
    rw [if_neg hz] at h
    rcases Option.eq_none_or_eq_some
      (sector_read u.f (fd.i_node.i_addr.getD (inode_getsize fd.i_node / 512).toNat 0))
      with hn | ⟨sec, hsec⟩
    · rw [hn] at h
      simp only [Option.some.injEq, Prod.mk.injEq] at h
      obtain ⟨rfl, rfl, rfl⟩ := h
      exact Or.inl ⟨rfl, rfl, rfl, Or.inl hio⟩
    rw [hsec] at h
    dsimp only at h
    by_cases hlt : min (len - fd.offset) (512 - inode_getsize fd.i_node % 512) < 0
    · rw [if_pos hlt] at h
      exact absurd h (by simp)
    rw [if_neg hlt] at h
    split at h
    · simp only [Option.some.injEq, Prod.mk.injEq] at h
      obtain ⟨rfl, rfl, rfl⟩ := h
      exact Or.inl ⟨rfl, rfl, rfl, Or.inl hio⟩
    · rename_i f' hf'
      simp only [Option.some.injEq, Prod.mk.injEq] at h
      obtain ⟨rfl, rfl, rfl⟩ := h
      exact Or.inr ⟨rfl, hz, rfl, ⟨_, _, hf'⟩, by refine ⟨_, ?_, rfl⟩; rfl⟩

/-- C24 (amended). For every descriptor with current size `s` and every `len`
(with `len - fd.offset` in the range of `int`), a call of
`filev6_writesector(u, fd, buf, len)` that returns a result `≥ 0` returns
`min(len - fd.offset, 512)` when `s` is a multiple of 512 and
`min(len - fd.offset, 512 - (s mod 512))` otherwise; it returns `0` only when
`len = fd.offset`. -/
theorem filev6_writesector_bytes_written (fuel : Nat) (u : unix_filesystem) (fd : filev6)
    (buf : List Nat) (len w : Int) (u' : unix_filesystem) (fd' : filev6)
    (hr1 : -2 ^ 31 ≤ len - fd.offset) (hr2 : len - fd.offset < 2 ^ 31)
    (h : filev6_writesector fuel u fd buf len = some (w, u', fd')) (hw : 0 ≤ w) :
    (inode_getsize fd.i_node % 512 = 0 → w = min (len - fd.offset) 512) ∧
    (inode_getsize fd.i_node % 512 ≠ 0 →
      w = min (len - fd.offset) (512 - inode_getsize fd.i_node % 512)) ∧
    (w = 0 → len = fd.offset) := by
  have hval : w = (if inode_getsize fd.i_node % 512 = 0 then min (len - fd.offset) 512
      else min (len - fd.offset) (512 - inode_getsize fd.i_node % 512)) := by
    rcases filev6_writesector_cases fuel u fd buf len w u' fd' hr1 hr2 h with
      ⟨_, _, _, hneg | ⟨h0, hnb⟩⟩ | ⟨hv, _⟩
    · omega
    · rw [h0, hnb]
    · exact hv
  refine ⟨fun hm => by rw [hval, if_pos hm], fun hm => by rw [hval, if_neg hm], ?_⟩
  intro h0
  rw [h0] at hval
  by_cases hm : inode_getsize fd.i_node % 512 = 0
  · rw [if_pos hm] at hval
    omega
  · rw [if_neg hm] at hval
    omega

set_option maxRecDepth 1000000 in
theorem filev6_writesector_bytes_written_witness :
    (-2 ^ 31 ≤ (5 : Int) - (fd_3_written 3 3).offset ∧
      (5 : Int) - (fd_3_written 3 3).offset < 2 ^ 31 ∧
      filev6_writesector 2 fs_dir16_written (fd_3_written 3 3) [4, 5, 6, 7, 8] 5 =
        some (2, fs_dir16_written_5, fd_3_written 5 5) ∧
      (0 : Int) ≤ 2) ∧
    ((inode_getsize (fd_3_written 3 3).i_node % 512 = 0 →
        (2 : Int) = min (5 - (fd_3_written 3 3).offset) 512) ∧
      (inode_getsize (fd_3_written 3 3).i_node % 512 ≠ 0 →
        (2 : Int) = min (5 - (fd_3_written 3 3).offset)
          (512 - inode_getsize (fd_3_written 3 3).i_node % 512)) ∧
      ((2 : Int) = 0 → (5 : Int) = (fd_3_written 3 3).offset)) :=
  ⟨⟨by decide, by decide, by decide, by decide⟩,
   filev6_writesector_bytes_written 2 fs_dir16_written (fd_3_written 3 3) [4, 5, 6, 7, 8] 5 2
     fs_dir16_written_5 (fd_3_written 5 5) (by decide) (by decide) (by decide) (by decide)⟩

set_option maxRecDepth 1000000 in
/-- C24, counterexample. The descriptor through which 3 bytes have been written to
an empty file stands at offset 3 on a file of size 3. The call with `len = 5`
returns `2`, not `min(5, 512 - 3) = 5`; the call with `len = 3` returns `0`
although `len` is not `0`. Both calls are successful. -/
theorem filev6_writesector_bytes_written_counterexample :
    filev6_writebytes 8 fs_dir16 fd_3 [1, 2, 3] 3 =
      some (0, (inode_write fs_dir16_written 3 (fd_3_written 3 3).i_node).2, fd_3_written 3 3) ∧
    inode_getsize (fd_3_written 3 3).i_node = 3 ∧
    (filev6_writesector 2 (inode_write fs_dir16_written 3 (fd_3_written 3 3).i_node).2
        (fd_3_written 3 3) [4, 5, 6, 7, 8] 5).map (fun r => r.1) = some 2 ∧
    (2 : Int) ≠ min 5 (512 - 3 % 512) ∧
    (filev6_writesector 2 (inode_write fs_dir16_written 3 (fd_3_written 3 3).i_node).2
        (fd_3_written 3 3) [4, 5, 6] 3).map (fun r => r.1) = some 0 ∧
    (3 : Int) ≠ 0 := by
  refine ⟨by decide, by decide, by decide, by decide, by decide, by decide⟩

/-! ## Sector I/O: reading back what was written -/

theorem sector_of_memory_of_length (data : List Nat) (h : data.length = 512) :
    sector_of_memory data = data := by
  unfold sector_of_memory
  have e : SECTOR_SIZE = 512 := rfl
  rw [e, h, List.take_of_length_le (by omega)]
  simp

theorem sector_write_read_isSome (f : List (List Nat)) (sec : Nat) (data : List Nat)
    (f' : List (List Nat)) (sec' : Nat) (h : sector_write f sec data = some f')
    (hr : (sector_read f sec').isSome = true) : (sector_read f' sec').isSome = true := by
  unfold sector_write at h
  unfold sector_read at hr ⊢
  dsimp only at h hr ⊢
  generalize toInt32 (sec * SECTOR_SIZE) = pos at h
  generalize toInt32 (sec' * SECTOR_SIZE) = pos' at hr ⊢
  by_cases hp : pos < 0
  · rw [if_pos hp] at h
    exact absurd h (by simp)
  rw [if_neg hp] at h
  by_cases hp' : pos' < 0
  · rw [if_pos hp'] at hr
    exact absurd hr (by simp)
  rw [if_neg hp', List.get?_eq_getElem?] at hr
  rw [if_neg hp', List.get?_eq_getElem?]
  generalize pos.toNat / SECTOR_SIZE = k at h
  generalize pos'.toNat / SECTOR_SIZE = k' at hr ⊢
  obtain ⟨d, hd⟩ := Option.isSome_iff_exists.mp hr
  obtain ⟨hlt, _⟩ := List.getElem?_eq_some.mp hd
  have hlen : k' < f'.length := by
    by_cases hk : k < f.length
    · rw [if_pos hk] at h
      simp only [Option.some.injEq] at h
      rw [← h, List.length_set]
      exact hlt
    · rw [if_neg hk] at h
      simp only [Option.some.injEq] at h
      rw [← h]
      simp
      omega
  rw [List.getElem?_eq_getElem hlen]
  rfl

theorem zero_sector_length : zero_sector.length = 512 := by
  unfold zero_sector
  rw [List.length_replicate]
  rfl

theorem inode_bytes_length (ino : inode) : (inode_bytes ino).length = 32 := rfl

theorem inode_store_length (sec : List Nat) (nr : Nat) (ino : inode) (hlen : sec.length = 512)
    (hnr : nr < 16) : (inode_store sec nr ino).length = 512 := by
  unfold inode_store
  have e : INODES_PER_SECTOR = 16 := rfl
  rw [e, if_pos hnr]
  simp only [List.length_append, List.length_take, List.length_drop, inode_bytes_length, hlen]
  omega

/-- A call of `inode_write` that does not fail has found the table readable and
`inr` in range, and has written the sector of `inr` with the record stored in
it. -/
theorem inode_write_ok (u : unix_filesystem) (nr : Nat) (ino : inode)
    (hw : ¬ (inode_write u nr ino).1 < 0) :
    inode_table_readable u = true ∧ (nr : Int) ≤ (u.s.s_isize : Int) * 16 - 1 ∧
    ∃ sec f', sector_read u.f (u.s.s_inode_start + nr / 16) = some sec ∧
      sector_write u.f (u.s.s_inode_start + nr / 16) (inode_store sec nr ino) = some f' ∧
      inode_write u nr ino = (0, { u with f := f' }) := by
  have e : ((INODES_PER_SECTOR : Nat) : Int) = 16 := rfl
  have hio : ( ERR_IO) < (0 : Int) := by decide
  have hrg : ERR_INODE_OUTOF_RANGE < (0 : Int) := by decide
  by_cases hread : inode_table_readable u = true
  swap
  · exfalso
    apply hw
    unfold inode_write
    rw [if_pos (by simpa using hread)]
    exact hio
  by_cases hr : (nr : Int) > (u.s.s_isize : Int) * 16 - 1
  · exfalso
    apply hw
    unfold inode_write
    rw [if_neg (by rw [hread]; simp), e, if_pos hr]
    exact hrg
  have hall := (inode_table_readable_iff u).mp hread
  obtain ⟨sec, hsec, hseek⟩ := inode_seek_spec u.f u.s.s_inode_start nr (nr + 1) 0 zero_sector
    (by omega) (by omega) (fun j hj => hall j (by omega))
  have hseek0 : inode_seek u.f u.s.s_inode_start nr (nr + 1) 0 0 zero_sector =
      (nr / 16 + 1, sec) := hseek
  have key : inode_write u nr ino =
      match sector_write u.f (u.s.s_inode_start + nr / 16) (inode_store sec nr ino) with
      | none => ( ERR_IO, u)
      | some f' => (0, { u with f := f' }) := by
    unfold inode_write
    rw [if_neg (by rw [hread]; simp), e, if_neg hr, hseek0]
    rfl
  refine ⟨hread, by omega, sec, ?_⟩
  rcases Option.eq_none_or_eq_some
    (sector_write u.f (u.s.s_inode_start + nr / 16) (inode_store sec nr ino)) with hn | ⟨f', hf'⟩
  · exfalso
    apply hw
    rw [key, hn]
    exact hio
  · refine ⟨f', hsec, hf', ?_⟩
    rw [key, hf']

theorem strncpy_name_length (src : List Nat) : (strncpy_name src).length ≤ 14 := by
  unfold strncpy_name
  have h1 := (List.takeWhile_sublist (l := src.take DIRENT_MAXLEN)
    (fun c => decide (c ≠ 0))).length_le
  have h2 : (src.take DIRENT_MAXLEN).length ≤ 14 := by
    rw [List.length_take]
    exact Nat.min_le_left _ _
  omega

/-- A call of `direntv6_readdir` before the end of the directory returns `1` with
entry `k`, fetching the next sector first when `k` is a multiple of 32. -/
theorem direntv6_readdir_step (u : unix_filesystem) (ino : inode) (n k : Nat)
    (d : directory_reader) (name : List Nat) (ci : Nat) (hk : k < n)
    (hsize : inode_getsize ino = ((16 * n : Nat) : Int)) (hread : file_readable u ino (16 * n))
    (hd : reader_at u ino n k d) :
    (direntv6_readdir u d name ci).1 = 1 ∧
    (direntv6_readdir u d name ci).2.2.1 =
      strncpy_name (dirent_name (file_sector u ino (k / 32)) (k % 32)) ∧
    (direntv6_readdir u d name ci).2.2.2 =
      dirent_inumber (file_sector u ino (k / 32)) (k % 32) ∧
    reader_at u ino n (k + 1) (direntv6_readdir u d name ci).2.1 ∧
    (direntv6_readdir u d name ci).2.1.dirs = file_sector u ino (k / 32) := by
  obtain ⟨hcur, hino, hoff, hlast, hdirs⟩ := hd
  have e32 : DIRENTRIES_PER_SECTOR = 32 := rfl
  unfold direntv6_readdir
  dsimp only
  by_cases hm : k % 32 = 0
  · -- a new sector is fetched
    have hS : (k + 31) / 32 = k / 32 := by omega
    have hS' : (k + 1 + 31) / 32 = k / 32 + 1 := by omega
    have hoffk : d.fv6.offset = ((16 * k : Nat) : Int) := by
      rw [hoff, hS, show min (16 * n) (512 * (k / 32)) = 16 * k from by omega]
    obtain ⟨hfs, hsome⟩ := hread (k / 32) (by omega)
    obtain ⟨sec, hsec⟩ := Option.isSome_iff_exists.mp hsome
    have htd : Int.tdiv d.fv6.offset 512 = ((k / 32 : Nat) : Int) := by
      rw [hoffk]
      have : Int.tdiv ((16 * k : Nat) : Int) 512 = ((16 * k / 512 : Nat) : Int) := rfl
      rw [this, show 16 * k / 512 = k / 32 from by omega]
    have hrb := filev6_readblock_inside u d.fv6 zero_sector sec
      (by rw [hino, hsize, hoffk]; omega) (by rw [htd, hino]; exact hfs)
      (by rw [htd, hino]; exact hsec)
    rw [hino, hsize, hoffk] at hrb
    have hfsec : file_sector u ino (k / 32) = sec := by
      unfold file_sector
      rw [hsec]
      rfl
    have hmin : min (((16 * n : Nat) : Int) - ((16 * k : Nat) : Int)) 512 =
        ((min (16 * n - 16 * k) 512 : Nat) : Int) := by
      omega
    rw [if_pos (by rw [hcur, hlast, hS]; omega), hrb, hmin]
    rw [if_neg (by omega)]
    refine ⟨rfl, ?_, ?_, ⟨?_, ?_, ?_, ?_, ?_⟩, ?_⟩
    · dsimp only
      rw [hcur, e32, hfsec]
    · dsimp only
      rw [hcur, e32, hfsec]
    · dsimp only
      rw [hcur]
    · rfl
    · dsimp only
      rw [hS']
      omega
    · dsimp only
      rw [hlast, hS, hS']
      omega
    · intro _
      dsimp only
      rw [Nat.add_sub_cancel, hfsec]
    · dsimp only
      rw [hfsec]
  · -- the entry is in the buffer
    have hS : (k + 1 + 31) / 32 = (k + 31) / 32 := by omega
    have hprev : (k - 1) / 32 = k / 32 := by omega
    have hbuf := hdirs (by omega)
    rw [hprev] at hbuf
    rw [if_neg (by rw [hcur, hlast]; omega)]
    refine ⟨rfl, ?_, ?_, ⟨?_, ?_, ?_, ?_, ?_⟩, ?_⟩
    · dsimp only
      rw [hcur, e32, hbuf]
    · dsimp only
      rw [hcur, e32, hbuf]
    · dsimp only
      rw [hcur]
    · exact hino
    · dsimp only
      rw [hS]
      exact hoff
    · dsimp only
      rw [hS]
      exact hlast
    · intro _
      dsimp only
      rw [Nat.add_sub_cancel]
      exact hbuf
    · exact hbuf

/-- At the end of the directory `direntv6_readdir` returns `0` and leaves the
reader, `name` and `*child_inr` as they were. -/
theorem direntv6_readdir_end (u : unix_filesystem) (ino : inode) (n : Nat)
    (d : directory_reader) (name : List Nat) (ci : Nat)
    (hsize : inode_getsize ino = ((16 * n : Nat) : Int)) (hd : reader_at u ino n n d) :
    direntv6_readdir u d name ci = (0, d, name, ci) := by
  obtain ⟨hcur, hino, hoff, hlast, _⟩ := hd
  have hoffn : d.fv6.offset = ((16 * n : Nat) : Int) := by
    rw [hoff, show min (16 * n) (512 * ((n + 31) / 32)) = 16 * n from by omega]
  have hrb := filev6_readblock_at_end u d.fv6 zero_sector (by rw [hino, hsize, hoffn])
  unfold direntv6_readdir
  dsimp only
  rw [if_pos (by rw [hcur, hlast]; omega), hrb]
  rfl

/-! ## `direntv6_readdir`: the whole directory -/

/-- The reader returned by a successful `direntv6_opendir` stands before entry 0. -/
theorem direntv6_opendir_ok (u : unix_filesystem) (inr : Nat) (d0 : directory_reader)
    (n : Nat) (h : direntv6_opendir u inr = (0, d0)) :
    reader_at u d0.fv6.i_node n 0 d0 ∧ d0.fv6.i_node.i_mode &&& IFMT = IFDIR := by
  unfold direntv6_opendir at h
  dsimp only at h
  have e1 : ERR_UNALLOCATED_INODE ≠ (0 : Int) := by decide
  have e2 : ERR_INVALID_DIRECTORY_INODE ≠ (0 : Int) := by decide
  by_cases h1 : (filev6_open u inr).1 < 0
  · rw [if_pos h1] at h
    simp only [Prod.mk.injEq] at h
    omega
  rw [if_neg h1] at h
  by_cases h2 : (filev6_open u inr).2.i_node.i_mode &&& IALLOC = 0 ∧
      (filev6_open u inr).2.i_node.i_mode &&& IFMT ≠ IFDIR
  · rw [if_pos h2] at h
    simp only [Prod.mk.injEq] at h
    exact absurd h.1 e1
  rw [if_neg h2] at h
  by_cases h3 : (filev6_open u inr).2.i_node.i_mode &&& IFMT ≠ IFDIR
  · rw [if_pos h3] at h
    simp only [Prod.mk.injEq] at h
    exact absurd h.1 e2
  rw [if_neg h3] at h
  simp only [Prod.mk.injEq, true_and] at h
  rw [← h]
  refine ⟨⟨rfl, rfl, ?_, ?_, fun hk => absurd hk (by omega)⟩, by simpa using h3⟩
  · dsimp only
    rw [show min (16 * n) (512 * ((0 + 31) / 32)) = 0 from by omega]
    rfl
  · dsimp only
    omega

/-- After `k ≤ n` calls of `direntv6_readdir` the reader stands before entry `k`. -/
theorem readdir_state_at (u : unix_filesystem) (ino : inode) (n : Nat)
    (d0 : directory_reader) (name0 : List Nat) (inr0 : Nat)
    (hsize : inode_getsize ino = ((16 * n : Nat) : Int)) (hread : file_readable u ino (16 * n))
    (h0 : reader_at u ino n 0 d0) :
    ∀ k, k ≤ n → reader_at u ino n k (readdir_state u d0 name0 inr0 k).1 := by
  intro k
  induction k with
  | zero => intro _; exact h0
  | succ k ih =>
    intro hk
    exact (direntv6_readdir_step u ino n k _ _ _ (by omega) hsize hread (ih (by omega))).2.2.2.1

/-- C27. For a directory on which `direntv6_opendir` succeeds (an allocated
directory inode), whose size is `16 * n` and whose data sectors are found and
readable: each of the first `n` calls of `direntv6_readdir` returns `1`, and call
`k` (`k = 0 .. n-1`) yields the inode number and the name of the `k`-th 16-byte
record of the directory file (record `k mod 32` of its sector `k / 32`), the name
being the 14 name bytes cut at the first NUL, so at most 14 characters without
NUL; call `n + 1` returns `0`. -/
theorem direntv6_readdir_enumerates (u : unix_filesystem) (inr : Nat) (d0 : directory_reader)
    (n : Nat) (name0 : List Nat) (inr0 : Nat) (hopen : direntv6_opendir u inr = (0, d0))
    (hsize : inode_getsize d0.fv6.i_node = ((16 * n : Nat) : Int))
    (hread : file_readable u d0.fv6.i_node (16 * n)) :
    (∀ k, k < n →
      (readdir_call u d0 name0 inr0 k).1 = 1 ∧
      (readdir_call u d0 name0 inr0 k).2.2.1 =
        strncpy_name (dirent_name (file_sector u d0.fv6.i_node (k / 32)) (k % 32)) ∧
      (readdir_call u d0 name0 inr0 k).2.2.2 =
        dirent_inumber (file_sector u d0.fv6.i_node (k / 32)) (k % 32) ∧
      (readdir_call u d0 name0 inr0 k).2.2.1.length ≤ 14 ∧
      (0 : Nat) ∉ (readdir_call u d0 name0 inr0 k).2.2.1) ∧
    (readdir_call u d0 name0 inr0 n).1 = 0 := by
  have h0 := (direntv6_opendir_ok u inr d0 n hopen).1
  have hat := readdir_state_at u d0.fv6.i_node n d0 name0 inr0 hsize hread h0
  constructor
  · intro k hk
    obtain ⟨h1, h2, h3, _, _⟩ := direntv6_readdir_step u d0.fv6.i_node n k
      (readdir_state u d0 name0 inr0 k).1 (readdir_state u d0 name0 inr0 k).2.1
      (readdir_state u d0 name0 inr0 k).2.2 hk hsize hread (hat k (by omega))
    unfold readdir_call
    refine ⟨h1, h2, h3, ?_, ?_⟩
    · rw [h2]; exact strncpy_name_length _
    · rw [h2]
      unfold strncpy_name
      intro hmem
      have := List.mem_takeWhile_imp hmem
      simp at this
  · unfold readdir_call
    rw [direntv6_readdir_end u d0.fv6.i_node n _ _ _ hsize (hat n (le_refl n))]

set_option maxRecDepth 1000000 in
theorem direntv6_readdir_enumerates_witness :
    (direntv6_opendir fs_dir16 ROOT_INUMBER = (0, reader_root_dir16) ∧
      inode_getsize reader_root_dir16.fv6.i_node = ((16 * 1 : Nat) : Int)) ∧
    (readdir_call fs_dir16 reader_root_dir16 [] 0 0).1 = 1 ∧
    (readdir_call fs_dir16 reader_root_dir16 [] 0 0).2.2.1 = [112] ∧
    (readdir_call fs_dir16 reader_root_dir16 [] 0 0).2.2.2 = 16 ∧
    (readdir_call fs_dir16 reader_root_dir16 [] 0 1).1 = 0 :=
  have h := direntv6_readdir_enumerates fs_dir16 ROOT_INUMBER reader_root_dir16 1 [] 0
    (by decide) (by decide)
    (fun j hj => by
      have hj0 : j = 0 := by omega
      subst hj0
      decide)
  ⟨by decide, (h.1 0 (by decide)).1, by decide, by decide, h.2⟩

/-! ## `direntv6_dirlookup`: the scan of a directory -/

/-- For a component without NUL, `strncmp` over the length of the component
answers `0` exactly when the name starts with the bytes of the component. -/
theorem strncmp_eq_starts (a b : List Nat) (hb : 0 ∉ b) :
    strncmp_eq a b b.length = true ↔ b <+: a := by
  unfold strncmp_eq
  rw [decide_eq_true_iff, List.take_left]
  constructor
  · intro h
    have hp : b <+: a ++ [0] := by
      rw [← h]
      exact List.take_prefix _ _
    rcases List.prefix_concat_iff.mp hp with he | hp'
    · exfalso
      apply hb
      rw [he]
      simp
    · exact hp'
  · intro h
    obtain ⟨t, ht⟩ := h
    rw [← ht, List.append_assoc, List.take_left]

/-- One iteration of the loop of `direntv6_dirlookup_core`. -/
theorem dirlookup_loop_succ (u : unix_filesystem) (entry : List Nat) (l : Nat)
    (recurse : Nat → Option Int) (fuel : Nat) (d : directory_reader) (name : List Nat)
    (ci : Nat) :
    dirlookup_loop u entry l recurse (fuel + 1) d name ci =
      if (direntv6_readdir u d name ci).1 < 0 then some (direntv6_readdir u d name ci).1
      else if strncmp_eq (direntv6_readdir u d name ci).2.2.1 entry entry.length = true then
        some ((direntv6_readdir u d name ci).2.2.2 : Int)
      else if strncmp_eq (direntv6_readdir u d name ci).2.2.1 entry l = true then
        recurse (direntv6_readdir u d name ci).2.2.2
      else if (direntv6_readdir u d name ci).1 > 0 then
        dirlookup_loop u entry l recurse fuel (direntv6_readdir u d name ci).2.1
          (direntv6_readdir u d name ci).2.2.1 (direntv6_readdir u d name ci).2.2.2
      else some ERR_INODE_OUTOF_RANGE := by
  rw [dirlookup_loop]

/-- The loop of `direntv6_dirlookup_core` passes over entries that match neither
the whole path nor its first component. -/
theorem dirlookup_loop_scan (u : unix_filesystem) (ino : inode) (n : Nat) (entry : List Nat)
    (l : Nat) (recurse : Nat → Option Int)
    (hsize : inode_getsize ino = ((16 * n : Nat) : Int))
    (hread : file_readable u ino (16 * n)) :
    ∀ (m k fuel : Nat) (d : directory_reader) (name : List Nat) (ci : Nat),
      k + m ≤ n → reader_at u ino n k d →
      (∀ i, k ≤ i → i < k + m →
        strncmp_eq (dir_entry_name u ino i) entry entry.length = false ∧
        strncmp_eq (dir_entry_name u ino i) entry l = false) →
      ∃ d' name' ci', reader_at u ino n (k + m) d' ∧
        (0 < m → name' = dir_entry_name u ino (k + m - 1)) ∧
        (m = 0 → name' = name) ∧
        dirlookup_loop u entry l recurse (fuel + m) d name ci =
          dirlookup_loop u entry l recurse fuel d' name' ci' := by
  intro m
  induction m with
  | zero =>
    intro k fuel d name ci _ hd _
    exact ⟨d, name, ci, hd, fun h => absurd h (by omega), fun _ => rfl, rfl⟩
  | succ m ih =>
    intro k fuel d name ci hkm hd hfail
    obtain ⟨h1, h2, h3, hd1, _⟩ :=
      direntv6_readdir_step u ino n k d name ci (by omega) hsize hread hd
    obtain ⟨hf1, hf2⟩ := hfail k (le_refl k) (by omega)
    have hunf : dirlookup_loop u entry l recurse (fuel + (m + 1)) d name ci =
        dirlookup_loop u entry l recurse (fuel + m) (direntv6_readdir u d name ci).2.1
          (dir_entry_name u ino k) (dir_entry_inumber u ino k) := by
      rw [show fuel + (m + 1) = (fuel + m) + 1 from rfl, dirlookup_loop_succ, h1, h2, h3]
      unfold dir_entry_name at hf1 hf2
      rw [if_neg (by decide), hf1, hf2]
      rfl
    obtain ⟨d', name', ci', hd', hn1, hn0, hloop⟩ :=
      ih (k + 1) fuel (direntv6_readdir u d name ci).2.1 (dir_entry_name u ino k)
        (dir_entry_inumber u ino k) (by omega) hd1
        (fun i hi1 hi2 => hfail i (by omega) (by omega))
    refine ⟨d', name', ci', ?_, ?_, fun h => absurd h (by omega), ?_⟩
    · rw [show k + (m + 1) = k + 1 + m from by omega]
      exact hd'
    · intro _
      by_cases hm : m = 0
      · rw [hn0 hm, hm]
        rfl
      · rw [hn1 (by omega), show k + 1 + m - 1 = k + (m + 1) - 1 from by omega]
    · rw [hunf, hloop]

/-- The loop returns the inode number of an entry that matches the whole path. -/
theorem dirlookup_loop_found (u : unix_filesystem) (ino : inode) (n : Nat) (entry : List Nat)
    (l : Nat) (recurse : Nat → Option Int)
    (hsize : inode_getsize ino = ((16 * n : Nat) : Int))
    (hread : file_readable u ino (16 * n)) (k fuel : Nat) (d : directory_reader)
    (name : List Nat) (ci : Nat) (hk : k < n) (hd : reader_at u ino n k d)
    (hmatch : strncmp_eq (dir_entry_name u ino k) entry entry.length = true) :
    dirlookup_loop u entry l recurse (fuel + 1) d name ci =
      some ((dir_entry_inumber u ino k : Nat) : Int) := by
  obtain ⟨h1, h2, h3, _, _⟩ := direntv6_readdir_step u ino n k d name ci hk hsize hread hd
  rw [dirlookup_loop_succ, h1, h2, h3]
  unfold dir_entry_name at hmatch
  rw [if_neg (by decide), hmatch]
  rfl

/-- At the end of the directory, with a `name` that matches neither the whole path
nor its first component, the loop answers `ERR_INODE_OUTOF_RANGE`. -/
theorem dirlookup_loop_end (u : unix_filesystem) (ino : inode) (n : Nat) (entry : List Nat)
    (l : Nat) (recurse : Nat → Option Int)
    (hsize : inode_getsize ino = ((16 * n : Nat) : Int)) (fuel : Nat) (d : directory_reader)
    (name : List Nat) (ci : Nat) (hd : reader_at u ino n n d)
    (hf1 : strncmp_eq name entry entry.length = false)
    (hf2 : strncmp_eq name entry l = false) :
    dirlookup_loop u entry l recurse (fuel + 1) d name ci = some ERR_INODE_OUTOF_RANGE := by
  rw [dirlookup_loop_succ, direntv6_readdir_end u ino n d name ci hsize hd]
  dsimp only
  rw [if_neg (by decide), hf1, hf2]
  rfl

/-- The loop hands an entry that matches the first component, and not the whole
path, to the recursive call. -/
theorem dirlookup_loop_recurse (u : unix_filesystem) (ino : inode) (n : Nat) (entry : List Nat)
    (l : Nat) (recurse : Nat → Option Int)
    (hsize : inode_getsize ino = ((16 * n : Nat) : Int))
    (hread : file_readable u ino (16 * n)) (k fuel : Nat) (d : directory_reader)
    (name : List Nat) (ci : Nat) (hk : k < n) (hd : reader_at u ino n k d)
    (hf1 : strncmp_eq (dir_entry_name u ino k) entry entry.length = false)
    (hmatch : strncmp_eq (dir_entry_name u ino k) entry l = true) :
    dirlookup_loop u entry l recurse (fuel + 1) d name ci =
      recurse (dir_entry_inumber u ino k) := by
  obtain ⟨h1, h2, h3, _, _⟩ := direntv6_readdir_step u ino n k d name ci hk hsize hread hd
  rw [dirlookup_loop_succ, h1, h2, h3]
  unfold dir_entry_name at hf1 hmatch
  rw [if_neg (by decide), hf1, hmatch]
  rfl

/-! ## `direntv6_dirlookup`: matching by prefix -/

theorem dropWhile_slashes_append (s : Nat) (c : Nat) (cs : List Nat) (hc : c ≠ 47) :
    (List.replicate s 47 ++ c :: cs).dropWhile (fun x => decide (x = 47)) = c :: cs := by
  induction s with
  | zero => simp [hc]
  | succ s ih =>
    rw [List.replicate_succ, List.cons_append, List.dropWhile_cons_of_pos (by simp)]
    exact ih

theorem strchr_slash_none (e : List Nat) (h : 47 ∉ e) : strchr_slash e = none := by
  induction e with
  | nil => rfl
  | cons c cs ih =>
    rw [strchr_slash, if_neg (fun hc => h (by rw [hc]; exact List.mem_cons_self _ _))]
    exact ih (fun hm => h (List.mem_cons_of_mem _ hm))

theorem strchr_slash_append (comp rest : List Nat) (h : 47 ∉ comp) :
    strchr_slash (comp ++ 47 :: rest) = some (47 :: rest) := by
  induction comp with
  | nil =>
    rw [List.nil_append, strchr_slash, if_pos rfl]
  | cons c cs ih =>
    rw [List.cons_append, strchr_slash,
      if_neg (fun hc => h (by rw [hc]; exact List.mem_cons_self _ _))]
    exact ih (fun hm => h (List.mem_cons_of_mem _ hm))

/-- A name without `'/'` never equals a path that goes on after its first
component. -/
theorem strncmp_eq_whole_path (name comp rest : List Nat) (h : 47 ∉ name) :
    strncmp_eq name (comp ++ 47 :: rest) (comp ++ 47 :: rest).length = false := by
  unfold strncmp_eq
  rw [decide_eq_false_iff_not, List.take_left]
  intro heq
  have hp : comp ++ 47 :: rest <+: name ++ [0] := by
    rw [← heq]
    exact List.take_prefix _ _
  have hmem : 47 ∈ name ++ [0] := hp.subset (by simp)
  rw [List.mem_append] at hmem
  rcases hmem with hm | hm
  · exact h hm
  · simp at hm

/-- Over the length of the first component, comparing with the path is comparing
with the component. -/
theorem strncmp_eq_first_component (name comp rest : List Nat) :
    strncmp_eq name (comp ++ 47 :: rest) comp.length = strncmp_eq name comp comp.length := by
  unfold strncmp_eq
  rw [List.append_assoc, List.take_left, List.take_left]

/-- One call of `direntv6_dirlookup_core` on a path with a first component. -/
theorem direntv6_dirlookup_core_succ (name0 : List Nat) (inr0 : Nat) (u : unix_filesystem)
    (fuel inr : Nat) (path entry : List Nat) (d0 : directory_reader)
    (he : path.dropWhile (fun c => decide (c = 47)) = entry) (hne : entry ≠ [])
    (hopen : direntv6_opendir u inr = (0, d0)) :
    direntv6_dirlookup_core name0 inr0 u (fuel + 1) inr path =
      dirlookup_loop u entry (entry.length - ((strchr_slash entry).getD []).length)
        (fun child => direntv6_dirlookup_core name0 inr0 u fuel (child % 65536)
          ((strchr_slash entry).getD []))
        fuel d0 name0 inr0 := by
  rw [direntv6_dirlookup_core]
  dsimp only
  rw [he, if_neg (by
    intro h
    exact hne (List.length_eq_zero.mp h)), hopen]
  rfl

/-- C30. In a directory that `direntv6_opendir` opens, of `n` entries in readable
sectors, let entry `j` be the first whose stored name starts with the bytes of the
component `comp` (not empty, without `'/'` and NUL). Then `direntv6_dirlookup` of a
path made of any number of `'/'` and `comp` returns the inode number of entry
`j`; and, the stored names up to entry `j` holding no `'/'`, the lookup of a path
that goes on with `'/'` and `rest` continues from that inode on `'/' rest`. The
comparison is over the length of the component only: the stored name may be
longer. -/
theorem direntv6_dirlookup_prefix_match (name0 : List Nat) (inr0 fuel : Nat)
    (u : unix_filesystem) (inr : Nat) (d0 : directory_reader) (n j s : Nat) (comp : List Nat)
    (hopen : direntv6_opendir u inr = (0, d0))
    (hsize : inode_getsize d0.fv6.i_node = ((16 * n : Nat) : Int))
    (hread : file_readable u d0.fv6.i_node (16 * n))
    (hne : comp ≠ []) (h47 : 47 ∉ comp) (h0 : 0 ∉ comp) (hj : j < n)
    (hmatch : comp <+: dir_entry_name u d0.fv6.i_node j)
    (hfirst : ∀ i, i < j → ¬ comp <+: dir_entry_name u d0.fv6.i_node i)
    (hfuel : j + 1 ≤ fuel) :
    direntv6_dirlookup name0 inr0 (fuel + 1) u inr (List.replicate s 47 ++ comp) =
      some ((dir_entry_inumber u d0.fv6.i_node j : Nat) : Int) ∧
    ((∀ i, i ≤ j → 47 ∉ dir_entry_name u d0.fv6.i_node i) →
      ∀ rest, direntv6_dirlookup name0 inr0 (fuel + 1) u inr
          (List.replicate s 47 ++ (comp ++ 47 :: rest)) =
        direntv6_dirlookup name0 inr0 fuel u (dir_entry_inumber u d0.fv6.i_node j % 65536)
          (47 :: rest)) := by
  obtain ⟨t, ht⟩ := Nat.exists_eq_add_of_le hfuel
  have hfu : fuel = t + 1 + j := by omega
  clear ht hfuel
  subst hfu
  have hd0 := (direntv6_opendir_ok u inr d0 n hopen).1
  obtain ⟨c, cs, hcs⟩ := List.exists_cons_of_ne_nil hne
  have hc : c ≠ 47 := by
    intro h
    apply h47
    rw [hcs, h]
    exact List.mem_cons_self _ _
  have htrue := (strncmp_eq_starts (dir_entry_name u d0.fv6.i_node j) comp h0).mpr hmatch
  have hfalse : ∀ i, i < j →
      strncmp_eq (dir_entry_name u d0.fv6.i_node i) comp comp.length = false := by
    intro i hi
    have := mt (strncmp_eq_starts (dir_entry_name u d0.fv6.i_node i) comp h0).mp (hfirst i hi)
    simpa using this
  constructor
  · have he : (List.replicate s 47 ++ comp).dropWhile (fun x => decide (x = 47)) = comp := by
      rw [hcs]
      exact dropWhile_slashes_append s c cs hc
    unfold direntv6_dirlookup
    rw [direntv6_dirlookup_core_succ name0 inr0 u (t + 1 + j) inr _ comp d0 he hne hopen,
      strchr_slash_none comp h47]
    have hl : comp.length - ((none : Option (List Nat)).getD []).length = comp.length := rfl
    rw [hl]
    obtain ⟨d', name', ci', hd', _, _, hloop⟩ :=
      dirlookup_loop_scan u d0.fv6.i_node n comp comp.length
        (fun child => direntv6_dirlookup_core name0 inr0 u (t + 1 + j) (child % 65536)
          ((none : Option (List Nat)).getD []))
        hsize hread j 0 (t + 1) d0 name0 inr0 (by omega) hd0
        (fun i _ hi => ⟨hfalse i (by omega), hfalse i (by omega)⟩)
    rw [hloop]
    rw [Nat.zero_add] at hd'
    exact dirlookup_loop_found u d0.fv6.i_node n comp comp.length _ hsize hread j t d' name' ci'
      hj hd' htrue
  · intro hnoslash rest
    have hne' : comp ++ 47 :: rest ≠ [] := by simp
    have he : (List.replicate s 47 ++ (comp ++ 47 :: rest)).dropWhile
        (fun x => decide (x = 47)) = comp ++ 47 :: rest := by
      rw [hcs, List.cons_append]
      exact dropWhile_slashes_append s c _ hc
    unfold direntv6_dirlookup
    rw [direntv6_dirlookup_core_succ name0 inr0 u (t + 1 + j) inr _ _ d0 he hne' hopen,
      strchr_slash_append comp rest h47]
    have hl : (comp ++ 47 :: rest).length - ((some (47 :: rest)).getD []).length =
        comp.length := by
      simp
    rw [hl]
    have hg : (some (47 :: rest)).getD [] = 47 :: rest := rfl
    rw [hg]
    obtain ⟨d', name', ci', hd', _, _, hloop⟩ :=
      dirlookup_loop_scan u d0.fv6.i_node n (comp ++ 47 :: rest) comp.length
        (fun child => direntv6_dirlookup_core name0 inr0 u (t + 1 + j) (child % 65536)
          (47 :: rest))
        hsize hread j 0 (t + 1) d0 name0 inr0 (by omega) hd0
        (fun i _ hi => ⟨strncmp_eq_whole_path _ comp rest (hnoslash i (by omega)),
          by rw [strncmp_eq_first_component]; exact hfalse i (by omega)⟩)
    rw [Nat.zero_add] at hd'
    rw [hloop]
    exact dirlookup_loop_recurse u d0.fv6.i_node n (comp ++ 47 :: rest) comp.length _ hsize
      hread j t d' name' ci' hj hd' (strncmp_eq_whole_path _ comp rest (hnoslash j (le_refl j)))
      (by rw [strncmp_eq_first_component]; exact htrue)

set_option maxRecDepth 1000000 in
theorem direntv6_dirlookup_prefix_match_witness :
    (direntv6_opendir fs_abcdef ROOT_INUMBER = (0, reader_root_abcdef) ∧
      inode_getsize reader_root_abcdef.fv6.i_node = ((16 * 1 : Nat) : Int) ∧
      dir_entry_name fs_abcdef reader_root_abcdef.fv6.i_node 0 = [97, 98, 99, 100, 101, 102] ∧
      dir_entry_inumber fs_abcdef reader_root_abcdef.fv6.i_node 0 = 7) ∧
    direntv6_dirlookup [] 0 (7 + 1) fs_abcdef ROOT_INUMBER (List.replicate 1 47 ++ [97, 98, 99]) =
      some ((dir_entry_inumber fs_abcdef reader_root_abcdef.fv6.i_node 0 : Nat) : Int) :=
  ⟨by decide,
   (direntv6_dirlookup_prefix_match [] 0 7 fs_abcdef ROOT_INUMBER reader_root_abcdef 1 0 1
      [97, 98, 99] (by decide) (by decide)
      (fun j hj => by
        have hj0 : j = 0 := by omega
        subst hj0
        decide)
      (by decide) (by decide) (by decide) (by decide) (by decide)
      (fun i hi => absurd hi (by omega)) (by decide)).1⟩

set_option maxRecDepth 1000000 in
/-- The example of C30, evaluated: `mountv6` of `image_abcdef` gives `fs_abcdef`, whose
root directory holds the single entry `("abcdef", 7)`; the lookups of `"abc"` and
of `"/abc"` from the root return 7, and so does the lookup of `"a"`. -/
theorem direntv6_dirlookup_abcdef_example :
    mountv6 8 image_abcdef = some (.ok fs_abcdef) ∧
    direntv6_dirlookup [] 0 8 fs_abcdef ROOT_INUMBER [97, 98, 99] = some 7 ∧
    direntv6_dirlookup [] 0 8 fs_abcdef ROOT_INUMBER [47, 97, 98, 99] = some 7 ∧
    direntv6_dirlookup [] 0 8 fs_abcdef ROOT_INUMBER [97] = some 7 := by
  refine ⟨by decide, by decide, by decide, by decide⟩

/-! ## `direntv6_dirlookup`: no matching entry -/

/-- In a directory with at least one entry, none of which matches the whole path or
its first component, the lookup fails with `ERR_INODE_OUTOF_RANGE`. -/
theorem direntv6_dirlookup_no_match (name0 : List Nat) (inr0 fuel : Nat)
    (u : unix_filesystem) (inr : Nat) (d0 : directory_reader) (n : Nat) (path entry : List Nat)
    (hopen : direntv6_opendir u inr = (0, d0))
    (hsize : inode_getsize d0.fv6.i_node = ((16 * n : Nat) : Int))
    (hread : file_readable u d0.fv6.i_node (16 * n)) (hn : 0 < n)
    (he : path.dropWhile (fun c => decide (c = 47)) = entry) (hne : entry ≠ [])
    (hfail : ∀ i, i < n →
      strncmp_eq (dir_entry_name u d0.fv6.i_node i) entry entry.length = false ∧
      strncmp_eq (dir_entry_name u d0.fv6.i_node i) entry
        (entry.length - ((strchr_slash entry).getD []).length) = false)
    (hfuel : n + 1 ≤ fuel) :
    direntv6_dirlookup name0 inr0 (fuel + 1) u inr path = some ERR_INODE_OUTOF_RANGE := by
  obtain ⟨t, ht⟩ := Nat.exists_eq_add_of_le hfuel
  have hfu : fuel = t + 1 + n := by omega
  clear ht hfuel
  subst hfu
  have hd0 := (direntv6_opendir_ok u inr d0 n hopen).1
  unfold direntv6_dirlookup
  rw [direntv6_dirlookup_core_succ name0 inr0 u (t + 1 + n) inr path entry d0 he hne hopen]
  obtain ⟨d', name', ci', hd', hname, _, hloop⟩ :=
    dirlookup_loop_scan u d0.fv6.i_node n entry
      (entry.length - ((strchr_slash entry).getD []).length)
      (fun child => direntv6_dirlookup_core name0 inr0 u (t + 1 + n) (child % 65536)
        ((strchr_slash entry).getD []))
      hsize hread n 0 (t + 1) d0 name0 inr0 (by omega) hd0 (fun i _ hi => hfail i (by omega))
  rw [hloop]
  rw [Nat.zero_add] at hd' hname
  have hlast := hfail (n - 1) (by omega)
  rw [← hname hn] at hlast
  exact dirlookup_loop_end u d0.fv6.i_node n entry _ _ hsize t d' name' ci' hd' hlast.1 hlast.2

set_option maxRecDepth 1000000 in
/-- C29, evaluated. On the mounted fresh image of `mkfs` with 100 blocks and 32
inodes the root directory is empty, and `direntv6_readdir` returns `0` at once
without writing to `name` and `child_inr`, which `direntv6_dirlookup_core` has not
initialised and compares all the same. The lookup of `"/a"` answers
`ERR_INODE_OUTOF_RANGE` when `name` holds the empty string; when `name` holds
`"a"` and `child_inr` holds 7, it answers 7. -/
theorem direntv6_dirlookup_empty_directory_reads_uninitialised_name :
    (mounted 8 fresh_image).map
        (fun u => (inode_getsize (inode_read u ROOT_INUMBER).2,
                   direntv6_dirlookup [] 0 8 u ROOT_INUMBER [47, 97],
                   direntv6_dirlookup [97] 7 8 u ROOT_INUMBER [47, 97])) =
      some (0, some ERR_INODE_OUTOF_RANGE, some 7) := by
  decide

/-! ## `direntv6_create`: the answers given before any allocation -/

theorem leaf_name_append (pre leaf : List Nat) (hleaf : 47 ∉ leaf) :
    leaf_name (pre ++ 47 :: leaf) = some leaf := by
  unfold leaf_name
  rw [if_pos (by simp)]
  rw [List.reverse_append, List.reverse_cons, List.append_assoc,
    List.takeWhile_append_of_pos]
  · simp
  · intro a ha
    have : a ∈ leaf := List.mem_reverse.mp ha
    simp
    rintro rfl
    exact hleaf this

theorem take_parent_path (pre leaf : List Nat) :
    (pre ++ 47 :: leaf).take ((pre ++ 47 :: leaf).length - leaf.length) = pre ++ [47] := by
  have : pre ++ 47 :: leaf = (pre ++ [47]) ++ leaf := by simp
  rw [this, List.length_append, Nat.add_sub_cancel, List.take_left]

/-- C31, as amended. When `direntv6_dirlookup` from the root answers an inode
number greater than 0 for `entry`, `direntv6_create` returns
`ERR_FILENAME_ALREADY_EXISTS` and the filesystem (image and both bitmaps) is the
one it was given. -/
theorem direntv6_create_existing_path (name0 : List Nat) (inr0 fuel : Nat)
    (u : unix_filesystem) (entry : List Nat) (mode : Nat) (r : Int)
    (h : direntv6_dirlookup name0 inr0 fuel u ROOT_INUMBER entry = some r) (hr : 0 < r) :
    direntv6_create name0 inr0 fuel u entry mode = some (ERR_FILENAME_ALREADY_EXISTS, u) := by
  rw [direntv6_create, h]
  exact if_pos hr

set_option maxRecDepth 1000000 in
/-- C31, witness: on `fs_dir16` the path `"/p"` resolves to inode 16 and its
creation is refused. -/
theorem direntv6_create_existing_path_witness :
    direntv6_dirlookup [] 0 8 fs_dir16 ROOT_INUMBER path_p = some 16 ∧
    direntv6_create [] 0 8 fs_dir16 path_p (IFDIR ||| IALLOC)
      = some (ERR_FILENAME_ALREADY_EXISTS, fs_dir16) :=
  ⟨by decide,
   direntv6_create_existing_path [] 0 8 fs_dir16 path_p (IFDIR ||| IALLOC) 16
     (by decide) (by decide)⟩

set_option maxRecDepth 1000000 in
/-- C31, counterexample. On the filesystem mounted from `image_entry_zero`, whose
root directory holds the entry `("p", 0)`, `direntv6_dirlookup` of `"/p"` answers
0, which is not an error code, and `direntv6_create` of `"/p"` then answers 2, the
number of a newly allocated inode, with the inode bitmap and the image changed. -/
theorem direntv6_create_lookup_zero_counterexample :
    create_entry_zero_session = some (0, 2, false, false) := by
  decide

/-- C32. For a path `pre ++ "/" ++ leaf` with no `'/'` in `leaf`, whose lookup
from the root answers `e ≤ 0`: when `leaf` is longer than 14 bytes
`direntv6_create` returns `ERR_FILENAME_TOO_LONG`; when it is at most 14 bytes and
the lookup of the parent path `pre ++ "/"` answers `p ≤ 0` it returns
`ERR_BAD_PARAMETER`. In both cases the filesystem (image and both bitmaps) is the
one it was given. -/
theorem direntv6_create_long_leaf_or_no_parent (name0 : List Nat) (inr0 fuel : Nat)
    (u : unix_filesystem) (pre leaf : List Nat) (mode : Nat) (e : Int) (hleaf : 47 ∉ leaf)
    (he : direntv6_dirlookup name0 inr0 fuel u ROOT_INUMBER (pre ++ 47 :: leaf) = some e)
    (hle : e ≤ 0) :
    (DIRENT_MAXLEN < leaf.length →
      direntv6_create name0 inr0 fuel u (pre ++ 47 :: leaf) mode
        = some (ERR_FILENAME_TOO_LONG, u)) ∧
    (leaf.length ≤ DIRENT_MAXLEN → ∀ p : Int,
      direntv6_dirlookup name0 inr0 fuel u ROOT_INUMBER (pre ++ [47]) = some p → p ≤ 0 →
      direntv6_create name0 inr0 fuel u (pre ++ 47 :: leaf) mode
        = some (ERR_BAD_PARAMETER, u)) := by
  constructor
  · intro hlong
    rw [direntv6_create, he]
    refine (if_neg (not_lt.mpr hle)).trans ?_
    rw [leaf_name_append pre leaf hleaf]
    exact if_pos hlong
  · intro hshort p hp hp0
    rw [direntv6_create, he]
    refine (if_neg (not_lt.mpr hle)).trans ?_
    rw [leaf_name_append pre leaf hleaf]
    refine (if_neg (not_lt.mpr hshort)).trans ?_
    rw [take_parent_path]
    show (match direntv6_dirlookup name0 inr0 fuel u ROOT_INUMBER (pre ++ [47]) with
      | none => none
      | some num_inode => if num_inode ≤ 0 then some (ERR_BAD_PARAMETER, u) else _) = _
    rw [hp]
    exact if_pos hp0

set_option maxRecDepth 1000000 in
/-- C32, witness: on `fs_dir16`, whose root holds only the entry `p`, the creation
of `"/p/xxxxxxxxxxxxxxx"` (a leaf of 15 bytes) answers `ERR_FILENAME_TOO_LONG` and
the creation of `"/q/x"` answers `ERR_BAD_PARAMETER`. -/
theorem direntv6_create_long_leaf_or_no_parent_witness :
    direntv6_create [] 0 8 fs_dir16 path_p_long IALLOC
      = some (ERR_FILENAME_TOO_LONG, fs_dir16) ∧
    direntv6_create [] 0 8 fs_dir16 path_q_x IALLOC
      = some (ERR_BAD_PARAMETER, fs_dir16) :=
  ⟨(direntv6_create_long_leaf_or_no_parent [] 0 8 fs_dir16 [47, 112]
      (List.replicate 15 120) IALLOC ERR_INODE_OUTOF_RANGE (by decide) (by decide)
      (by decide)).1 (by decide),
   (direntv6_create_long_leaf_or_no_parent [] 0 8 fs_dir16 [47, 113] [120] IALLOC
      ERR_INODE_OUTOF_RANGE (by decide) (by decide) (by decide)).2 (by decide)
      ERR_INODE_OUTOF_RANGE (by decide) (by decide)⟩

/-! ## Bitmap: the cursor stays inside the word array -/

theorem bm_set_cursor_length (b : bmblock_array) (x : Nat) :
    (bm_set b x).cursor = b.cursor ∧ (bm_set b x).length = b.length := by
  unfold bm_set
  split <;> exact ⟨rfl, rfl⟩

theorem bm_clear_cursor_length (b : bmblock_array) (x : Nat) :
    (bm_clear b x).cursor ≤ b.cursor ∧ (bm_clear b x).length = b.length := by
  unfold bm_clear
  split
  · refine ⟨?_, rfl⟩
    dsimp only
    split <;> omega
  · exact ⟨le_refl _, rfl⟩

theorem bm_find_next_cursor_le (fuel : Nat) (b : bmblock_array) (x : Int)
    (b' : bmblock_array) (hf : bm_find_next fuel b = some (x, b'))
    (hc : b.cursor ≤ b.length) : b'.cursor ≤ b'.length ∧ b.cursor ≤ b'.cursor := by
  induction fuel generalizing b with
  | zero => simp [bm_find_next] at hf
  | succ n ih =>
    unfold bm_find_next at hf
    by_cases hlt : b.cursor < b.length
    · rw [if_pos hlt] at hf
      by_cases hw : b.bm.getD b.cursor 0 ≠ UINT64_MAX
      · rw [if_pos hw] at hf
        cases hy : bm_find_next_for b BITS_PER_VECTOR 0 with
        | some y =>
          rw [hy] at hf
          simp only [Option.some.injEq, Prod.mk.injEq] at hf
          obtain ⟨_, rfl⟩ := hf
          exact ⟨hc, le_refl _⟩
        | none =>
          rw [hy] at hf
          exact ih b hf hc
      · rw [if_neg hw] at hf
        have h2 := ih { b with cursor := b.cursor + 1 } hf hlt
        exact ⟨h2.1, by have := h2.2; simp only [] at this; omega⟩
    · rw [if_neg hlt] at hf
      simp only [Option.some.injEq, Prod.mk.injEq] at hf
      obtain ⟨_, rfl⟩ := hf
      exact ⟨hc, le_refl _⟩

theorem bm_reachable_cursor_le (b : bmblock_array) (h : bm_reachable b) :
    b.cursor ≤ b.length := by
  induction h with
  | alloc mn mx b hb =>
    unfold bm_alloc at hb
    split at hb
    · simp at hb
    · simp only [] at hb
      split at hb
      · simp at hb
      · simp only [Option.some.injEq] at hb
        subst hb
        exact Nat.zero_le _
  | set b x _ ih =>
    have := bm_set_cursor_length b x
    omega
  | clear b x _ ih =>
    have := bm_clear_cursor_length b x
    omega
  | find_next b b' fuel r _ hf ih => exact (bm_find_next_cursor_le fuel b r b' hf ih).1

theorem bm_reachable_foldl_set (ids : List Nat) (b : bmblock_array) (h : bm_reachable b) :
    bm_reachable (ids.foldl (fun b x => bm_set b x) b) := by
  induction ids generalizing b with
  | nil => exact h
  | cons x xs ih => exact ih (bm_set b x) (bm_reachable.set b x h)

/-- C39. In every bitmap obtained from `bm_alloc` by `bm_set`, `bm_clear` and
`bm_find_next`, the cursor is at most `length`, every word before the cursor is
`UINT64_C(-1)`, and `bm_get` answers 1 on every ID of the range whose word lies
before the cursor: no free ID is skipped. -/
theorem bm_cursor_invariant (b : bmblock_array) (h : bm_reachable b) :
    b.cursor ≤ b.length ∧
    (∀ j, j < b.cursor → b.bm.getD j 0 = UINT64_MAX) ∧
    (∀ y, b.min ≤ y → y ≤ b.max → (y - b.min) / BITS_PER_VECTOR < b.cursor →
      bm_get b y = 1) := by
  have hi := bm_reachable_inv b h
  refine ⟨bm_reachable_cursor_le b h, hi.2, ?_⟩
  intro y h1 h2 hw
  change (y - b.min) / 64 < b.cursor at hw
  rw [bm_get_eq b y h1 h2, hi.2 _ hw, testBit_UINT64_MAX _ (Nat.mod_lt _ (by norm_num))]
  rfl

set_option maxRecDepth 1000000 in
theorem test_bitmap_advanced_reachable : bm_reachable test_bitmap_advanced := by
  have h := bm_reachable_foldl_set ((List.range 64).map (fun k => 4 + k)) test_bitmap
    (bm_reachable.alloc 4 131 test_bitmap (by decide))
  rw [List.foldl_map] at h
  exact bm_reachable.find_next test_bitmap_word_full test_bitmap_advanced 2 68 h (by decide)

/-- C39, witness: the test bitmap after `bm_set` of its first 64 IDs and a call of
`bm_find_next` (which answers 68 and leaves the cursor on word 1). -/
theorem bm_cursor_invariant_witness :
    bm_reachable test_bitmap_advanced ∧ test_bitmap_advanced.cursor = 1 ∧
    test_bitmap_advanced.cursor ≤ test_bitmap_advanced.length ∧
    (∀ j, j < test_bitmap_advanced.cursor →
      test_bitmap_advanced.bm.getD j 0 = UINT64_MAX) ∧
    (∀ y, test_bitmap_advanced.min ≤ y → y ≤ test_bitmap_advanced.max →
      (y - test_bitmap_advanced.min) / BITS_PER_VECTOR < test_bitmap_advanced.cursor →
      bm_get test_bitmap_advanced y = 1) :=
  ⟨test_bitmap_advanced_reachable, rfl, bm_cursor_invariant test_bitmap_advanced
    test_bitmap_advanced_reachable⟩

/-! ## `mountv6`: the scan of `fill_fbm` on a file without sectors -/

/-- The `while` loop of `fill_fbm` makes no progress when `inode_findsector`
answers a value `≤ 0` below the size of the file: it does not end, whatever the
fuel. -/
theorem fill_fbm_inode_spin (u : unix_filesystem) (ind : inode) (offset file_sec_off : Int)
    (h1 : offset < inode_getsize ind) (h2 : inode_findsector u ind file_sec_off ≤ 0)
    (fuel : Nat) (fbm : bmblock_array) :
    fill_fbm_inode u ind fuel offset file_sec_off fbm = none := by
  induction fuel with
  | zero => rfl
  | succ n ih =>
    rw [fill_fbm_inode, if_pos h1]
    dsimp only
    rw [if_neg (not_lt.mpr h2)]
    exact ih

set_option maxRecDepth 1000000 in
theorem mountv6_root_no_sector_reduces (fuel : Nat) :
    mountv6 fuel image_root_no_sector =
      match fill_fbm fuel fs_root_no_sector with
      | none => none
      | some u => some (.ok u) := by
  have hb : sector_read image_root_no_sector BOOTBLOCK_SECTOR = some boot_sector := by
    decide
  have hs : sector_read image_root_no_sector SUPERBLOCK_SECTOR
      = some (image_root_no_sector.getD 1 []) := by decide
  have hm : ¬ boot_sector.getD BOOTBLOCK_MAGIC_NUM_OFFSET 0 ≠ BOOTBLOCK_MAGIC_NUM := by
    decide
  have hf : bm_alloc ((superblock_decode (image_root_no_sector.getD 1 [])).s_block_start + 1)
      (uint64_pred (superblock_decode (image_root_no_sector.getD 1 [])).s_fsize)
      = some fs_root_no_sector.fbm := by decide
  have hi : bm_alloc (superblock_decode (image_root_no_sector.getD 1 [])).s_inode_start
      (uint64_pred ((superblock_decode (image_root_no_sector.getD 1 [])).s_isize
        * INODES_PER_SECTOR))
      = some fs_root_no_sector.ibm := by decide
  have hibm : fill_ibm (unix_filesystem.mk image_root_no_sector
      (superblock_decode (image_root_no_sector.getD 1 []))
      fs_root_no_sector.fbm fs_root_no_sector.ibm) = fs_root_no_sector := by
    decide
  rw [mountv6, hb]
  dsimp only
  rw [if_neg hm, hs]
  dsimp only
  rw [mountv6_bitmaps, hf]
  dsimp only
  rw [hi]
  dsimp only
  rw [hibm]

set_option maxRecDepth 1000000 in
theorem fill_fbm_root_no_sector (fuel : Nat) : fill_fbm fuel fs_root_no_sector = none := by
  have hi0 : toInt32 (uint64_pred fs_root_no_sector.ibm.min) = 1 := by decide
  have hn : fs_root_no_sector.ibm.max - (1 : Int).toNat = 29 + 1 := by decide
  have hstep : fill_fbm_step fuel fs_root_no_sector 1 fs_root_no_sector.fbm = none := by
    have hsel : bm_get fs_root_no_sector.ibm 1 = 1 ∨ 1 = ROOT_INUMBER := Or.inr rfl
    have hr : inode_read fs_root_no_sector (1 % 65536)
        = (0, { inode_dir with i_size1 := 16 }) := by decide
    rw [fill_fbm_step, if_pos hsel]
    dsimp only
    rw [hr]
    dsimp only
    rw [if_pos (by decide), if_neg (by decide)]
    exact fill_fbm_inode_spin _ _ 0 0 (by decide) (by decide) fuel _
  rw [fill_fbm, hi0, if_neg (by decide), hn, fill_fbm_loop]
  change (match
      (match fill_fbm_step fuel fs_root_no_sector 1 fs_root_no_sector.fbm with
        | none => none
        | some fbm' => fill_fbm_loop fuel fs_root_no_sector 29 (1 + 1) fbm') with
    | none => none
    | some fbm' => some { fs_root_no_sector with fbm := fbm' }) = none
  rw [hstep]

/-- C38, failing input. The image `image_root_no_sector` has the magic byte in its
boot sector and a readable superblock (those of the fresh image of `mkfs` with
100 blocks and 32 inodes); its root inode is an allocated directory of size 16
whose address entries are all 0. `mountv6` does not return on it: no amount of
fuel gives a result, because the `while` loop of `fill_fbm` repeats with `offset`
unchanged when `inode_findsector` answers 0. -/
theorem mountv6_root_without_sector_never_returns :
    ∀ fuel : Nat, mountv6 fuel image_root_no_sector = none := by
  intro fuel
  rw [mountv6_root_no_sector_reduces, fill_fbm_root_no_sector]

/-! ## `mountv6` and `umountv6` leave the image as it is -/

theorem fill_fbm_frame (fuel : Nat) (u1 u : unix_filesystem) (h : fill_fbm fuel u1 = some u) :
    u.f = u1.f ∧ u.s = u1.s ∧ u.ibm = u1.ibm := by
  unfold fill_fbm at h
  dsimp only at h
  by_cases hneg : toInt32 (uint64_pred u1.ibm.min) < 0
  · rw [if_pos hneg] at h
    injection h with h
    subst h
    exact ⟨rfl, rfl, rfl⟩
  · rw [if_neg hneg] at h
    rcases Option.eq_none_or_eq_some
        (fill_fbm_loop fuel u1 (u1.ibm.max - (toInt32 (uint64_pred u1.ibm.min)).toNat)
          (toInt32 (uint64_pred u1.ibm.min)).toNat u1.fbm) with hl | ⟨fbm', hl⟩
    · rw [hl] at h; cases h
    · rw [hl] at h
      injection h with h
      subst h
      exact ⟨rfl, rfl, rfl⟩

theorem mountv6_image (fuel : Nat) (f : List (List Nat)) (u : unix_filesystem)
    (hm : mountv6 fuel f = some (.ok u)) : u.f = f := by
  obtain ⟨s, fbm, ibm, _, _, _, hfill⟩ := mountv6_ok fuel f u hm
  exact (fill_fbm_frame fuel _ u hfill).1

/-- C35. When `mountv6` succeeds on an image `f` with the filesystem `u` (for
instance the image written by a successful `mountv6_mkfs`), the handle holds the
image `f` itself, `umountv6` answers 0 and hands back the same image, and a second
`mountv6` on it succeeds with the same filesystem: the same `ibm` and `fbm`
(range, words and cursor) as the first. -/
theorem mountv6_remount_stable (fuel : Nat) (f : List (List Nat)) (u : unix_filesystem)
    (hm : mountv6 fuel f = some (.ok u)) :
    u.f = f ∧ umountv6 u = (0, f) ∧
    ∃ u', mountv6 fuel (umountv6 u).2 = some (.ok u') ∧
      u'.ibm = u.ibm ∧ u'.fbm = u.fbm ∧ u'.f = f := by
  have hf := mountv6_image fuel f u hm
  have hu : umountv6 u = (0, f) := by rw [umountv6, hf]
  refine ⟨hf, hu, u, ?_, rfl, rfl, hf⟩
  rw [hu]
  exact hm

set_option maxRecDepth 1000000 in
/-- C35, witness: the image of `mkfs` with 100 blocks and 32 inodes mounts to the
handle with `fbm` over `[5, 99]` and `ibm` over `[2, 31]`, all bits clear, and
mounts to the same after `umountv6`. -/
theorem mountv6_remount_stable_witness :
    (mountv6_mkfs 100 32).1 = 0 ∧
    mountv6 8 (mountv6_mkfs 100 32).2 = some (.ok fs_fresh) ∧
    fs_fresh.f = (mountv6_mkfs 100 32).2 ∧
    umountv6 fs_fresh = (0, (mountv6_mkfs 100 32).2) ∧
    ∃ u', mountv6 8 (umountv6 fs_fresh).2 = some (.ok u') ∧
      u'.ibm = fs_fresh.ibm ∧ u'.fbm = fs_fresh.fbm ∧
      u'.f = (mountv6_mkfs 100 32).2 :=
  ⟨by decide, by decide,
   mountv6_remount_stable 8 (mountv6_mkfs 100 32).2 fs_fresh (by decide)⟩

/-! ## `inode_write`: what is written, and where -/

theorem sector_read_small (f : List (List Nat)) (k : Nat) (hk : k < 2 ^ 22) :
    sector_read f k = f.get? k := by
  unfold sector_read
  have e : SECTOR_SIZE = 512 := rfl
  dsimp only
  rw [e, toInt32_of_lt _ (by omega), if_neg (by omega), Int.toNat_ofNat,
    Nat.mul_div_cancel _ (by norm_num)]

theorem sector_write_small (f : List (List Nat)) (k : Nat) (data : List Nat)
    (hk : k < 2 ^ 22) :
    sector_write f k data =
      if k < f.length then some (f.set k (sector_of_memory data))
      else some (f ++ List.replicate (k - f.length) zero_sector ++ [sector_of_memory data]) := by
  unfold sector_write
  have e : SECTOR_SIZE = 512 := rfl
  dsimp only
  rw [e, toInt32_of_lt _ (by omega), if_neg (by omega), Int.toNat_ofNat,
    Nat.mul_div_cancel _ (by norm_num)]

theorem inode_store_length_any (sec : List Nat) (nr : Nat) (ino : inode)
    (hlen : sec.length = 512) : (inode_store sec nr ino).length = 512 := by
  by_cases hnr : nr < 16
  · exact inode_store_length sec nr ino hlen hnr
  · unfold inode_store
    have e : INODES_PER_SECTOR = 16 := rfl
    rw [e, if_neg hnr]
    exact hlen

/-- The bytes of the buffer outside the 32 bytes of slot `nr % 16` are not changed
by the store of a record. -/
theorem inode_store_outside (sec : List Nat) (nr : Nat) (ino : inode)
    (hlen : sec.length = 512) (j : Nat)
    (hj : j < 32 * (nr % 16) ∨ 32 * (nr % 16) + 32 ≤ j) :
    (inode_store sec nr ino).getD j 0 = sec.getD j 0 := by
  have e : INODES_PER_SECTOR = 16 := rfl
  unfold inode_store
  by_cases hnr : nr < 16
  · rw [e, if_pos hnr]
    have hm : nr % 16 = nr := Nat.mod_eq_of_lt hnr
    rw [hm] at hj
    have hA : (sec.take (32 * nr)).length = 32 * nr := by
      rw [List.length_take, hlen]; omega
    rcases hj with h1 | h2
    · rw [List.append_assoc, List.getD_append _ _ _ _ (by omega)]
      rw [List.getD_eq_getElem?_getD, List.getD_eq_getElem?_getD, List.getElem?_take_of_lt h1]
    · rw [List.getD_append_right _ _ _ _ (by
        rw [List.length_append, hA, inode_bytes_length]; omega)]
      rw [List.length_append, hA, inode_bytes_length]
      rw [List.getD_eq_getElem?_getD, List.getD_eq_getElem?_getD, List.getElem?_drop]
      rw [show 32 * nr + 32 + (j - (32 * nr + 32)) = j from by omega]
  · rw [e, if_neg hnr]

/-- The 32 bytes of slot `nr < 16` after the store are the bytes of the record. -/
theorem inode_store_slot (sec : List Nat) (nr : Nat) (ino : inode)
    (hlen : sec.length = 512) (hnr : nr < 16) :
    ((inode_store sec nr ino).drop (32 * nr)).take 32 = inode_bytes ino := by
  have e : INODES_PER_SECTOR = 16 := rfl
  unfold inode_store
  rw [e, if_pos hnr]
  have hA : (sec.take (32 * nr)).length = 32 * nr := by
    rw [List.length_take, hlen]; omega
  rw [List.append_assoc, List.drop_append_of_le_length (by omega),
    List.drop_eq_nil_of_le (by omega), List.nil_append]
  exact List.take_left' (inode_bytes_length ino)

theorem inode_decode_congr (s s' : List Nat) (i : Nat)
    (h : ∀ j, j < 32 → s'.getD (i + j) 0 = s.getD (i + j) 0) :
    inode_decode s' i = inode_decode s i := by
  have e : List.range ADDR_SMALL_LENGTH = [0, 1, 2, 3, 4, 5, 6, 7] := rfl
  have h0 := h 0 (by omega)
  rw [Nat.add_zero] at h0
  unfold inode_decode read_u16
  rw [e]
  simp only [List.map, Nat.add_assoc, Nat.reduceAdd, Nat.reduceMul]
  rw [h0, h 1 (by omega), h 2 (by omega), h 3 (by omega), h 4 (by omega), h 5 (by omega),
    h 6 (by omega), h 7 (by omega), h 8 (by omega), h 9 (by omega), h 10 (by omega),
    h 11 (by omega), h 12 (by omega), h 13 (by omega), h 14 (by omega), h 15 (by omega),
    h 16 (by omega), h 17 (by omega), h 18 (by omega), h 19 (by omega), h 20 (by omega),
    h 21 (by omega), h 22 (by omega), h 23 (by omega), h 24 (by omega), h 25 (by omega),
    h 26 (by omega), h 27 (by omega), h 28 (by omega), h 29 (by omega), h 30 (by omega),
    h 31 (by omega)]

/-- What a successful `inode_write` has done to the filesystem: sector
`s_inode_start + inr / 16` holds the buffer after the store, and nothing else has
changed. -/
theorem inode_write_effect (u : unix_filesystem) (inr : Nat) (ino : inode)
    (hwf : image_wf u.f) (hstart : u.s.s_inode_start < 65536) (hinr : inr < 65536)
    (hw : (inode_write u inr ino).1 = 0) :
    inode_table_readable u = true ∧ (inr : Int) ≤ (u.s.s_isize : Int) * 16 - 1 ∧
    ∃ sec, u.f.get? (u.s.s_inode_start + inr / 16) = some sec ∧ sec.length = 512 ∧
      (inode_write u inr ino).2 =
        { u with f := u.f.set (u.s.s_inode_start + inr / 16) (inode_store sec inr ino) } := by
  obtain ⟨hread, hr, sec, f', hsec, hwr, hres⟩ := inode_write_ok u inr ino (by omega)
  have hk : u.s.s_inode_start + inr / 16 < 2 ^ 22 := by omega
  rw [sector_read_small _ _ hk] at hsec
  have hlen : sec.length = 512 := hwf sec (List.get?_mem hsec)
  have hlt : u.s.s_inode_start + inr / 16 < u.f.length := by
    rw [List.get?_eq_getElem?] at hsec
    exact (List.getElem?_eq_some.mp hsec).1
  rw [sector_write_small _ _ _ hk, if_pos hlt,
    sector_of_memory_of_length _ (inode_store_length_any sec inr ino hlen)] at hwr
  injection hwr with hwr
  refine ⟨hread, hr, sec, hsec, hlen, ?_⟩
  rw [hres, ← hwr]

/-- The frame of `inode_write` for an inode number of the first table sector
(`inr < 16`, where the store `inodes[inr] = *inode` stays inside the buffer of 16
records). A call that returns 0, on an image of whole sectors with a 16-bit
`s_inode_start`, has `inr` in range and rewrites sector `s_inode_start + inr / 16`
with the record in slot `inr`: the superblock and both bitmaps are the same, the
image has the same length, every other sector is the same, in the sector written
every byte outside the 32 bytes of the slot is the same and the 32 bytes of the
slot are the bytes of `ino`, and `inode_read` of every other inode number answers
as before. -/
theorem inode_write_slot_frame (u : unix_filesystem) (inr : Nat) (ino : inode)
    (hwf : image_wf u.f) (hstart : u.s.s_inode_start < 65536) (hslot : inr < 16)
    (hw : (inode_write u inr ino).1 = 0) :
    (inr : Int) ≤ (u.s.s_isize : Int) * 16 - 1 ∧
    (inode_write u inr ino).2.s = u.s ∧ (inode_write u inr ino).2.fbm = u.fbm ∧
    (inode_write u inr ino).2.ibm = u.ibm ∧
    (inode_write u inr ino).2.f.length = u.f.length ∧
    (∀ k, k ≠ u.s.s_inode_start + inr / 16 →
      (inode_write u inr ino).2.f.get? k = u.f.get? k) ∧
    (∃ sec, u.f.get? (u.s.s_inode_start + inr / 16) = some sec ∧
      (inode_write u inr ino).2.f.get? (u.s.s_inode_start + inr / 16)
        = some (inode_store sec inr ino) ∧
      (inode_store sec inr ino).length = sec.length ∧
      (∀ j, (j < 32 * inr ∨ 32 * inr + 32 ≤ j) →
        (inode_store sec inr ino).getD j 0 = sec.getD j 0) ∧
      ((inode_store sec inr ino).drop (32 * inr)).take 32 = inode_bytes ino) ∧
    (∀ x, x < 65536 → x ≠ inr →
      inode_read (inode_write u inr ino).2 x = inode_read u x) := by
  have hinr : inr < 65536 := by omega
  have hmod : inr % 16 = inr := Nat.mod_eq_of_lt hslot
  obtain ⟨hread, hr, sec, hsec, hlen, hres⟩ := inode_write_effect u inr ino hwf hstart hinr hw
  have hlt : u.s.s_inode_start + inr / 16 < u.f.length := by
    rw [List.get?_eq_getElem?] at hsec
    exact (List.getElem?_eq_some.mp hsec).1
  have hother : ∀ k, k ≠ u.s.s_inode_start + inr / 16 →
      (inode_write u inr ino).2.f.get? k = u.f.get? k := by
    intro k hk
    rw [hres, List.get?_eq_getElem?, List.get?_eq_getElem?]
    exact List.getElem?_set_ne (Ne.symm hk)
  have hsame : (inode_write u inr ino).2.f.get? (u.s.s_inode_start + inr / 16)
      = some (inode_store sec inr ino) := by
    rw [hres, List.get?_eq_getElem?]
    exact List.getElem?_set_self hlt
  refine ⟨hr, by rw [hres], by rw [hres], by rw [hres], by rw [hres]; exact List.length_set _ _ _,
    hother, ⟨sec, hsec, hsame, ?_,
      fun j hj => inode_store_outside sec inr ino hlen j (by rw [hmod]; exact hj),
      inode_store_slot sec inr ino hlen hslot⟩, ?_⟩
  · rw [inode_store_length_any sec inr ino hlen, hlen]
  -- reading any other inode
  intro x hx16 hx
  obtain ⟨_, _, sec0, f', _, hwr, hres0⟩ := inode_write_ok u inr ino (by omega)
  have hs' : (inode_write u inr ino).2.s = u.s := by rw [hres]
  have hread' : inode_table_readable (inode_write u inr ino).2 = true := by
    rw [inode_table_readable_iff] at hread ⊢
    intro i hi
    rw [hs'] at hi ⊢
    rw [hres0]
    exact sector_write_read_isSome _ _ _ f' _ hwr (hread i hi)
  by_cases hxr : (x : Int) > (u.s.s_isize : Int) * 16 - 1
  · rw [inode_read_out_of_range _ x hread' (by rw [hs']; exact hxr),
      inode_read_out_of_range u x hread hxr]
  obtain ⟨secx, hsx, hrx⟩ := inode_read_in_range u x hread (by omega)
  obtain ⟨secx', hsx', hrx'⟩ := inode_read_in_range (inode_write u inr ino).2 x hread'
    (by rw [hs']; omega)
  rw [hs', sector_read_small _ _ (by omega)] at hsx'
  rw [sector_read_small _ _ (by omega)] at hsx
  have hdec : inode_decode secx' (x % 16 * 32) = inode_decode secx (x % 16 * 32) := by
    by_cases hq : x / 16 = inr / 16
    · rw [hq] at hsx hsx'
      rw [hsame] at hsx'
      rw [hsec] at hsx
      injection hsx with hsx
      injection hsx' with hsx'
      subst hsx hsx'
      apply inode_decode_congr
      intro j hj
      exact inode_store_outside sec inr ino hlen _ (by omega)
    · rw [hother _ (by omega), hsx] at hsx'
      injection hsx' with hsx'
      rw [hsx']
  rw [hrx', hrx, hdec]

set_option maxRecDepth 1000000 in
/-- The frame of `inode_write` at inode 3 of `fs_dir16` (slot 3 of table sector
2). -/
theorem inode_write_slot_frame_example :
    (inode_write fs_dir16 3 inode_file).1 = 0 ∧
    (inode_write fs_dir16 3 inode_file).2.f.get? 2
      = some (inode_store (image_dir16.getD 2 []) 3 inode_file) ∧
    (∀ k, k ≠ fs_dir16.s.s_inode_start + 3 / 16 →
      (inode_write fs_dir16 3 inode_file).2.f.get? k = fs_dir16.f.get? k) ∧
    (∀ x, x < 65536 → x ≠ 3 →
      inode_read (inode_write fs_dir16 3 inode_file).2 x = inode_read fs_dir16 x) :=
  ⟨by decide, by decide,
   (inode_write_slot_frame fs_dir16 3 inode_file (by unfold image_wf; decide)
      (by decide) (by decide) (by decide)).2.2.2.2.2.1,
   (inode_write_slot_frame fs_dir16 3 inode_file (by unfold image_wf; decide)
      (by decide) (by decide) (by decide)).2.2.2.2.2.2.2⟩

set_option maxRecDepth 1000000 in
/-- C36 fails for the inode numbers from 16 on. On the filesystem mounted from the
fresh image (32 inodes, table sectors 2 and 3), `inode_write(u, 16, ino)` with an
allocated record returns 0, but the store `inodes[16] = *inode` is outside the
buffer of 16 records, which is all that is written back: sector
`s_inode_start + 16 / 16 = 3` afterwards is the sector of before, and its slot 0
does not hold the record. What the store does to the memory behind the buffer is
outside this model, so nothing is stated about the other sectors for this call.
For inode 3 the call does what the claim says: the image afterwards is the image
before with the record stored in slot 3 of sector 2. -/
theorem inode_write_slot_16_sector_unmodified :
    ((inode_write fs_fresh 16 inode_file).1 = 0 ∧
      (inode_write fs_fresh 16 inode_file).2.f.getD 3 [] = fs_fresh.f.getD 3 [] ∧
      ((inode_write fs_fresh 16 inode_file).2.f.getD 3 []).take 32 ≠ inode_bytes inode_file) ∧
    ((inode_write fs_fresh 3 inode_file).1 = 0 ∧
      (inode_write fs_fresh 3 inode_file).2.f
        = fs_fresh.f.set 2 (inode_store (fs_fresh.f.getD 2 []) 3 inode_file) ∧
      (((inode_write fs_fresh 3 inode_file).2.f.getD 2 []).drop 96).take 32
        = inode_bytes inode_file) := by
  have h16 : (inode_write fs_fresh 16 inode_file).2.f = fs_fresh.f := by decide
  refine ⟨⟨by decide, congrArg (fun f => f.getD 3 []) h16, by decide⟩,
    by decide, by decide, by decide⟩

/-! ## `filev6_writesector`: the branch that completes the last sector -/

theorem sector_write_at_end (f : List (List Nat)) (data : List Nat) (hlen : f.length < 2 ^ 22) :
    sector_write f f.length data = some (f ++ [sector_of_memory data]) := by
  rw [sector_write_small f f.length data hlen, if_neg (by omega), Nat.sub_self,
    List.replicate_zero, List.append_nil]

theorem mkfs_write_zero_sectors (m : Nat) (f : List (List Nat)) (b : Nat) (hb : b = f.length)
    (hlen : f.length + m ≤ 2 ^ 22) :
    ((List.range m).map (fun k => (b + k, zero_sector))).foldl
      (fun (acc : Option (List (List Nat))) (w : Nat × List Nat) =>
        match acc with
        | none => none
        | some f => sector_write f w.1 w.2) (some f)
      = some (f ++ List.replicate m zero_sector) := by
  induction m with
  | zero => simp
  | succ m ih =>
    rw [List.range_succ, List.map_append, List.foldl_append, ih (by omega)]
    have hl : (f ++ List.replicate m zero_sector).length = b + m := by
      rw [List.length_append, List.length_replicate, hb]
    show sector_write (f ++ List.replicate m zero_sector) (b + m) zero_sector = _
    rw [← hl, sector_write_at_end _ _ (by rw [hl]; omega),
      sector_of_memory_of_length _ zero_sector_length, List.replicate_succ', List.append_assoc]

set_option maxRecDepth 1000000 in
theorem mkfs_first_writes (sb : List Nat) :
    sector_write [] BOOTBLOCK_SECTOR
        (zero_sector.set BOOTBLOCK_MAGIC_NUM_OFFSET BOOTBLOCK_MAGIC_NUM) = some [boot_sector] ∧
    sector_write [boot_sector] SUPERBLOCK_SECTOR sb = some [boot_sector, sector_of_memory sb] ∧
    sector_write [boot_sector, sector_of_memory sb] (SUPERBLOCK_SECTOR + 1)
        (inode_store zero_sector 1 { inode_zero with i_mode := (IFDIR + IALLOC) % 65536 })
      = some [boot_sector, sector_of_memory sb, root_sector] := by
  refine ⟨by decide, ?_, ?_⟩
  · exact sector_write_at_end [boot_sector] sb
      (by simp only [List.length_cons, List.length_nil]; omega)
  · have h := sector_write_at_end [boot_sector, sector_of_memory sb]
      (inode_store zero_sector 1 { inode_zero with i_mode := (IFDIR + IALLOC) % 65536 })
      (by simp only [List.length_cons, List.length_nil]; omega)
    have e : sector_of_memory
        (inode_store zero_sector 1 { inode_zero with i_mode := (IFDIR + IALLOC) % 65536 })
        = root_sector := by decide
    rw [e] at h
    exact h

/-- The result of `mountv6_mkfs` for 16-bit parameters: `ERR_NOT_ENOUGH_BLOCS`
below `ceil(num_inodes / 16) + num_inodes` blocks, otherwise 0 with the image
`mkfs_image`. -/
theorem mountv6_mkfs_eq (nb ni : Nat) (hni : ni < 65536) :
    mountv6_mkfs nb ni =
      if nb < (ni + 15) / 16 + ni then (ERR_NOT_ENOUGH_BLOCS, []) else (0, mkfs_image nb ni) := by
  have e16 : INODES_PER_SECTOR = 16 := rfl
  have es : SUPERBLOCK_SECTOR = 1 := rfl
  unfold mountv6_mkfs
  dsimp only
  rw [e16]
  by_cases h : nb < (ni + 15) / 16 + ni
  · rw [if_pos h, if_pos h]
  rw [if_neg h, if_neg h]
  have hmod : (SUPERBLOCK_SECTOR + 1 + (ni + 15) / 16) % 65536 = 2 + (ni + 15) / 16 := by
    rw [es]; omega
  rw [hmod]
  have hm : 2 + (ni + 15) / 16 - (SUPERBLOCK_SECTOR + 1 + 1) = (ni + 15) / 16 - 1 := by
    rw [es]; omega
  rw [hm, List.foldl_append]
  obtain ⟨h0, h1, h2⟩ := mkfs_first_writes
    (superblock_bytes
      { s_isize := (ni + 15) / 16, s_fsize := nb, s_fbmsize := 0, s_ibmsize := 0,
        s_inode_start := SUPERBLOCK_SECTOR + 1, s_block_start := 2 + (ni + 15) / 16,
        s_fbm_start := 0, s_ibm_start := 0, s_flock := 0, s_ilock := 0, s_fmod := 0,
        s_ronly := 0, s_time := [0, 0] })
  simp only [List.foldl_cons, List.foldl_nil]
  rw [h0]
  dsimp only
  rw [h1]
  dsimp only
  rw [h2]
  rw [mkfs_write_zero_sectors ((ni + 15) / 16 - 1) _ (SUPERBLOCK_SECTOR + 1 + 1)
    (by simp only [List.length_cons, List.length_nil]; rfl) (by
    simp only [List.length_cons, List.length_nil]; omega)]
  rfl

theorem u16_bytes_roundtrip (a : Nat) (h : a < 65536) :
    ((a / 256 % 256) <<< 8 ||| a % 256) % 65536 = a := by
  rw [shiftLeft_or_eq _ _ 8 (by omega)]
  omega

/-- The superblock of `mountv6_mkfs` is read back from the sector it is written
to. -/
theorem superblock_decode_mkfs (nb ni : Nat) (hnb : nb < 65536) (hni : ni < 65536) :
    superblock_decode (sector_of_memory (superblock_bytes (mkfs_superblock nb ni)))
      = mkfs_superblock nb ni := by
  have hL : superblock_bytes (mkfs_superblock nb ni) =
      [(ni + 15) / 16 % 256, (ni + 15) / 16 / 256 % 256, nb % 256, nb / 256 % 256, 0, 0, 0, 0,
       2, 0, (2 + (ni + 15) / 16) % 256, (2 + (ni + 15) / 16) / 256 % 256, 0, 0, 0, 0,
       0, 0, 0, 0, 0, 0, 0, 0] := by
    simp [superblock_bytes, mkfs_superblock, bytes_u16]
  have hS : sector_of_memory (superblock_bytes (mkfs_superblock nb ni)) =
      superblock_bytes (mkfs_superblock nb ni) ++ List.replicate 488 0 := by
    unfold sector_of_memory
    rw [hL, List.take_of_length_le (by simp [SECTOR_SIZE])]
    rfl
  rw [hS, hL]
  unfold superblock_decode read_u16 mkfs_superblock
  simp only [List.cons_append, List.getD_cons_zero, List.getD_cons_succ, Nat.reduceAdd]
  rw [u16_bytes_roundtrip _ (by omega), u16_bytes_roundtrip nb hnb,
    u16_bytes_roundtrip (2 + (ni + 15) / 16) (by omega)]
  rfl

theorem mountv6_bitmaps_not_badbootsector (fuel : Nat) (f : List (List Nat)) (s : superblock) :
    mountv6_bitmaps fuel f s ≠ some (.error ERR_BADBOOTSECTOR) := by
  have hne : ∀ u : unix_filesystem,
      (some (.ok u) : Option (Except Int unix_filesystem)) ≠ some (.error ERR_BADBOOTSECTOR) := by
    intro u h
    injection h with h
    cases h
  have hnomem : (some (.error ERR_NOMEM) : Option (Except Int unix_filesystem))
      ≠ some (.error ERR_BADBOOTSECTOR) := by
    intro h
    injection h with h
    injection h with h
    exact absurd h (by decide)
  unfold mountv6_bitmaps
  rcases Option.eq_none_or_eq_some (bm_alloc (s.s_block_start + 1) (uint64_pred s.s_fsize))
    with h1 | ⟨fbm, h1⟩
  · rw [h1]; exact hnomem
  rw [h1]
  dsimp only
  rcases Option.eq_none_or_eq_some
      (bm_alloc s.s_inode_start (uint64_pred (s.s_isize * INODES_PER_SECTOR)))
    with h2 | ⟨ibm, h2⟩
  · rw [h2]; exact hnomem
  rw [h2]
  dsimp only
  rcases Option.eq_none_or_eq_some
      (fill_fbm fuel (fill_ibm { f := f, s := s, fbm := fbm, ibm := ibm }))
    with h3 | ⟨u, h3⟩
  · rw [h3]; exact fun h => by cases h
  · rw [h3]; exact hne u

theorem mkfs_image_sectors (nb ni : Nat) :
    sector_read (mkfs_image nb ni) BOOTBLOCK_SECTOR = some boot_sector ∧
    sector_read (mkfs_image nb ni) SUPERBLOCK_SECTOR
      = some (sector_of_memory (superblock_bytes (mkfs_superblock nb ni))) := by
  constructor
  · rw [sector_read_small _ _ (by decide)]; rfl
  · rw [sector_read_small _ _ (by decide)]; rfl

set_option maxRecDepth 1000000 in
theorem boot_sector_magic :
    boot_sector.getD BOOTBLOCK_MAGIC_NUM_OFFSET 0 = BOOTBLOCK_MAGIC_NUM := by
  decide

/-- C33. For 16-bit `num_blocks` and `num_inodes`, `mountv6_mkfs` answers
`ERR_NOT_ENOUGH_BLOCS` exactly when `num_blocks < ceil(num_inodes / 16) + num_inodes`.
Otherwise it answers 0, sector 0 of the image holds `BOOTBLOCK_MAGIC_NUM` at byte
`BOOTBLOCK_MAGIC_NUM_OFFSET`, the superblock decoded from sector 1 has
`s_isize = ceil(num_inodes / 16)`, `s_fsize = num_blocks`, `s_inode_start = 2` and
`s_block_start = 2 + s_isize`, and `mountv6` of the image never answers
`ERR_BADBOOTSECTOR`. -/
theorem mountv6_mkfs_geometry (nb ni : Nat) (hnb : nb < 65536) (hni : ni < 65536) :
    ((mountv6_mkfs nb ni).1 = ERR_NOT_ENOUGH_BLOCS ↔ nb < (ni + 15) / 16 + ni) ∧
    (¬ nb < (ni + 15) / 16 + ni →
      (mountv6_mkfs nb ni).1 = 0 ∧
      ∃ boot sb,
        sector_read (mountv6_mkfs nb ni).2 BOOTBLOCK_SECTOR = some boot ∧
        sector_read (mountv6_mkfs nb ni).2 SUPERBLOCK_SECTOR = some sb ∧
        boot.getD BOOTBLOCK_MAGIC_NUM_OFFSET 0 = BOOTBLOCK_MAGIC_NUM ∧
        (superblock_decode sb).s_isize = (ni + 15) / 16 ∧
        (superblock_decode sb).s_fsize = nb ∧
        (superblock_decode sb).s_inode_start = 2 ∧
        (superblock_decode sb).s_block_start = 2 + (superblock_decode sb).s_isize ∧
        ∀ fuel, mountv6 fuel (mountv6_mkfs nb ni).2 ≠ some (.error ERR_BADBOOTSECTOR)) := by
  have hmagic : boot_sector.getD BOOTBLOCK_MAGIC_NUM_OFFSET 0 = BOOTBLOCK_MAGIC_NUM :=
    boot_sector_magic
  have hne : (0 : Int) ≠ ERR_NOT_ENOUGH_BLOCS := by decide
  rw [mountv6_mkfs_eq nb ni hni]
  by_cases h : nb < (ni + 15) / 16 + ni
  · rw [if_pos h]
    exact ⟨⟨fun _ => h, fun _ => rfl⟩, fun hn => absurd h hn⟩
  rw [if_neg h]
  refine ⟨⟨fun h0 => absurd h0 hne, fun hn => absurd hn h⟩, fun _ => ?_⟩
  obtain ⟨hb, hs⟩ := mkfs_image_sectors nb ni
  have hdec := superblock_decode_mkfs nb ni hnb hni
  refine ⟨rfl, boot_sector, _, hb, hs, hmagic, by rw [hdec]; rfl, by rw [hdec]; rfl,
    by rw [hdec]; rfl, by rw [hdec]; rfl, ?_⟩
  intro fuel
  show mountv6 fuel (mkfs_image nb ni) ≠ _
  rw [mountv6, hb]
  dsimp only
  rw [if_neg (by rw [hmagic]; exact fun hne => hne rfl), hs]
  exact mountv6_bitmaps_not_badbootsector fuel _ _

set_option maxRecDepth 1000000 in
/-- C33, witness: 100 blocks and 32 inodes pass the test (`2 + 32 ≤ 100`), 33
blocks do not. -/
theorem mountv6_mkfs_geometry_witness :
    ((mountv6_mkfs 33 32).1 = ERR_NOT_ENOUGH_BLOCS ↔ 33 < (32 + 15) / 16 + 32) ∧
    (mountv6_mkfs 100 32).1 = 0 ∧
    (superblock_decode (fresh_image.getD 1 [])).s_block_start = 4 :=
  ⟨(mountv6_mkfs_geometry 33 32 (by decide) (by decide)).1,
   ((mountv6_mkfs_geometry 100 32 (by decide) (by decide)).2 (by decide)).1,
   by decide⟩

/-! ## The filesystem mounted from the image of `mountv6_mkfs` -/

theorem mountv6_superblock (fuel : Nat) (f : List (List Nat)) (u : unix_filesystem)
    (hm : mountv6 fuel f = some (.ok u)) :
    ∃ sb, sector_read f SUPERBLOCK_SECTOR = some sb ∧ u.s = superblock_decode sb ∧ u.f = f := by
  have hf := mountv6_image fuel f u hm
  unfold mountv6 at hm
  rcases Option.eq_none_or_eq_some (sector_read f BOOTBLOCK_SECTOR) with hb | ⟨bootSector, hb⟩
  · rw [hb] at hm; dsimp only at hm; exact absurd hm (some_error_ne_ok _ _)
  rw [hb] at hm
  dsimp only at hm
  by_cases hmagic : bootSector.getD BOOTBLOCK_MAGIC_NUM_OFFSET 0 ≠ BOOTBLOCK_MAGIC_NUM
  · rw [if_pos hmagic] at hm; exact absurd hm (some_error_ne_ok _ _)
  rw [if_neg hmagic] at hm
  rcases Option.eq_none_or_eq_some (sector_read f SUPERBLOCK_SECTOR) with hsb | ⟨sb, hsb⟩
  · rw [hsb] at hm; dsimp only at hm; exact absurd hm (some_error_ne_ok _ _)
  rw [hsb] at hm
  dsimp only at hm
  obtain ⟨fbm, ibm, _, _, h3⟩ := mountv6_bitmaps_ok fuel f (superblock_decode sb) u hm
  exact ⟨sb, hsb, (fill_fbm_frame fuel _ u h3).2.1, hf⟩

theorem zero_sector_getD (k : Nat) : zero_sector.getD k 0 = 0 := by
  unfold zero_sector
  rw [List.getD_eq_getElem?_getD, List.getElem?_replicate]
  split <;> rfl

theorem inode_decode_zero_sector (i : Nat) : inode_decode zero_sector i = inode_zero := by
  unfold inode_decode read_u16
  simp only [zero_sector_getD]
  rfl

set_option maxRecDepth 1000000 in
theorem inode_decode_root_sector (j : Nat) (hj : j < 16) :
    inode_decode root_sector (j * 32) = if j = 1 then inode_dir else inode_zero := by
  by_cases h1 : j = 1
  · subst h1
    decide
  · rw [if_neg h1, ← inode_decode_zero_sector (j * 32)]
    apply inode_decode_congr
    intro k hk
    exact inode_store_outside zero_sector 1 inode_dir zero_sector_length _ (by omega)

theorem mkfs_image_table (nb ni i : Nat) (hi : i < (ni + 15) / 16) :
    (mkfs_image nb ni).get? (2 + i) = some (if i = 0 then root_sector else zero_sector) := by
  unfold mkfs_image
  by_cases h0 : i = 0
  · subst h0; rfl
  · rw [if_neg h0, List.get?_eq_getElem?,
      List.getElem?_append_right (by simp only [List.length_cons, List.length_nil]; omega)]
    simp only [List.length_cons, List.length_nil]
    rw [List.getElem?_replicate, if_pos (by omega)]

theorem mkfs_image_length (nb ni : Nat) (h : 1 ≤ ni) :
    (mkfs_image nb ni).length = 2 + (ni + 15) / 16 := by
  unfold mkfs_image
  rw [List.length_append, List.length_replicate]
  simp only [List.length_cons, List.length_nil]
  omega

/-- Reading the inode table of a filesystem on the image of `mountv6_mkfs`: inode 1
is the allocated empty directory, every other record of the table is zero. -/
theorem mkfs_inode_read (nb ni : Nat) (hni : ni < 65536) (h1 : 1 ≤ ni) (u : unix_filesystem)
    (hf : u.f = mkfs_image nb ni) (hs : u.s = mkfs_superblock nb ni) :
    inode_read u 1 = (0, inode_dir) ∧
    ∀ x : Nat, x ≠ 1 → (x : Int) ≤ (u.s.s_isize : Int) * 16 - 1 →
      inode_read u x = (ERR_UNALLOCATED_INODE, inode_zero) := by
  have hisize : u.s.s_isize = (ni + 15) / 16 := by rw [hs]; rfl
  have hstart : u.s.s_inode_start = 2 := by rw [hs]; rfl
  have hread : inode_table_readable u = true := by
    rw [inode_table_readable_iff]
    intro i hi
    rw [hisize] at hi
    rw [hstart, hf, sector_read_small _ _ (by omega), mkfs_image_table nb ni i hi]
    rfl
  have hsector : ∀ x : Nat, (x : Int) ≤ (u.s.s_isize : Int) * 16 - 1 →
      inode_read u x =
        (if (inode_decode (if x / 16 = 0 then root_sector else zero_sector)
              (x % 16 * 32)).i_mode &&& IALLOC = 0 then ERR_UNALLOCATED_INODE else 0,
         inode_decode (if x / 16 = 0 then root_sector else zero_sector) (x % 16 * 32)) := by
    intro x hx
    obtain ⟨sec, hsec, hres⟩ := inode_read_in_range u x hread hx
    rw [hstart, hf, sector_read_small _ _ (by omega),
      mkfs_image_table nb ni (x / 16) (by omega)] at hsec
    rw [hres, Option.some.inj hsec]
  constructor
  · rw [hsector 1 (by omega)]
    have hd := inode_decode_root_sector 1 (by omega)
    rw [if_pos rfl] at hd
    rw [if_pos (by decide : 1 / 16 = 0), show 1 % 16 * 32 = 1 * 32 from rfl, hd]
    rfl
  · intro x hx1 hx
    rw [hsector x hx]
    have hdec : inode_decode (if x / 16 = 0 then root_sector else zero_sector) (x % 16 * 32)
        = inode_zero := by
      by_cases hq : x / 16 = 0
      · rw [if_pos hq, inode_decode_root_sector _ (Nat.mod_lt _ (by norm_num)),
          if_neg (by omega)]
      · rw [if_neg hq, inode_decode_zero_sector]
    rw [hdec]
    rfl


/-- C34. After a successful `mountv6_mkfs` with 16-bit parameters and
`num_inodes ≥ 2`, and a successful `mountv6` of the image: `inode_read(u, 1)`
returns 0 with the record whose `i_mode` is `IFDIR | IALLOC` and whose other
fields are zero (size 0); `inode_read(u, x)` returns `ERR_UNALLOCATED_INODE`, with
a zero record, for every other `x` up to `s_isize * INODES_PER_SECTOR - 1`; the
table starts at sector 2, `s_block_start = 2 + s_isize`, and the image ends with
the table: it has `2 + s_isize` sectors. -/
theorem mountv6_mkfs_empty_root (nb ni fuel : Nat) (u : unix_filesystem)
    (hnb : nb < 65536) (hni : ni < 65536) (h2 : 2 ≤ ni)
    (hmk : (mountv6_mkfs nb ni).1 = 0)
    (hm : mountv6 fuel (mountv6_mkfs nb ni).2 = some (.ok u)) :
    inode_read u 1 = (0, { inode_zero with i_mode := IFDIR ||| IALLOC }) ∧
    inode_getsize (inode_read u 1).2 = 0 ∧
    (∀ x : Nat, x ≠ 1 → (x : Int) ≤ (u.s.s_isize : Int) * INODES_PER_SECTOR - 1 →
      inode_read u x = (ERR_UNALLOCATED_INODE, inode_zero)) ∧
    u.s.s_isize = (ni + 15) / 16 ∧ u.s.s_inode_start = 2 ∧
    u.s.s_block_start = 2 + u.s.s_isize ∧ u.f.length = 2 + u.s.s_isize := by
  have himg : (mountv6_mkfs nb ni).2 = mkfs_image nb ni := by
    rw [mountv6_mkfs_eq nb ni hni] at hmk ⊢
    by_cases h : nb < (ni + 15) / 16 + ni
    · rw [if_pos h] at hmk
      exact absurd hmk (by decide)
    · rw [if_neg h]
  rw [himg] at hm
  obtain ⟨sb, hsb, hs, hf⟩ := mountv6_superblock fuel _ u hm
  rw [(mkfs_image_sectors nb ni).2] at hsb
  rw [← Option.some.inj hsb, superblock_decode_mkfs nb ni hnb hni] at hs
  obtain ⟨hroot, hothers⟩ := mkfs_inode_read nb ni hni (by omega) u hf hs
  have hisize : u.s.s_isize = (ni + 15) / 16 := by rw [hs]; rfl
  refine ⟨hroot, by rw [hroot]; rfl, hothers, hisize, by rw [hs]; rfl, by rw [hs]; rfl, ?_⟩
  rw [hf, mkfs_image_length nb ni (by omega), hisize]

set_option maxRecDepth 1000000 in
/-- C34, witness: the image of `mkfs` with 100 blocks and 32 inodes, mounted as
`fs_fresh`. -/
theorem mountv6_mkfs_empty_root_witness :
    ((mountv6_mkfs 100 32).1 = 0 ∧
      mountv6 8 (mountv6_mkfs 100 32).2 = some (.ok fs_fresh)) ∧
    inode_read fs_fresh 1 = (0, { inode_zero with i_mode := IFDIR ||| IALLOC }) ∧
    inode_getsize (inode_read fs_fresh 1).2 = 0 ∧
    (∀ x : Nat, x ≠ 1 → (x : Int) ≤ (fs_fresh.s.s_isize : Int) * INODES_PER_SECTOR - 1 →
      inode_read fs_fresh x = (ERR_UNALLOCATED_INODE, inode_zero)) ∧
    fs_fresh.s.s_isize = (32 + 15) / 16 ∧ fs_fresh.s.s_inode_start = 2 ∧
    fs_fresh.s.s_block_start = 2 + fs_fresh.s.s_isize ∧
    fs_fresh.f.length = 2 + fs_fresh.s.s_isize :=
  ⟨⟨by decide, by decide⟩,
   mountv6_mkfs_empty_root 100 32 8 fs_fresh (by decide) (by decide) (by decide) (by decide)
     (by decide)⟩

/-! ## Allocation: the bit of an ID handed out -/

theorem foldl_keeps (P : bmblock_array → Prop) (l : List Nat)
    (g : bmblock_array → Nat → bmblock_array) (hg : ∀ b j, P b → P (g b j))
    (b : bmblock_array) (h : P b) : P (l.foldl g b) := by
  induction l generalizing b with
  | nil => exact h
  | cons j l ih =>
    simp only [List.foldl_cons]
    exact ih (g b j) (hg b j h)

theorem bm_alloc_some (mn mx : Nat) (h : mn ≤ mx) (h2 : mx < 2 ^ 32) :
    bm_alloc mn mx = some (zero_bitmap mn mx) := by
  unfold bm_alloc
  rw [if_neg (by omega)]
  dsimp only
  have hn : (mx - mn + 1) % 2 ^ 64 = mx - mn + 1 := Nat.mod_eq_of_lt (by omega)
  rw [hn, if_neg (by omega)]
  rfl

theorem bm_get_zero_words (b : bmblock_array) (n : Nat) (h : b.bm = List.replicate n 0)
    (y : Nat) : bm_get b y ≠ 1 := by
  by_cases hr : b.min ≤ y ∧ y ≤ b.max
  · rw [bm_get_eq b y hr.1 hr.2, h]
    have hz : (List.replicate n 0).getD ((y - b.min) / 64) 0 = 0 := by
      rw [List.getD_eq_getElem?_getD, List.getElem?_replicate]
      split <;> rfl
    rw [hz]
    simp
  · rw [bm_get_out_of_range b y (by omega)]
    decide

theorem root_sector_getD (k : Nat) (hk : k < 32 ∨ 64 ≤ k) : root_sector.getD k 0 = 0 := by
  unfold root_sector
  rw [inode_store_outside zero_sector 1 inode_dir zero_sector_length k (by omega),
    zero_sector_getD]

theorem fill_ibm_sector_zero (m : Nat) (b : bmblock_array) :
    fill_ibm_sector zero_sector m b = b := by
  unfold fill_ibm_sector
  apply foldl_keeps (fun b' => b' = b) _ _ _ b rfl
  intro b' j hb'
  rw [zero_sector_getD, zero_sector_getD, if_neg (by decide)]
  exact hb'

theorem fill_ibm_sector_root (b : bmblock_array) (hmin : 2 ≤ b.min) :
    fill_ibm_sector root_sector 0 b = b := by
  unfold fill_ibm_sector
  apply foldl_keeps (fun b' => b' = b) _ _ _ b rfl
  intro b' j hb'
  dsimp only at hb' ⊢
  subst hb'
  by_cases hj : j = 1
  · subst hj
    split
    · exact bm_set_out_of_range b' _ (by rw [show INODES_PER_SECTOR = 16 from rfl]; omega)
    · rfl
  · rw [root_sector_getD _ (by omega), root_sector_getD _ (by omega), if_neg (by decide)]

theorem fill_ibm_loop_mkfs (nb ni : Nat) (hni : ni < 65536) (b : bmblock_array)
    (hmin : 2 ≤ b.min) (n : Nat) :
    ∀ (m : Nat) (tab : List Nat), m + n < (ni + 15) / 16 ∨ n = 0 →
      fill_ibm_loop (mkfs_image nb ni) 2 n m tab b = b := by
  induction n with
  | zero => intro m tab _; rfl
  | succ n ih =>
    intro m tab hm
    have hlt : m < (ni + 15) / 16 := by omega
    unfold fill_ibm_loop
    rw [sector_read_small _ _ (by omega), mkfs_image_table nb ni m hlt]
    dsimp only
    by_cases h0 : m = 0
    · subst h0
      rw [if_pos rfl, fill_ibm_sector_root b hmin]
      exact ih 1 _ (by omega)
    · rw [if_neg h0, fill_ibm_sector_zero]
      exact ih (m + 1) _ (by omega)

theorem fill_fbm_step_mkfs (nb ni fuel : Nat) (hni : ni < 65536) (h1 : 1 ≤ ni)
    (hfuel : 1 ≤ fuel) (i : Nat) (fbm : bmblock_array) :
    fill_fbm_step fuel (fs_mkfs nb ni) i fbm = some fbm := by
  unfold fill_fbm_step
  by_cases hi : i = ROOT_INUMBER
  · subst hi
    rw [if_pos (Or.inr rfl)]
    dsimp only
    have hr : inode_read (fs_mkfs nb ni) (ROOT_INUMBER % 65536) = (0, inode_dir) :=
      (mkfs_inode_read nb ni hni h1 (fs_mkfs nb ni) rfl rfl).1
    rw [hr]
    dsimp only
    rw [if_pos (by decide), if_neg (by decide)]
    obtain ⟨k, hk⟩ : ∃ k, fuel = k + 1 := ⟨fuel - 1, by omega⟩
    rw [hk, fill_fbm_inode, if_neg (by decide)]
  · have hget : ¬ (bm_get (fs_mkfs nb ni).ibm i = 1 ∨ i = ROOT_INUMBER) := by
      intro h
      rcases h with h | h
      · exact bm_get_zero_words _ _ rfl i h
      · exact hi h
    rw [if_neg hget]

theorem fill_fbm_loop_mkfs (nb ni fuel : Nat) (hni : ni < 65536) (h1 : 1 ≤ ni)
    (hfuel : 1 ≤ fuel) (n : Nat) :
    ∀ (i : Nat) (fbm : bmblock_array),
      fill_fbm_loop fuel (fs_mkfs nb ni) n i fbm = some fbm := by
  induction n with
  | zero => intro i fbm; rfl
  | succ n ih =>
    intro i fbm
    rw [fill_fbm_loop, fill_fbm_step_mkfs nb ni fuel hni h1 hfuel]
    exact ih (i + 1) fbm

/-- The image of `mountv6_mkfs` mounts, with any fuel of at least one step, when
it holds at least one inode and `num_blocks ≥ s_isize + 4` (a range of `fbm` that
is not empty): the result is the handle `fs_mkfs`, with no bit set in either
bitmap. -/
theorem mountv6_mkfs_image_mounts (nb ni fuel : Nat) (hnb : nb < 65536) (hni : ni < 65536)
    (h1 : 1 ≤ ni) (hb : (ni + 15) / 16 + 4 ≤ nb) (hfuel : 1 ≤ fuel) :
    mountv6 fuel (mkfs_image nb ni) = some (.ok (fs_mkfs nb ni)) := by
  obtain ⟨hboot, hsb⟩ := mkfs_image_sectors nb ni
  have hpf : uint64_pred (mkfs_superblock nb ni).s_fsize = nb - 1 := by
    show uint64_pred nb = nb - 1
    unfold uint64_pred
    rw [if_neg (by omega)]
  have hpi : uint64_pred ((mkfs_superblock nb ni).s_isize * INODES_PER_SECTOR)
      = (ni + 15) / 16 * 16 - 1 := by
    show uint64_pred ((ni + 15) / 16 * 16) = (ni + 15) / 16 * 16 - 1
    unfold uint64_pred
    rw [if_neg (by omega)]
  have hfbm : bm_alloc ((mkfs_superblock nb ni).s_block_start + 1)
      (uint64_pred (mkfs_superblock nb ni).s_fsize) = some (fs_mkfs nb ni).fbm := by
    rw [hpf]
    exact bm_alloc_some (2 + (ni + 15) / 16 + 1) (nb - 1) (by omega) (by omega)
  have hibm : bm_alloc (mkfs_superblock nb ni).s_inode_start
      (uint64_pred ((mkfs_superblock nb ni).s_isize * INODES_PER_SECTOR))
      = some (fs_mkfs nb ni).ibm := by
    rw [hpi]
    exact bm_alloc_some 2 ((ni + 15) / 16 * 16 - 1) (by omega) (by omega)
  have hfill_ibm : fill_ibm (unix_filesystem.mk (mkfs_image nb ni) (mkfs_superblock nb ni)
      (fs_mkfs nb ni).fbm (fs_mkfs nb ni).ibm) = fs_mkfs nb ni := by
    unfold fill_ibm
    dsimp only
    rw [show (mkfs_superblock nb ni).s_inode_start = 2 from rfl,
      fill_ibm_loop_mkfs nb ni hni (fs_mkfs nb ni).ibm (le_refl 2) _ 0 zero_sector
        (Or.inl (by show 0 + ((ni + 15) / 16 - 1) < (ni + 15) / 16; omega))]
    rfl
  have hfill_fbm : fill_fbm fuel (fs_mkfs nb ni) = some (fs_mkfs nb ni) := by
    have hi0 : toInt32 (uint64_pred (fs_mkfs nb ni).ibm.min) = 1 := by
      show toInt32 (uint64_pred 2) = 1
      decide
    rw [fill_fbm, hi0, if_neg (by decide), fill_fbm_loop_mkfs nb ni fuel hni h1 hfuel]
  rw [mountv6, hboot]
  dsimp only
  rw [if_neg (by rw [boot_sector_magic]; exact fun hne => hne rfl), hsb]
  dsimp only
  rw [superblock_decode_mkfs nb ni hnb hni, mountv6_bitmaps, hfbm]
  dsimp only
  rw [hibm]
  dsimp only
  rw [hfill_ibm, hfill_fbm]

end UnixV6
